import Mathlib

/-!
# A shallow embedding of `fcheck.c`, the xv6 file-system checker

The checker maps an image file into memory and runs ten validators over it, each of
which either returns or prints one diagnostic line and exits with status 1.

Conventions of the embedding.

* The mapped file is a byte buffer of `size` bytes.  Every access of the C program
  is a read at a byte offset from `addr`; a read that is not inside the buffer is
  undefined behaviour in C and yields the outcome `Res.undefined` here.
* Target assumptions: little-endian, 32-bit `uint`, 16-bit `short`, signed `char`,
  pointers wider than 32 bits (so `addr + x` never wraps, while arithmetic done in
  `uint` wraps modulo `2^32`).
* The `int` loop counters are natural numbers; this is exact while they stay below
  `2^31`.
* The scratch arrays (variable-length arrays on the stack) are functions with a
  length; an access at an index outside the array yields `Res.undefined`.
-/

namespace Fcheck

/-! ## Constants of the absent headers `types.h` and `fs.h`

The source includes the xv6 headers `types.h` and `fs.h`, which are not part of the
repository.  The constants and macros below and the record layouts used by the accessors
(`struct superblock`: `uint size, nblocks, ninodes`; `struct dinode`: `short type, major,
minor, nlink; uint size; uint addrs[NDIRECT+1]`; `struct dirent`: `ushort inum;
char name[14]`) are those of xv6. -/

/-- Modelled from the spec: `BSIZE` of the absent header `fs.h`, the block size in bytes. -/
def BSIZE : Nat := 512

/-- Modelled from the spec: `NDIRECT` of the absent header `fs.h`, the number of direct
pointers of an inode. -/
def NDIRECT : Nat := 12

/-- Modelled from the spec: `NINDIRECT` of the absent header `fs.h`, the number of
pointers of an indirect block, `BSIZE / sizeof(uint)`. -/
def NINDIRECT : Nat := 128

/-- Modelled from the spec: `IPB` of the absent header `fs.h`, inodes per block,
`BSIZE / sizeof(struct dinode)`. -/
def IPB : Nat := 8

/-- Modelled from the spec: `BPB` of the absent header `fs.h`, bitmap bits per block,
`BSIZE * 8`. -/
def BPB : Nat := 4096

/-- Modelled from the spec: `ROOTINO` of the absent header `fs.h`, the root inode number. -/
def ROOTINO : Nat := 1

/-- Modelled from the spec: `sizeof(struct dinode)` for the absent header `fs.h`:
`short type, major, minor, nlink; uint size; uint addrs[NDIRECT+1]`. -/
def dinodeSize : Nat := 64

/-- Modelled from the spec: `sizeof(struct dirent)` for the absent header `fs.h`:
`ushort inum; char name[14]`. -/
def direntSize : Nat := 16

/-- Modelled from the spec: the macro `IBLOCK(i)` of the absent header `fs.h`,
`((i) / IPB + 2)`: the block holding inode `i`. -/
def IBLOCK (i : Nat) : Nat := i / IPB + 2

/-- Modelled from the spec: the macro `BBLOCK(b, ninodes)` of the absent header `fs.h`,
`(b/BPB + (ninodes)/IPB + 3)`: the bitmap block holding the bit of block `b`. -/
def BBLOCK (b ninodes : Nat) : Nat := b / BPB + ninodes / IPB + 3

/-- The modulus of `uint` arithmetic. -/
def U32 : Nat := 4294967296

/-! ## Outcomes -/

/-- The twelve diagnostic lines of the checker. -/
inductive Msg where
  | badInode
  | badDirect
  | badIndirect
  | rootMissing
  | dirFormat
  | usedButFree
  | markedButUnused
  | directTwice
  | indirectTwice
  | inodeNotInDir
  | inodeFreeInDir
  | badRefCount
  | dirTwice
  deriving DecidableEq, Repr

/-- The text written to the error stream (without the terminating newline). -/
def Msg.text : Msg → String
  | .badInode => "ERROR: bad inode."
  | .badDirect => "ERROR: bad direct address in inode."
  | .badIndirect => "ERROR: bad indirect address in inode."
  | .rootMissing => "ERROR: root directory does not exist."
  | .dirFormat => "ERROR: directory not properly formatted."
  | .usedButFree => "ERROR: address used by inode but marked free in bitmap."
  | .markedButUnused => "ERROR: bitmap marks block in use but it is not in use."
  | .directTwice => "ERROR: direct address used more than once."
  | .indirectTwice => "ERROR: indirect address used more than once."
  | .inodeNotInDir => "ERROR: inode marked use but not found in a directory."
  | .inodeFreeInDir => "ERROR: inode referred to in directory but marked free."
  | .badRefCount => "ERROR: bad reference count for file."
  | .dirTwice => "ERROR: directory appears more than once in file system."

/-- The result of running a piece of the checker: it goes on with a value, it prints a
diagnostic and calls `exit(1)`, or it performs an access outside the mapped buffer or
outside a scratch array (undefined behaviour). -/
inductive Res (α : Type) where
  | ok (a : α)
  | fail (m : Msg)
  | undefined
  deriving DecidableEq, Repr

/-- Sequencing: a stop (`fail` or `undefined`) ends the run. -/
def Res.bind {α β : Type} (x : Res α) (f : α → Res β) : Res β :=
  match x with
  | .ok a => f a
  | .fail m => .fail m
  | .undefined => .undefined

instance : Monad Res where
  pure := Res.ok
  bind := Res.bind

/-- A validator that returns to `main`. -/
abbrev pass : Res Unit := Res.ok ()

/-! ## The mapped image -/

/-- The mapped file: `size` is `st.st_size`, `mem off` the byte at `addr + off`. -/
structure Image where
  size : Nat
  mem : Nat → Nat

/-- A `char` read at `addr + off`. -/
def Image.u8 (img : Image) (off : Nat) : Res Nat :=
  if off + 1 ≤ img.size then .ok (img.mem off % 256) else .undefined

/-- A `short`/`ushort` read at `addr + off`, as an unsigned little-endian value. -/
def Image.u16 (img : Image) (off : Nat) : Res Nat :=
  if off + 2 ≤ img.size then .ok (img.mem off % 256 + 256 * (img.mem (off + 1) % 256))
  else .undefined

/-- A `uint` read at `addr + off`, little-endian. -/
def Image.u32 (img : Image) (off : Nat) : Res Nat :=
  if off + 4 ≤ img.size then
    .ok (img.mem off % 256 + 256 * (img.mem (off + 1) % 256)
      + 65536 * (img.mem (off + 2) % 256) + 16777216 * (img.mem (off + 3) % 256))
  else .undefined

/-- The superblock fields the checker uses. -/
structure Superblock where
  nblocks : Nat
  ninodes : Nat
  deriving DecidableEq, Repr

/-- The superblock `sb = addr + 1 * BLOCK_SIZE`: `uint size, nblocks, ninodes`.  Every
validator evaluates `sb->ninodes` first (the loop condition) and `nblocks` lies before it,
so both fields are read together. -/
def Image.superblock (img : Image) : Res Superblock := do
  let nb ← img.u32 (BSIZE + 4)
  let ni ← img.u32 (BSIZE + 8)
  pure { nblocks := nb, ninodes := ni }

/-- Byte offset of inode slot `p`: `rInodeP = addr + IBLOCK((uint)0)*BLOCK_SIZE`, advanced
`p` times. -/
def inodeOff (p : Nat) : Nat := IBLOCK 0 * BSIZE + dinodeSize * p

/-- The field `rInodeP->type` of slot `p` (a `short`; only compared with 0, 1, 2, 3, for
which the unsigned reading gives the same answers). -/
def Image.inodeType (img : Image) (p : Nat) : Res Nat := img.u16 (inodeOff p)

/-- The field `rInodeP->nlink` of slot `p`, a `short` converted to `uint` (sign-extended). -/
def Image.inodeNlink (img : Image) (p : Nat) : Res Nat := do
  let n ← img.u16 (inodeOff p + 6)
  pure (if n < 32768 then n else n + (U32 - 65536))

/-- The field `rInodeP->size` of slot `p`. -/
def Image.inodeSize (img : Image) (p : Nat) : Res Nat := img.u32 (inodeOff p + 8)

/-- The field `rInodeP->addrs[j]` of slot `p`. -/
def Image.inodeAddr (img : Image) (p j : Nat) : Res Nat := img.u32 (inodeOff p + 12 + 4 * j)

/-- Byte offset `b * BLOCK_SIZE` of block `b`, computed in `uint`. -/
def blockOff (b : Nat) : Nat := (b * BSIZE) % U32

/-- The value `BBLOCK(IBLOCK(sb->ninodes - 1), sb->ninodes)` that the validators call
`lastBitmapBlock`, computed in `uint`. -/
def lastBitmapBlock (ninodes : Nat) : Nat :=
  BBLOCK (IBLOCK ((ninodes + U32 - 1) % U32)) ninodes % U32

/-- The value `BBLOCK(IBLOCK(sb->ninodes - 1), sb->ninodes) + 1` that Rules 6 to 8 call
`firstDataBlock`. -/
def firstDataBlock (ninodes : Nat) : Nat := (lastBitmapBlock ninodes + 1) % U32

/-- Whether `strcmp(s, lit) == 0` for the C string at offset `off` and the literal with
characters `lit`; bytes are read one at a time up to the first difference. -/
def Image.strEq (img : Image) : Nat → List Nat → Res Bool
  | off, [] => do
    let c ← img.u8 off
    pure (c == 0)
  | off, x :: xs => do
    let c ← img.u8 off
    if c = x then img.strEq (off + 1) xs else pure false

/-- The literal `"."`. -/
def dot : List Nat := [46]

/-- The literal `".."`. -/
def dotdot : List Nat := [46, 46]

/-! ## Rule 1 -/

/-- The loop of `validateRule1`: `n` iterations remain and `rInodeP` is at slot `p`. -/
def validateRule1.scan (img : Image) : Nat → Nat → Res Unit
  | 0, _ => pass
  | n + 1, p => do
    let t ← img.inodeType p
    if t = 0 then validateRule1.scan img n (p + 1)
    else if t = 1 ∨ t = 2 ∨ t = 3 then validateRule1.scan img n (p + 1)
    else .fail .badInode

/-- The function `validateRule1`: `for (i = 1; i < sb->ninodes; i++, rInodeP++)` runs
`ninodes - 1` times with `rInodeP` starting at slot 0. -/
def validateRule1 (img : Image) : Res Unit := do
  let sb ← img.superblock
  validateRule1.scan img (sb.ninodes - 1) 0

/-! ## Rule 2 -/

/-- The direct-pointer loop of `validateRule2` for the inode at slot `p`: `n` iterations
remain, the next index is `j`. -/
def validateRule2.direct (img : Image) (sb : Superblock) (p : Nat) : Nat → Nat → Res Unit
  | 0, _ => pass
  | n + 1, j => do
    let a ← img.inodeAddr p j
    if a = 0 then validateRule2.direct img sb p n (j + 1)
    else if lastBitmapBlock sb.ninodes < a ∧ a < sb.nblocks then
      validateRule2.direct img sb p n (j + 1)
    else .fail .badDirect

/-- The indirect-block loop of `validateRule2`: `n` iterations remain, `indTemp` is at byte
offset `off`. -/
def validateRule2.indirect (img : Image) (sb : Superblock) : Nat → Nat → Res Unit
  | 0, _ => pass
  | n + 1, off => do
    let e ← img.u32 off
    if e = 0 then validateRule2.indirect img sb n (off + 4)
    else if lastBitmapBlock sb.ninodes < e ∧ e < sb.nblocks then
      validateRule2.indirect img sb n (off + 4)
    else .fail .badIndirect

/-- The inode loop of `validateRule2`, in the state `(i, rInodeP)` = `(i, slot p)`.  The two
inner loops use the same counter `i`: after the direct loop `i` is `NDIRECT`, after the
indirect loop it is `NINDIRECT`, and the `i++` of the inode loop follows.  Each iteration
advances `rInodeP` and reads the slot, so the scan ends in at most `img.size` iterations;
`fuel` counts them (see `validateRule2_scan_fuel`). -/
def validateRule2.scan (img : Image) (sb : Superblock) : Nat → Nat → Nat → Res Unit
  | 0, i, _ => if sb.ninodes ≤ i then pass else .undefined
  | fuel + 1, i, p =>
    if sb.ninodes ≤ i then pass
    else do
      let t ← img.inodeType p
      if t = 0 then validateRule2.scan img sb fuel (i + 1) (p + 1)
      else if t = 1 ∨ t = 2 ∨ t = 3 then do
        let sz ← img.inodeSize p
        if sz = 0 then validateRule2.scan img sb fuel (i + 1) (p + 1)
        else do
          validateRule2.direct img sb p NDIRECT 0
          let ind ← img.inodeAddr p NDIRECT
          if ind = 0 then validateRule2.scan img sb fuel (NDIRECT + 1) (p + 1)
          else if ind ≤ lastBitmapBlock sb.ninodes ∨ sb.nblocks ≤ ind then .fail .badIndirect
          else do
            validateRule2.indirect img sb NINDIRECT (blockOff ind)
            validateRule2.scan img sb fuel (NINDIRECT + 1) (p + 1)
      else validateRule2.scan img sb fuel (i + 1) (p + 1)

/-- The function `validateRule2`. -/
def validateRule2 (img : Image) : Res Unit := do
  let sb ← img.superblock
  validateRule2.scan img sb img.size 1 0

/-! ## Rule 3 -/

/-- The entry loop of `validateRule3`: `n` iterations remain, `de` is at byte offset `off`;
the result is the flag `parentItself`. -/
def validateRule3.scan (img : Image) : Nat → Nat → Res Bool
  | 0, _ => pure false
  | n + 1, off => do
    let isParent ← img.strEq (off + 2) dotdot
    if isParent then do
      let inum ← img.u16 off
      if inum = 1 then pure true else validateRule3.scan img n (off + direntSize)
    else validateRule3.scan img n (off + direntSize)

/-- The function `validateRule3`.  The tests `rInodeP->addrs != 0` (an array inside the
record) and `de != 0` (a pointer into the mapping) always succeed, so `rootDir` is always
set. -/
def validateRule3 (img : Image) : Res Unit := do
  let sz ← img.inodeSize 1
  let direntCount := sz / direntSize
  let a0 ← img.inodeAddr 1 0
  let de := blockOff a0
  let inum0 ← img.u16 de
  let rootDirInum := decide (inum0 = 1)
  let parentItself ← validateRule3.scan img direntCount de
  if !rootDirInum || !parentItself then .fail .rootMissing else pass

/-! ## Rule 4 -/

/-- The three flags of `validateRule4`. -/
structure Flags where
  currEntry : Bool
  parentEntry : Bool
  currPToItself : Bool
  deriving DecidableEq, Repr

/-- The test `currEntry && parentEntry && currPToItself`. -/
def Flags.all (f : Flags) : Bool := f.currEntry && f.parentEntry && f.currPToItself

/-- The effect on the flags of a non-empty entry with inode number `inum` in the directory
numbered `self` (the value `i - 1`): the two `strcmp` tests of the entry loop of
`validateRule4`. -/
def Flags.visit (f : Flags) (self inum : Nat) (isDot isParent : Bool) : Flags :=
  let f1 : Flags :=
    if isDot then
      { f with currEntry := true,
               currPToItself := if inum = self then true else f.currPToItself }
    else f
  if isParent then { f1 with parentEntry := true } else f1

/-- The entry loop of `validateRule4` for the inode numbered `self` (the value `i - 1`):
`n` iterations remain, `de` is at byte offset `off`.  An empty entry is skipped before the
`break` test. -/
def validateRule4.entries (img : Image) (self : Nat) : Nat → Nat → Flags → Res Flags
  | 0, _, f => pure f
  | n + 1, off, f => do
    let inum ← img.u16 off
    if inum = 0 then validateRule4.entries img self n (off + direntSize) f
    else do
      let isDot ← img.strEq (off + 2) dot
      let isParent ← img.strEq (off + 2) dotdot
      let f2 := f.visit self inum isDot isParent
      if f2.all then pure f2
      else validateRule4.entries img self n (off + direntSize) f2

/-- The direct-block loop of `validateRule4` for slot `p`: `n` iterations remain, the next
index is `j`. -/
def validateRule4.direct (img : Image) (cnt p self : Nat) : Nat → Nat → Flags → Res Flags
  | 0, _, f => pure f
  | n + 1, j, f => do
    let a ← img.inodeAddr p j
    if a = 0 then validateRule4.direct img cnt p self n (j + 1) f
    else do
      let f1 ← validateRule4.entries img self cnt (blockOff a) f
      if f1.all then pure f1
      else validateRule4.direct img cnt p self n (j + 1) f1

/-- The indirect-block loop of `validateRule4`: `n` iterations remain, `indTemp` is at byte
offset `off`. -/
def validateRule4.indirect (img : Image) (cnt self : Nat) : Nat → Nat → Flags → Res Flags
  | 0, _, f => pure f
  | n + 1, off, f => do
    let e ← img.u32 off
    if e = 0 then validateRule4.indirect img cnt self n (off + 4) f
    else do
      let f1 ← validateRule4.entries img self cnt (blockOff e) f
      if f1.all then pure f1
      else validateRule4.indirect img cnt self n (off + 4) f1

/-- The body of the inode loop of `validateRule4` for a directory at slot `p` with
`i - 1 = self`: the flags after both block loops. -/
def validateRule4.dirFlags (img : Image) (cnt p self : Nat) : Res Flags := do
  let f ← validateRule4.direct img cnt p self NDIRECT 0 ⟨false, false, false⟩
  let ind ← img.inodeAddr p NDIRECT
  if ind = 0 then pure f
  else validateRule4.indirect img cnt self NINDIRECT (blockOff ind) f

/-- The inode loop of `validateRule4`: `n` iterations remain, the counter is `i` and
`rInodeP` is at slot `p`.  The test `rInodeP->addrs == 0` never succeeds. -/
def validateRule4.scan (img : Image) (cnt : Nat) : Nat → Nat → Nat → Res Unit
  | 0, _, _ => pass
  | n + 1, i, p => do
    let t ← img.inodeType p
    if t = 0 then validateRule4.scan img cnt n (i + 1) (p + 1)
    else if t = 1 then do
      let f ← validateRule4.dirFlags img cnt p (i - 1)
      if !f.all then .fail .dirFormat
      else validateRule4.scan img cnt n (i + 1) (p + 1)
    else validateRule4.scan img cnt n (i + 1) (p + 1)

/-- The function `validateRule4`; `direntCount` is computed once, from the root inode. -/
def validateRule4 (img : Image) : Res Unit := do
  let rsize ← img.inodeSize ROOTINO
  let direntCount := rsize / direntSize
  let sb ← img.superblock
  validateRule4.scan img direntCount (sb.ninodes - 1) 1 0

/-! ## The bitmap test and the scratch arrays -/

/-- The array `bitMask` of `validateRule5` and `validateRule6`. -/
def bitMask (k : Nat) : Nat := [1, 2, 4, 8, 16, 32, 64, 128].getD k 0

/-- The conversion of a `char` holding the byte `c` to `int`, as a 32-bit pattern. -/
def sext8 (c : Nat) : Nat := if c < 128 then c else c + (U32 - 256)

/-- Byte offset of `bitmapBlock = (char *)rInodeP + inodeBlockCount * BLOCK_SIZE` with
`inodeBlockCount = (sb->ninodes/IPB) + 1`; the product is computed in `uint`. -/
def bitmapBase (ninodes : Nat) : Nat := inodeOff 0 + ((ninodes / IPB + 1) % U32 * BSIZE) % U32

/-- The value `*(bitmapBlock + b/8) & bitMask[b%8]` stored in `isPresentBitmap`. -/
def Image.bitmapTest (img : Image) (ninodes b : Nat) : Res Nat := do
  let c ← img.u8 (bitmapBase ninodes + b / 8)
  pure (Nat.land (sext8 c) (sext8 (bitMask (b % 8))))

/-- A scratch array of `len` cells of type `uint`. -/
structure Scratch where
  len : Nat
  cell : Nat → Nat

/-- The array after `memset(..., 0, ...)`. -/
def Scratch.zero (len : Nat) : Scratch := ⟨len, fun _ => 0⟩

/-- The read `a[i]`. -/
def Scratch.get (s : Scratch) (i : Nat) : Res Nat :=
  if i < s.len then .ok (s.cell i) else .undefined

/-- The write `a[i] = v`. -/
def Scratch.set (s : Scratch) (i v : Nat) : Res Scratch :=
  if i < s.len then .ok ⟨s.len, fun k => if k = i then v else s.cell k⟩ else .undefined

/-- The update `a[i]++`. -/
def Scratch.incr (s : Scratch) (i : Nat) : Res Scratch := do
  let c ← s.get i
  s.set i ((c + 1) % U32)

/-- The index `b - firstDataBlock`, computed in `uint`. -/
def dataIndex (fdb b : Nat) : Nat := (b + U32 - fdb) % U32

/-! ## Rule 5 -/

/-- The direct-pointer loop of `validateRule5` for slot `p`. -/
def validateRule5.direct (img : Image) (sb : Superblock) (p : Nat) : Nat → Nat → Res Unit
  | 0, _ => pass
  | n + 1, j => do
    let a ← img.inodeAddr p j
    if a = 0 then validateRule5.direct img sb p n (j + 1)
    else if a ≤ lastBitmapBlock sb.ninodes ∨ sb.nblocks ≤ a then
      validateRule5.direct img sb p n (j + 1)
    else do
      let isPresentBitmap ← img.bitmapTest sb.ninodes a
      if isPresentBitmap = 0 then .fail .usedButFree
      else validateRule5.direct img sb p n (j + 1)

/-- The indirect-block loop of `validateRule5`; `indTemp` is at byte offset `off`. -/
def validateRule5.indirect (img : Image) (sb : Superblock) : Nat → Nat → Res Unit
  | 0, _ => pass
  | n + 1, off => do
    let e ← img.u32 off
    if e = 0 then validateRule5.indirect img sb n (off + 4)
    else do
      let isPresentBitmap ← img.bitmapTest sb.ninodes e
      if isPresentBitmap = 0 then .fail .usedButFree
      else validateRule5.indirect img sb n (off + 4)

/-- The inode loop of `validateRule5`: `n` iterations remain, `rInodeP` is at slot `p`. -/
def validateRule5.scan (img : Image) (sb : Superblock) : Nat → Nat → Res Unit
  | 0, _ => pass
  | n + 1, p => do
    let t ← img.inodeType p
    if t = 0 then validateRule5.scan img sb n (p + 1)
    else if t = 1 ∨ t = 2 ∨ t = 3 then do
      validateRule5.direct img sb p NDIRECT 0
      let ind ← img.inodeAddr p NDIRECT
      if ind = 0 then validateRule5.scan img sb n (p + 1)
      else do
        validateRule5.indirect img sb NINDIRECT (blockOff ind)
        validateRule5.scan img sb n (p + 1)
    else validateRule5.scan img sb n (p + 1)

/-- The function `validateRule5`. -/
def validateRule5 (img : Image) : Res Unit := do
  let sb ← img.superblock
  validateRule5.scan img sb (sb.ninodes - 1) 0

/-! ## Rule 6 -/

/-- The direct-pointer loop of the marking pass of `validateRule6`. -/
def validateRule6.markDirect (img : Image) (fdb p : Nat) : Nat → Nat → Scratch → Res Scratch
  | 0, _, s => pure s
  | n + 1, j, s => do
    let a ← img.inodeAddr p j
    if a = 0 then validateRule6.markDirect img fdb p n (j + 1) s
    else do
      let s1 ← s.set (dataIndex fdb a) 1
      validateRule6.markDirect img fdb p n (j + 1) s1

/-- The indirect-block loop of the marking pass of `validateRule6`. -/
def validateRule6.markIndirect (img : Image) (fdb : Nat) : Nat → Nat → Scratch → Res Scratch
  | 0, _, s => pure s
  | n + 1, off, s => do
    let e ← img.u32 off
    if e = 0 then validateRule6.markIndirect img fdb n (off + 4) s
    else do
      let s1 ← s.set (dataIndex fdb e) 1
      validateRule6.markIndirect img fdb n (off + 4) s1

/-- The marking pass of `validateRule6` over the inode slots, from slot `p`. -/
def validateRule6.mark (img : Image) (fdb : Nat) : Nat → Nat → Scratch → Res Scratch
  | 0, _, s => pure s
  | n + 1, p, s => do
    let t ← img.inodeType p
    if t = 0 then validateRule6.mark img fdb n (p + 1) s
    else if t = 1 ∨ t = 2 ∨ t = 3 then do
      let s1 ← validateRule6.markDirect img fdb p NDIRECT 0 s
      let ind ← img.inodeAddr p NDIRECT
      if ind = 0 then validateRule6.mark img fdb n (p + 1) s1
      else do
        let s2 ← s1.set (dataIndex fdb ind) 1
        let s3 ← validateRule6.markIndirect img fdb NINDIRECT (blockOff ind) s2
        validateRule6.mark img fdb n (p + 1) s3
    else validateRule6.mark img fdb n (p + 1) s

/-- The second loop of `validateRule6`: `n` iterations remain, the counter is `i`. -/
def validateRule6.check (img : Image) (sb : Superblock) (s : Scratch) : Nat → Nat → Res Unit
  | 0, _ => pass
  | n + 1, i => do
    let isPresentBitmap ← img.bitmapTest sb.ninodes ((firstDataBlock sb.ninodes + i) % U32)
    let used ← s.get i
    if used = 0 ∧ isPresentBitmap ≠ 0 then .fail .markedButUnused
    else validateRule6.check img sb s n (i + 1)

/-- The function `validateRule6`. -/
def validateRule6 (img : Image) : Res Unit := do
  let sb ← img.superblock
  let isBlockUsed ← validateRule6.mark img (firstDataBlock sb.ninodes) sb.ninodes 0
    (Scratch.zero sb.nblocks)
  validateRule6.check img sb isBlockUsed sb.nblocks 0

/-! ## Rules 7 and 8 -/

/-- The step `if (isBlockUsed[x] == 1) ... exit(1) else isBlockUsed[x] = 1` with
diagnostic `m`. -/
def Scratch.claim (s : Scratch) (i : Nat) (m : Msg) : Res Scratch := do
  let used ← s.get i
  if used = 1 then .fail m else s.set i 1

/-- The direct-pointer loop of `validateRule7_8`. -/
def validateRule7_8.direct (img : Image) (fdb p : Nat) : Nat → Nat → Scratch → Res Scratch
  | 0, _, s => pure s
  | n + 1, j, s => do
    let a ← img.inodeAddr p j
    if a = 0 then validateRule7_8.direct img fdb p n (j + 1) s
    else do
      let s1 ← s.claim (dataIndex fdb a) .directTwice
      validateRule7_8.direct img fdb p n (j + 1) s1

/-- The indirect-block loop of `validateRule7_8`. -/
def validateRule7_8.indirect (img : Image) (fdb : Nat) : Nat → Nat → Scratch → Res Scratch
  | 0, _, s => pure s
  | n + 1, off, s => do
    let e ← img.u32 off
    if e = 0 then validateRule7_8.indirect img fdb n (off + 4) s
    else do
      let s1 ← s.claim (dataIndex fdb e) .indirectTwice
      validateRule7_8.indirect img fdb n (off + 4) s1

/-- The inode loop of `validateRule7_8`, from slot `p`. -/
def validateRule7_8.scan (img : Image) (fdb : Nat) : Nat → Nat → Scratch → Res Scratch
  | 0, _, s => pure s
  | n + 1, p, s => do
    let t ← img.inodeType p
    if t = 0 then validateRule7_8.scan img fdb n (p + 1) s
    else if t = 1 ∨ t = 2 ∨ t = 3 then do
      let s1 ← validateRule7_8.direct img fdb p NDIRECT 0 s
      let ind ← img.inodeAddr p NDIRECT
      if ind = 0 then validateRule7_8.scan img fdb n (p + 1) s1
      else do
        let s2 ← s1.claim (dataIndex fdb ind) .indirectTwice
        let s3 ← validateRule7_8.indirect img fdb NINDIRECT (blockOff ind) s2
        validateRule7_8.scan img fdb n (p + 1) s3
    else validateRule7_8.scan img fdb n (p + 1) s

/-- The function `validateRule7_8`. -/
def validateRule7_8 (img : Image) : Res Unit := do
  let sb ← img.superblock
  let _ ← validateRule7_8.scan img (firstDataBlock sb.ninodes) sb.ninodes 0
    (Scratch.zero sb.nblocks)
  pass

/-! ## The directory traversal of Rules 9 to 12

`validateRule9`, `validateRule10` and `validateRule11_12` contain the same four nested loops
(inode slots from slot 0, direct blocks, indirect block, `direntCount` entries per block) and
differ in what they do with an entry; `visit off s` is that step for the entry at byte
offset `off`, with the scratch state `s`. -/

/-- The entry loop: `n` iterations remain, `de` is at byte offset `off`. -/
def walkEntries {σ : Type} (visit : Nat → σ → Res σ) : Nat → Nat → σ → Res σ
  | 0, _, s => pure s
  | n + 1, off, s => do
    let s1 ← visit off s
    walkEntries visit n (off + direntSize) s1

/-- The direct-block loop for slot `p`. -/
def walkDirect {σ : Type} (img : Image) (cnt : Nat) (visit : Nat → σ → Res σ) (p : Nat) :
    Nat → Nat → σ → Res σ
  | 0, _, s => pure s
  | n + 1, j, s => do
    let a ← img.inodeAddr p j
    if a = 0 then walkDirect img cnt visit p n (j + 1) s
    else do
      let s1 ← walkEntries visit cnt (blockOff a) s
      walkDirect img cnt visit p n (j + 1) s1

/-- The indirect-block loop; `indTemp` is at byte offset `off`. -/
def walkIndirect {σ : Type} (img : Image) (cnt : Nat) (visit : Nat → σ → Res σ) :
    Nat → Nat → σ → Res σ
  | 0, _, s => pure s
  | n + 1, off, s => do
    let e ← img.u32 off
    if e = 0 then walkIndirect img cnt visit n (off + 4) s
    else do
      let s1 ← walkEntries visit cnt (blockOff e) s
      walkIndirect img cnt visit n (off + 4) s1

/-- The loop over the directory inodes, from slot `p`. -/
def walkInodes {σ : Type} (img : Image) (cnt : Nat) (visit : Nat → σ → Res σ) :
    Nat → Nat → σ → Res σ
  | 0, _, s => pure s
  | n + 1, p, s => do
    let t ← img.inodeType p
    if t = 0 then walkInodes img cnt visit n (p + 1) s
    else if t = 1 then do
      let s1 ← walkDirect img cnt visit p NDIRECT 0 s
      let ind ← img.inodeAddr p NDIRECT
      if ind = 0 then walkInodes img cnt visit n (p + 1) s1
      else do
        let s2 ← walkIndirect img cnt visit NINDIRECT (blockOff ind) s1
        walkInodes img cnt visit n (p + 1) s2
    else walkInodes img cnt visit n (p + 1) s

/-! ## Rule 9 -/

/-- The entry step of `validateRule9`: `isInodeInDir[de->inum]++` for a non-empty entry. -/
def validateRule9.visit (img : Image) (off : Nat) (s : Scratch) : Res Scratch := do
  let inum ← img.u16 off
  if inum = 0 then pure s else s.incr inum

/-- The second loop of `validateRule9`: `n` iterations remain, the counter and the slot
are `i`. -/
def validateRule9.check (img : Image) (s : Scratch) : Nat → Nat → Res Unit
  | 0, _ => pass
  | n + 1, i => do
    let t ← img.inodeType i
    if t = 0 then validateRule9.check img s n (i + 1)
    else if t = 1 ∨ t = 2 ∨ t = 3 then do
      let c ← s.get i
      if c = 0 then .fail .inodeNotInDir else validateRule9.check img s n (i + 1)
    else validateRule9.check img s n (i + 1)

/-- The function `validateRule9`. -/
def validateRule9 (img : Image) : Res Unit := do
  let rsize ← img.inodeSize ROOTINO
  let direntCount := rsize / direntSize
  let sb ← img.superblock
  let isInodeInDir ← walkInodes img direntCount (validateRule9.visit img) sb.ninodes 0
    (Scratch.zero sb.ninodes)
  validateRule9.check img isInodeInDir sb.ninodes 0

/-! ## Rule 10 -/

/-- The first loop of `validateRule10`: `isInodeInUse[i]++` for every in-use slot. -/
def validateRule10.build (img : Image) : Nat → Nat → Scratch → Res Scratch
  | 0, _, s => pure s
  | n + 1, i, s => do
    let t ← img.inodeType i
    if t = 0 then validateRule10.build img n (i + 1) s
    else if t = 1 ∨ t = 2 ∨ t = 3 then do
      let s1 ← s.incr i
      validateRule10.build img n (i + 1) s1
    else validateRule10.build img n (i + 1) s

/-- The entry step of `validateRule10`. -/
def validateRule10.visit (img : Image) (inUse : Scratch) (off : Nat) (_ : Unit) : Res Unit := do
  let inum ← img.u16 off
  if inum = 0 then pass
  else do
    let u ← inUse.get inum
    if u = 0 then .fail .inodeFreeInDir else pass

/-- The function `validateRule10`. -/
def validateRule10 (img : Image) : Res Unit := do
  let rsize ← img.inodeSize ROOTINO
  let direntCount := rsize / direntSize
  let sb ← img.superblock
  let isInodeInUse ← validateRule10.build img sb.ninodes 0 (Scratch.zero sb.ninodes)
  walkInodes img direntCount (validateRule10.visit img isInodeInUse) sb.ninodes 0 ()

/-! ## Rules 11 and 12 -/

/-- The entry step of `validateRule11_12`: entries that are empty, `.` or `..` are skipped. -/
def validateRule11_12.visit (img : Image) (off : Nat) (s : Scratch) : Res Scratch := do
  let inum ← img.u16 off
  if inum = 0 then pure s
  else do
    let isDot ← img.strEq (off + 2) dot
    if isDot then pure s
    else do
      let isParent ← img.strEq (off + 2) dotdot
      if isParent then pure s else s.incr inum

/-- The second loop of `validateRule11_12`. -/
def validateRule11_12.check (img : Image) (s : Scratch) : Nat → Nat → Res Unit
  | 0, _ => pass
  | n + 1, i => do
    let t ← img.inodeType i
    if t = 0 then validateRule11_12.check img s n (i + 1)
    else if t = 2 then do
      let c ← s.get i
      let nlink ← img.inodeNlink i
      if c ≠ nlink then .fail .badRefCount else validateRule11_12.check img s n (i + 1)
    else if t = 1 then do
      let c ← s.get i
      if 1 < c then .fail .dirTwice else validateRule11_12.check img s n (i + 1)
    else validateRule11_12.check img s n (i + 1)

/-- The function `validateRule11_12`. -/
def validateRule11_12 (img : Image) : Res Unit := do
  let rsize ← img.inodeSize ROOTINO
  let direntCount := rsize / direntSize
  let sb ← img.superblock
  let inodeRefCount ← walkInodes img direntCount (validateRule11_12.visit img) sb.ninodes 0
    (Scratch.zero sb.ninodes)
  validateRule11_12.check img inodeRefCount sb.ninodes 0

/-! ## The driver -/

/-- The ten validators in the order `main` calls them. -/
def validators : List (Image → Res Unit) :=
  [validateRule1, validateRule2, validateRule3, validateRule4, validateRule5, validateRule6,
   validateRule7_8, validateRule9, validateRule10, validateRule11_12]

/-- The validation part of `main` (after the file has been mapped): the validators run in
sequence and `exit(0)` follows. -/
def main (img : Image) : Res Unit := do
  validateRule1 img
  validateRule2 img
  validateRule3 img
  validateRule4 img
  validateRule5 img
  validateRule6 img
  validateRule7_8 img
  validateRule9 img
  validateRule10 img
  validateRule11_12 img
  pass

/-- The exit status of a run, when it has one. -/
def exitStatus : Res Unit → Option Nat
  | .ok _ => some 0
  | .fail _ => some 1
  | .undefined => none

/-- The line written to the error stream by a run, if any. -/
def stderrLine : Res Unit → Option String
  | .fail m => some m.text
  | _ => none

/-! ## Building concrete images -/

/-- The bytes of a 32-bit little-endian field holding `v` at byte offset `off`. -/
def le32 (off v : Nat) : List (Nat × Nat) :=
  [(off, v % 256), (off + 1, v / 256 % 256), (off + 2, v / 65536 % 256),
   (off + 3, v / 16777216 % 256)]

/-- The bytes of a 16-bit little-endian field holding `v` at byte offset `off`. -/
def le16 (off v : Nat) : List (Nat × Nat) := [(off, v % 256), (off + 1, v / 256 % 256)]

/-- The superblock fields `nblocks` and `ninodes`. -/
def sbBytes (nblocks ninodes : Nat) : List (Nat × Nat) :=
  le32 (BSIZE + 4) nblocks ++ le32 (BSIZE + 8) ninodes

/-- The inode at slot `p` with the given type, link count, size and first two direct
pointers and indirect pointer. -/
def inodeBytes (p type nlink size a0 a1 ind : Nat) : List (Nat × Nat) :=
  le16 (inodeOff p) type ++ le16 (inodeOff p + 6) nlink ++ le32 (inodeOff p + 8) size
    ++ le32 (inodeOff p + 12) a0 ++ le32 (inodeOff p + 16) a1
    ++ le32 (inodeOff p + 12 + 4 * NDIRECT) ind

/-- The directory entry number `k` of block `b`, with inode number `inum` and a name of
the given characters (the rest of the name is zero). -/
def direntBytes (b k inum : Nat) (name : List Nat) : List (Nat × Nat) :=
  le16 (b * BSIZE + direntSize * k) inum
    ++ name.enum.map fun (c : Nat × Nat) => (b * BSIZE + direntSize * k + 2 + c.1, c.2)

/-- The image of `size` bytes that holds the listed bytes and zero elsewhere. -/
def mkImage (size : Nat) (cells : List (Nat × Nat)) : Image :=
  ⟨size, fun off => (cells.lookup off).getD 0⟩

/-! ## Reference definitions that follow the specification -/

/-- The outcome of running a list of validators one after the other, stopping at the
first that does not return. -/
def firstStop : List (Res Unit) → Res Unit
  | [] => pass
  | .ok _ :: rs => firstStop rs
  | .fail m :: _ => .fail m
  | .undefined :: _ => .undefined

/-- The last bitmap block as the specification describes the layout: an inode table of
`⌈ninodes / IPB⌉` blocks from block 2 on, followed by a bitmap of `⌈nblocks / BPB⌉`
blocks. -/
def specLastBitmapBlock (ninodes nblocks : Nat) : Nat :=
  1 + (ninodes + IPB - 1) / IPB + (nblocks + BPB - 1) / BPB

/-- Whether the pointer `b` is in the range the specification gives for Rule 2:
`lastBitmapBlock < b < nblocks`. -/
def rule2InRange (sb : Superblock) (b : Nat) : Bool :=
  decide (lastBitmapBlock sb.ninodes < b ∧ b < sb.nblocks)

/-- The pointers the Rule 2 reference scans for the inode at slot `p`, in scan order, each
with the message reported when it is out of range: nothing unless the inode is in use with
a non-zero size; then its non-zero direct pointers, its non-zero indirect pointer and, if
that pointer is in range, the non-zero entries of the indirect block. -/
def rule2RefPointers (img : Image) (sb : Superblock) (p : Nat) : Res (List (Msg × Nat)) := do
  let t ← img.inodeType p
  if t = 1 ∨ t = 2 ∨ t = 3 then do
    let sz ← img.inodeSize p
    if sz = 0 then pure []
    else do
      let ds ← (List.range NDIRECT).mapM fun j => img.inodeAddr p j
      let ind ← img.inodeAddr p NDIRECT
      let es ←
        if ind ≠ 0 ∧ rule2InRange sb ind = true then
          (List.range NINDIRECT).mapM fun j => img.u32 (blockOff ind + 4 * j)
        else pure []
      pure ((ds.filter fun a => decide (a ≠ 0)).map (fun a => (Msg.badDirect, a))
        ++ (if ind = 0 then [] else [(Msg.badIndirect, ind)])
        ++ (es.filter fun a => decide (a ≠ 0)).map (fun a => (Msg.badIndirect, a)))
  else pure []

/-- The Rule 2 reference of the specification over the inode slots `first .. ninodes - 1`
in table order: it passes if every scanned pointer is in range and otherwise fails at the
first out-of-range pointer, with the message for its kind. -/
def rule2Reference (first : Nat) (img : Image) : Res Unit := do
  let sb ← img.superblock
  let ps ← ((List.range sb.ninodes).filter fun p => decide (first ≤ p)).mapM
    (rule2RefPointers img sb)
  match ps.flatten.find? (fun q => !rule2InRange sb q.2) with
  | none => pass
  | some q => .fail q.1

/-! ## Concrete images -/

/-- A well-formed image of 8 blocks and 3 inode slots: the root directory is inode 1 with
the data block 4, whose bitmap bit is set. -/
def baseCells : List (Nat × Nat) :=
  sbBytes 8 3 ++ inodeBytes 1 1 1 32 4 0 0 ++ direntBytes 4 0 1 dot ++ direntBytes 4 1 1 dotdot
    ++ [(bitmapBase 3, 16)]

/-- The well-formed image `baseCells` of 4096 bytes. -/
def imgBase : Image := mkImage 4096 baseCells

/-- The image `imgBase` whose last inode slot, slot 2, has the type tag 7. -/
def imgBadLastSlot : Image := mkImage 4096 (le16 (inodeOff 2) 7 ++ baseCells)

/-- The image `imgBase` whose slot 0 has the type tag 7. -/
def imgBadSlotZero : Image := mkImage 4096 (le16 (inodeOff 0) 7 ++ baseCells)

/-- An image of 8 blocks and 5 inode slots: the root directory (inode 1, block 4) and a
file, inode 2, of size 512 whose first direct pointer is `a`. -/
def imgFilePointer (a : Nat) : Image :=
  mkImage 4096 (sbBytes 8 5 ++ inodeBytes 1 1 1 32 4 0 0 ++ inodeBytes 2 2 1 512 a 0 0
    ++ direntBytes 4 0 1 dot ++ direntBytes 4 1 1 dotdot ++ [(bitmapBase 5, 16)])

/-- The image `imgBase` with the type tag of inode 1 changed to File (2). -/
def imgRootIsFile : Image := mkImage 4096 (le16 (inodeOff 1) 2 ++ baseCells)

/-- An image whose inode 1 is a directory of size 32 without any block pointer, and whose
block 0 (the boot block) starts with the bytes of the entries `(1, ".")` and `(1, "..")`. -/
def imgRootNoBlock : Image :=
  mkImage 4096 (sbBytes 8 3 ++ inodeBytes 1 1 1 32 0 0 0 ++ direntBytes 0 0 1 dot
    ++ direntBytes 0 1 1 dotdot)

/-! ## The entries of a directory, as the specification of Rule 4 sees them -/

/-- Whether the directory entry at byte offset `off` is non-empty (its inode number is not
zero) and its name is the string with characters `lit`. -/
def entryIs (img : Image) (lit : List Nat) (off : Nat) : Bool :=
  match img.u16 off with
  | .ok inum => decide (inum ≠ 0) && decide (img.strEq (off + 2) lit = .ok true)
  | _ => false

/-- Whether the directory entry at byte offset `off` is non-empty, is named `.` and has the
inode number `self`. -/
def entrySelf (img : Image) (self off : Nat) : Bool :=
  decide (img.u16 off = .ok self) && decide (self ≠ 0)
    && decide (img.strEq (off + 2) dot = .ok true)

/-- The byte offsets of the first `cnt` entry records that start at block `b`. -/
def blockEntries (cnt b : Nat) : List Nat :=
  (List.range cnt).map fun k => blockOff b + direntSize * k

/-- The non-zero direct pointers of the inode at slot `p`, in array order. -/
def directBlocks (img : Image) (p : Nat) : List Nat :=
  (List.range NDIRECT).filterMap fun j =>
    match img.inodeAddr p j with
    | .ok a => if a = 0 then none else some a
    | _ => none

/-- The non-zero entries of the indirect block of the inode at slot `p`, in array order
(none if the indirect pointer is zero). -/
def indirectBlocks (img : Image) (p : Nat) : List Nat :=
  match img.inodeAddr p NDIRECT with
  | .ok ind =>
    if ind = 0 then []
    else (List.range NINDIRECT).filterMap fun j =>
      match img.u32 (blockOff ind + 4 * j) with
      | .ok e => if e = 0 then none else some e
      | _ => none
  | _ => []

/-- The byte offsets of the entry records of the directory at slot `p` when `cnt` records
are taken from each of its blocks. -/
def dirEntries (img : Image) (cnt p : Nat) : List Nat :=
  ((directBlocks img p ++ indirectBlocks img p).map (blockEntries cnt)).flatten

/-- The format condition of Rule 4 for the directory at slot `p`: among its entries there is
one named `.`, one named `..`, and one named `.` with the inode number `p`. -/
def dirWellFormed (img : Image) (cnt p : Nat) : Bool :=
  (dirEntries img cnt p).any (entryIs img dot) && (dirEntries img cnt p).any (entryIs img dotdot)
    && (dirEntries img cnt p).any (entrySelf img p)

/-- The flags `g` reached from the flags `f` account for the entries at the offsets in `S`:
flags are only ever set, a flag that is set in `g` was set in `f` or is due to an entry in
`S`, and unless all three flags are set every entry in `S` has been taken into account. -/
def Tracks (img : Image) (self : Nat) (f g : Flags) (S : Nat → Prop) : Prop :=
  ((f.currEntry = true → g.currEntry = true) ∧ (f.parentEntry = true → g.parentEntry = true) ∧
    (f.currPToItself = true → g.currPToItself = true)) ∧
  ((g.currEntry = true → f.currEntry = true ∨ ∃ o, S o ∧ entryIs img dot o = true) ∧
    (g.parentEntry = true → f.parentEntry = true ∨ ∃ o, S o ∧ entryIs img dotdot o = true) ∧
    (g.currPToItself = true →
      f.currPToItself = true ∨ ∃ o, S o ∧ entrySelf img self o = true)) ∧
  (g.all = false → ∀ o, S o →
    (entryIs img dot o = true → g.currEntry = true) ∧
    (entryIs img dotdot o = true → g.parentEntry = true) ∧
    (entrySelf img self o = true → g.currPToItself = true))

/-- The offsets of the `cnt` entry records taken from block `b`. -/
def blockSet (cnt b o : Nat) : Prop := ∃ k, k < cnt ∧ o = blockOff b + direntSize * k

/-- The offsets of the entry records taken from the blocks of the direct pointers
`j .. j + n - 1` of slot `p`. -/
def directSet (img : Image) (cnt p j n o : Nat) : Prop :=
  ∃ i, i < n ∧ ∃ a, img.inodeAddr p (j + i) = .ok a ∧ a ≠ 0 ∧ blockSet cnt a o

/-- The offsets of the entry records taken from the blocks listed in the `n` pointers that
start at byte offset `off`. -/
def indirectSet (img : Image) (cnt off n o : Nat) : Prop :=
  ∃ i, i < n ∧ ∃ e, img.u32 (off + 4 * i) = .ok e ∧ e ≠ 0 ∧ blockSet cnt e o

/-- An image of 8 blocks and 4 inode slots: the root directory (inode 1, block 4) holds the
entries `.`, `..` and `d`, so its size is 48; the directory `d` is inode 2, of size 64,
whose block 5 holds `.` in entry 0 and `..` in entry 3 (entries 1 and 2 are empty). -/
def imgLateParent : Image :=
  mkImage 4096 (sbBytes 8 4 ++ inodeBytes 1 1 1 48 4 0 0 ++ inodeBytes 2 1 1 64 5 0 0
    ++ direntBytes 4 0 1 dot ++ direntBytes 4 1 1 dotdot ++ direntBytes 4 2 2 [100]
    ++ direntBytes 5 0 2 dot ++ direntBytes 5 3 1 dotdot ++ [(bitmapBase 4, 48)])

/-- An image of 8 blocks and 3 inode slots whose root directory (inode 1, block 4, size 48)
holds the three entries `.`, `..` and `.` again, all with inode number 1. -/
def imgTwoDots : Image :=
  mkImage 4096 (sbBytes 8 3 ++ inodeBytes 1 1 1 48 4 0 0 ++ direntBytes 4 0 1 dot
    ++ direntBytes 4 1 1 dotdot ++ direntBytes 4 2 1 dot ++ [(bitmapBase 3, 16)])

/-! ## Minimal images -/

/-- Bit `b mod 8`, counted from the least-significant bit, of byte `b div 8` of the bitmap
region that starts at `bitmapBase`. -/
def Image.bitmapBit (img : Image) (ninodes b : Nat) : Res Bool := do
  let c ← img.u8 (bitmapBase ninodes + b / 8)
  pure (c.testBit (b % 8))

/-- The conditions the specification puts on a minimally valid image with superblock `sb`
and root data block `d`: at least two inode slots, all unused except inode 1; inode 1 a
directory of the size of two entries with exactly one non-zero direct pointer `d`, in the
valid range, and no indirect pointer; block `d` starting with the entries `(".", 1)` and
`("..", 1)`; the bitmap bit of `d` set and that of every other block of the data region,
`lastBitmapBlock < b < nblocks`, clear; a buffer that holds the `nblocks` blocks. -/
def MinimalAsClaimed (img : Image) (sb : Superblock) (d : Nat) : Prop :=
  img.superblock = .ok sb ∧ 2 ≤ sb.ninodes ∧
  (∀ s, s < sb.ninodes → s ≠ 1 → img.inodeType s = .ok 0) ∧
  img.inodeType 1 = .ok 1 ∧ img.inodeSize 1 = .ok (2 * direntSize) ∧
  (∃ j0, j0 < NDIRECT ∧ img.inodeAddr 1 j0 = .ok d ∧
    ∀ j, j < NDIRECT → j ≠ j0 → img.inodeAddr 1 j = .ok 0) ∧
  lastBitmapBlock sb.ninodes < d ∧ d < sb.nblocks ∧
  img.inodeAddr 1 NDIRECT = .ok 0 ∧
  img.u16 (blockOff d) = .ok 1 ∧ img.strEq (blockOff d + 2) dot = .ok true ∧
  img.u16 (blockOff d + direntSize) = .ok 1 ∧
  img.strEq (blockOff d + direntSize + 2) dotdot = .ok true ∧
  img.bitmapBit sb.ninodes d = .ok true ∧
  (∀ b, b < sb.nblocks → lastBitmapBlock sb.ninodes < b → b ≠ d →
    img.bitmapBit sb.ninodes b = .ok false) ∧
  sb.nblocks * BSIZE ≤ img.size

/-- The conditions under which the checker accepts a minimal image with superblock `sb` and
root data block `d`: those of `MinimalAsClaimed` with the pointer `d` in the first direct
slot and with the bitmap bits clear for every block `firstDataBlock + i`, `i < nblocks`,
other than `d` (the blocks whose bits `validateRule6` tests). -/
structure MinimalImage (img : Image) (sb : Superblock) (d : Nat) : Prop where
  hsb : img.superblock = .ok sb
  hn : 2 ≤ sb.ninodes
  unused : ∀ s, s < sb.ninodes → s ≠ 1 → img.inodeType s = .ok 0
  root : img.inodeType 1 = .ok 1
  size : img.inodeSize 1 = .ok (2 * direntSize)
  addr : img.inodeAddr 1 0 = .ok d
  others : ∀ j, 1 ≤ j → j < NDIRECT → img.inodeAddr 1 j = .ok 0
  lo : lastBitmapBlock sb.ninodes < d
  hi : d < sb.nblocks
  ind : img.inodeAddr 1 NDIRECT = .ok 0
  e0 : img.u16 (blockOff d) = .ok 1
  n0 : img.strEq (blockOff d + 2) dot = .ok true
  e1 : img.u16 (blockOff d + direntSize) = .ok 1
  n1 : img.strEq (blockOff d + direntSize + 2) dotdot = .ok true
  bitd : img.bitmapBit sb.ninodes d = .ok true
  bits : ∀ i, i < sb.nblocks → (firstDataBlock sb.ninodes + i) % U32 ≠ d →
    img.bitmapBit sb.ninodes ((firstDataBlock sb.ninodes + i) % U32) = .ok false

/-- The image `imgBase` with the bitmap bit of block 8 set as well; block 8 lies outside the
data region, whose blocks are 4 to 7. -/
def imgExtraBit : Image := mkImage 4096 ((bitmapBase 3 + 1, 1) :: baseCells)

/-- An image like `imgBase` whose root directory has its only block pointer, 4, in the
second direct slot. -/
def imgSecondSlot : Image :=
  mkImage 4096 (sbBytes 8 3 ++ inodeBytes 1 1 1 32 0 4 0 ++ direntBytes 4 0 1 dot
    ++ direntBytes 4 1 1 dotdot ++ [(bitmapBase 3, 16)])

/-! ## Block references and examined directory entries, in scan order -/

/-- The three ways in which an inode refers to a block. -/
inductive RefKind where
  | direct
  | indirect
  | entry
  deriving DecidableEq, Repr

/-- The message of `validateRule7_8` for a reference of the given kind that is already
claimed: Rule 7 for a direct pointer, Rule 8 for an indirect pointer or an entry of an
indirect block. -/
def RefKind.twice : RefKind → Msg
  | .direct => .directTwice
  | .indirect => .indirectTwice
  | .entry => .indirectTwice

/-- The non-zero values among `rd j, rd (j+1), ..., rd (j+n-1)`, in order (a value that
cannot be read counts as absent). -/
def ptrsFrom (rd : Nat → Res Nat) : Nat → Nat → List Nat
  | 0, _ => []
  | n + 1, j =>
    (match rd j with
      | .ok a => if a = 0 then [] else [a]
      | _ => []) ++ ptrsFrom rd n (j + 1)

/-- Whether the slot `p` holds an in-use inode for the block validators: its type is one
of 1, 2, 3. -/
def Image.inUse (img : Image) (p : Nat) : Bool :=
  match img.inodeType p with
  | .ok t => decide (t = 1 ∨ t = 2 ∨ t = 3)
  | _ => false

/-- The block references of the inode at slot `p` in scan order: nothing unless the inode
is in use; then its non-zero direct pointers, its non-zero indirect pointer and the
non-zero entries of the indirect block. -/
def inodeRefs (img : Image) (p : Nat) : List (RefKind × Nat) :=
  if img.inUse p then
    (ptrsFrom (img.inodeAddr p) NDIRECT 0).map (fun a => (RefKind.direct, a))
      ++ (match img.inodeAddr p NDIRECT with
          | .ok ind =>
            if ind = 0 then []
            else (RefKind.indirect, ind) ::
              (ptrsFrom (fun j => img.u32 (blockOff ind + 4 * j)) NINDIRECT 0).map
                (fun a => (RefKind.entry, a))
          | _ => [])
  else []

/-- The block references of the inodes at the slots `p, ..., p + n - 1`, in scan order. -/
def refsFrom (img : Image) : Nat → Nat → List (RefKind × Nat)
  | 0, _ => []
  | n + 1, p => inodeRefs img p ++ refsFrom img n (p + 1)

/-- The block references of all `ninodes` inode slots, in scan order. -/
def allRefs (img : Image) (ninodes : Nat) : List (RefKind × Nat) := refsFrom img ninodes 0

/-- The byte offsets of the entry records examined in the directories at the slots
`p, ..., p + n - 1`, in scan order, when `cnt` records are taken from each block. -/
def walkOffsets (img : Image) (cnt : Nat) : Nat → Nat → List Nat
  | 0, _ => []
  | n + 1, p =>
    (if img.inodeType p = .ok 1 then dirEntries img cnt p else [])
      ++ walkOffsets img cnt n (p + 1)

/-- The inode number stored in the entry record at byte offset `off` (zero, the mark of an
empty entry, when it cannot be read). -/
def entryInum (img : Image) (off : Nat) : Nat :=
  match img.u16 off with
  | .ok inum => inum
  | _ => 0

/-- Running the steps `step a` for the elements `a` of a list one after the other. -/
def foldRes {α σ : Type} (step : α → σ → Res σ) : List α → σ → Res σ
  | [], s => .ok s
  | a :: l, s => step a s >>= foldRes step l

/-- The outcome `x` agrees with `y` unless `x` is undefined. -/
def Res.Le {α : Type} (x y : Res α) : Prop := x = .undefined ∨ x = y

/-- An image of 8 blocks and 4 inode slots: the root directory (inode 1, block 4) and a file,
inode 2, with the direct block 6 and the indirect block 5, whose first entry is 7.  The
bitmap bits of the blocks 4, 6 and 7 are set, the bit of block 5 is clear. -/
def imgIndirectFree : Image :=
  mkImage 4096 (sbBytes 8 4 ++ inodeBytes 1 1 1 32 4 0 0 ++ inodeBytes 2 2 1 7168 6 0 5
    ++ direntBytes 4 0 1 dot ++ direntBytes 4 1 1 dotdot ++ le32 (5 * BSIZE) 7
    ++ [(bitmapBase 4, 208)])

/-- An image of 8 blocks and 4 inode slots: the root directory (inode 1, block 4, size 48)
holds the entries `.`, `..` and `x`, the last with inode number 3; inode 2 is an empty file
that no entry names and inode 3 is unused. -/
def imgBothViolations : Image :=
  mkImage 4096 (sbBytes 8 4 ++ inodeBytes 1 1 1 48 4 0 0 ++ inodeBytes 2 2 1 0 0 0 0
    ++ direntBytes 4 0 1 dot ++ direntBytes 4 1 1 dotdot ++ direntBytes 4 2 3 [120]
    ++ [(bitmapBase 4, 16)])

/-- The step of `validateRule7_8` for one block reference: claim the cell of the block, with
the message of the kind of reference. -/
def claimStep (fdb : Nat) (r : RefKind × Nat) (s : Scratch) : Res Scratch :=
  s.claim (dataIndex fdb r.2) r.1.twice

/-- The step of the marking pass of `validateRule6` for one block reference. -/
def markStep (fdb : Nat) (r : RefKind × Nat) (s : Scratch) : Res Scratch :=
  s.set (dataIndex fdb r.2) 1

/-- The records of slot `p` that the block validators read lie inside the buffer: the type,
the thirteen block pointers and, when the inode is in use with a non-zero indirect
pointer, the entries of its indirect block. -/
def Image.slotReadable (img : Image) (p : Nat) : Prop :=
  (∃ t, img.inodeType p = .ok t) ∧ (∀ j, j < NDIRECT + 1 → ∃ a, img.inodeAddr p j = .ok a) ∧
  (∀ ind, img.inUse p = true → img.inodeAddr p NDIRECT = .ok ind → ind ≠ 0 →
    ∀ j, j < NINDIRECT → ∃ e, img.u32 (blockOff ind + 4 * j) = .ok e)

/-- An image of 8 blocks and 5 inode slots: the root directory (inode 1, block 4) and two
files, inodes 2 and 3, which both list block 5 as their first direct pointer. -/
def imgSharedDirect : Image :=
  mkImage 4096 (sbBytes 8 5 ++ inodeBytes 1 1 1 32 4 0 0 ++ inodeBytes 2 2 1 512 5 0 0
    ++ inodeBytes 3 2 1 512 5 0 0 ++ direntBytes 4 0 1 dot ++ direntBytes 4 1 1 dotdot
    ++ [(bitmapBase 5, 48)])

/-- Whether the entry record at byte offset `off` counts as a link for Rules 11 and 12: it is
non-empty and named neither `.` nor `..`. -/
def linkEntry (img : Image) (off : Nat) : Bool :=
  decide (entryInum img off ≠ 0) && !(entryIs img dot off) && !(entryIs img dotdot off)

/-- The number of examined entries, in the directories of all `ninodes` slots with `cnt`
records per block, that count as links and carry the inode number `k`. -/
def linkCount (img : Image) (cnt ninodes k : Nat) : Nat :=
  (walkOffsets img cnt ninodes 0).countP
    (fun off => linkEntry img off && decide (entryInum img off = k))

/-- An image of 8 blocks and 5 inode slots: the root directory (inode 1, block 4, size 48)
holds `.`, `..` and `d`; the directory `d` is inode 2 (block 5, size 64) and holds `.`, `..`,
an empty entry and, as its fourth entry, `f` with the inode number `target`; inode 3 has the
type tag `t3` and the link count 1. -/
def imgLateEntry (target t3 : Nat) : Image :=
  mkImage 4096 (sbBytes 8 5 ++ inodeBytes 1 1 1 48 4 0 0 ++ inodeBytes 2 1 1 64 5 0 0
    ++ inodeBytes 3 t3 1 0 0 0 0
    ++ direntBytes 4 0 1 dot ++ direntBytes 4 1 1 dotdot ++ direntBytes 4 2 2 [100]
    ++ direntBytes 5 0 2 dot ++ direntBytes 5 1 1 dotdot ++ direntBytes 5 3 target [102]
    ++ [(bitmapBase 5, 48)])

/-- An image of 8 blocks and 5 inode slots: the root directory (inode 1, block 4, size 64)
holds `.`, `..`, `d` (inode 3) and `f` (inode 2); the directory `d` (inode 3, block 5) holds
`.`, `..` and a third entry named `g` with the inode number `second`; inode 2 is a File with
the link count `nlink`. -/
def imgLinks (second nlink : Nat) : Image :=
  mkImage 4096 (sbBytes 8 5 ++ inodeBytes 1 1 1 64 4 0 0 ++ inodeBytes 2 2 nlink 0 0 0 0
    ++ inodeBytes 3 1 1 64 5 0 0
    ++ direntBytes 4 0 1 dot ++ direntBytes 4 1 1 dotdot ++ direntBytes 4 2 3 [100]
    ++ direntBytes 4 3 2 [102]
    ++ direntBytes 5 0 3 dot ++ direntBytes 5 1 1 dotdot ++ direntBytes 5 2 second [103]
    ++ [(bitmapBase 5, 48)])

/-! ## The states of the inode loops of Rules 1 and 2 -/

/-- The inode slots whose record the loop of `validateRule1` reads, in order, when `n`
iterations remain and `rInodeP` is at slot `p`: the loop goes on after a slot with a type
tag 0, 1, 2 or 3 and stops otherwise. -/
def validateRule1.slots (img : Image) : Nat → Nat → List Nat
  | 0, _ => []
  | n + 1, p =>
    p :: (match img.inodeType p with
      | .ok t =>
        if t = 0 then validateRule1.slots img n (p + 1)
        else if t = 1 ∨ t = 2 ∨ t = 3 then validateRule1.slots img n (p + 1)
        else []
      | _ => [])

/-- The body of the inode loop of `validateRule2` entered with the counter `i` and `rInodeP`
at slot `p`: the result is the value of `i` when the body is left, by `continue` or at its
end, before the `i++, rInodeP++` of the loop.  The two inner loops count with `i`. -/
def validateRule2.body (img : Image) (sb : Superblock) (i p : Nat) : Res Nat := do
  let t ← img.inodeType p
  if t = 0 then pure i
  else if t = 1 ∨ t = 2 ∨ t = 3 then do
    let sz ← img.inodeSize p
    if sz = 0 then pure i
    else do
      validateRule2.direct img sb p NDIRECT 0
      let ind ← img.inodeAddr p NDIRECT
      if ind = 0 then pure NDIRECT
      else if ind ≤ lastBitmapBlock sb.ninodes ∨ sb.nblocks ≤ ind then .fail .badIndirect
      else do
        validateRule2.indirect img sb NINDIRECT (blockOff ind)
        pure NINDIRECT
  else pure i

/-- The inode slots whose record the loop of `validateRule2` reads, in order, from the state
`(i, rInodeP)` = `(i, slot p)`: the loop is left when `i < sb->ninodes` fails or the body
does not return. -/
def validateRule2.slots (img : Image) (sb : Superblock) : Nat → Nat → Nat → List Nat
  | 0, _, _ => []
  | fuel + 1, i, p =>
    if sb.ninodes ≤ i then []
    else
      p :: (match validateRule2.body img sb i p with
        | .ok i1 => validateRule2.slots img sb fuel (i1 + 1) (p + 1)
        | _ => [])

/-- A file of one block, 512 bytes: it ends before the superblock. -/
def imgTruncated : Image := mkImage 512 []

/-- A file of 4096 bytes whose superblock gives 1000 blocks and 4 inode slots; the root
directory (inode 1, block 4) has the indirect pointer 900. -/
def imgWildIndirect : Image :=
  mkImage 4096 (sbBytes 1000 4 ++ inodeBytes 1 1 1 32 4 0 900 ++ direntBytes 4 0 1 dot
    ++ direntBytes 4 1 1 dotdot ++ [(bitmapBase 4, 16)])

/-- A file of 4096 bytes, 8 blocks and 4 inode slots, whose root inode has the size 0 and the
first direct pointer 1000000. -/
def imgWildRoot : Image :=
  mkImage 4096 (sbBytes 8 4 ++ inodeBytes 1 1 1 0 1000000 0 0 ++ [(bitmapBase 4, 16)])

/-- An image of 8 blocks and 16 inode slots (the table is slots 0 to 15, the first data
block is 6): slot 14 holds a File of size 512 with the direct pointer 6; the 64 bytes after
the table, where slot 16 would be, hold the type tag `t`, the size 512 and the direct
pointer 1. -/
def imgPastTable (t : Nat) : Image :=
  mkImage 4096 (sbBytes 8 16 ++ inodeBytes 14 2 1 512 6 0 0 ++ inodeBytes 16 t 1 512 1 0 0
    ++ [(bitmapBase 16, 64)])

/-- An image of 8 blocks and 4 inode slots: the root directory (inode 1, block 4) and, at
slot 2, a File of size 0 whose first direct pointer is 1. -/
def imgZeroSize : Image :=
  mkImage 4096 (sbBytes 8 4 ++ inodeBytes 1 1 1 32 4 0 0 ++ inodeBytes 2 2 1 0 1 0 0
    ++ direntBytes 4 0 1 dot ++ direntBytes 4 1 1 dotdot ++ [(bitmapBase 4, 16)])

/-! ## Reference definitions for the directory validators -/

/-- The inode loop of Rule 4 with the specification's notion of a directory's own number:
the number with which the inode number of a `.` entry is compared is the position `p` of
the inode record in the inode table.  `n` slots remain; which slots and entries are examined
is as in `validateRule4.scan`. -/
def rule4SlotReference (img : Image) (cnt : Nat) : Nat → Nat → Res Unit
  | 0, _ => pass
  | n + 1, p => do
    let t ← img.inodeType p
    if t = 0 then rule4SlotReference img cnt n (p + 1)
    else if t = 1 then do
      let f ← validateRule4.dirFlags img cnt p p
      if !f.all then .fail .dirFormat
      else rule4SlotReference img cnt n (p + 1)
    else rule4SlotReference img cnt n (p + 1)

end Fcheck

namespace Fcheck

/-! ## Basic facts about `Res` -/

@[simp] theorem Res.ok_bind {α β : Type} (a : α) (f : α → Res β) :
    (Res.ok a >>= f) = f a := rfl

@[simp] theorem Res.fail_bind {α β : Type} (m : Msg) (f : α → Res β) :
    (Res.fail m >>= f) = Res.fail m := rfl

@[simp] theorem Res.undefined_bind {α β : Type} (f : α → Res β) :
    (Res.undefined >>= f) = Res.undefined := rfl

@[simp] theorem Res.pure_eq {α : Type} (a : α) : (pure a : Res α) = Res.ok a := rfl

theorem Res.bind_eq_ok {α β : Type} {x : Res α} {f : α → Res β} {b : β} :
    (x >>= f) = Res.ok b ↔ ∃ a, x = Res.ok a ∧ f a = Res.ok b := by
  cases x <;> simp

theorem Res.bind_ne_undefined {α β : Type} {x : Res α} {f : α → Res β}
    (h : (x >>= f) ≠ Res.undefined) : x ≠ Res.undefined := by
  intro hx
  rw [hx] at h
  exact h rfl

/-! ## C1: the driver -/

theorem firstStop_eq_pass {rs : List (Res Unit)} :
    firstStop rs = pass ↔ ∀ r ∈ rs, r = pass := by
  induction rs with
  | nil => simp [firstStop]
  | cons r rs ih =>
    cases r with
    | ok a => simp [firstStop, ih]
    | fail m => simp [firstStop]
    | undefined => simp [firstStop]

theorem firstStop_eq_fail {rs : List (Res Unit)} {m : Msg} (h : firstStop rs = .fail m) :
    ∃ pre post, rs = pre ++ Res.fail m :: post ∧ ∀ r ∈ pre, r = pass := by
  induction rs with
  | nil => simp [firstStop] at h
  | cons r rs ih =>
    cases r with
    | ok a =>
      obtain ⟨pre, post, h1, h2⟩ := ih (by simpa [firstStop] using h)
      refine ⟨pass :: pre, post, by simp [h1], ?_⟩
      intro r hr
      rcases List.mem_cons.1 hr with h3 | h3
      · exact h3
      · exact h2 r h3
    | fail m1 =>
      have hm : m1 = m := by simpa [firstStop] using h
      exact ⟨[], rs, by simp [hm], by simp⟩
    | undefined => simp [firstStop] at h

theorem fcheck_eq_firstStop (img : Image) :
    main img = firstStop (validators.map fun v => v img) := by
  simp only [main, validators, List.map]
  cases validateRule1 img <;> simp only [firstStop, Res.ok_bind, Res.fail_bind, Res.undefined_bind]
  cases validateRule2 img <;> simp only [firstStop, Res.ok_bind, Res.fail_bind, Res.undefined_bind]
  cases validateRule3 img <;> simp only [firstStop, Res.ok_bind, Res.fail_bind, Res.undefined_bind]
  cases validateRule4 img <;> simp only [firstStop, Res.ok_bind, Res.fail_bind, Res.undefined_bind]
  cases validateRule5 img <;> simp only [firstStop, Res.ok_bind, Res.fail_bind, Res.undefined_bind]
  cases validateRule6 img <;> simp only [firstStop, Res.ok_bind, Res.fail_bind, Res.undefined_bind]
  cases validateRule7_8 img <;> simp only [firstStop, Res.ok_bind, Res.fail_bind, Res.undefined_bind]
  cases validateRule9 img <;> simp only [firstStop, Res.ok_bind, Res.fail_bind, Res.undefined_bind]
  cases validateRule10 img <;> simp only [firstStop, Res.ok_bind, Res.fail_bind, Res.undefined_bind]
  cases validateRule11_12 img <;>
    simp only [firstStop, Res.ok_bind, Res.fail_bind, Res.undefined_bind]

/-- C1: the outcome of the checker is the outcome of the first validator, in the order
Rule 1, 2, 3, 4, 5, 6, 7-8, 9, 10, 11-12, that does not return; it exits with status 0 and
no message exactly when all ten validators pass; and when it reports a message, the status
is 1, the message is that of a validator all of whose predecessors passed, and the outcome
does not depend on the validators after it. -/
theorem fcheck_first_violation (img : Image) :
    main img = firstStop (validators.map fun v => v img) ∧
    ((exitStatus (main img) = some 0 ∧ stderrLine (main img) = none) ↔
      ∀ v ∈ validators, v img = pass) ∧
    (∀ m, main img = .fail m →
      exitStatus (main img) = some 1 ∧ stderrLine (main img) = some m.text ∧
      ∃ pre v post, validators = pre ++ v :: post ∧ (∀ u ∈ pre, u img = pass) ∧
        v img = .fail m) := by
  refine ⟨fcheck_eq_firstStop img, ?_, ?_⟩
  · have h := @firstStop_eq_pass (validators.map fun v => v img)
    rw [← fcheck_eq_firstStop] at h
    constructor
    · rintro ⟨h0, -⟩
      have hp : main img = pass := by
        cases hf : main img with
        | ok a => rfl
        | fail m => rw [hf] at h0; simp [exitStatus] at h0
        | undefined => rw [hf] at h0; simp [exitStatus] at h0
      intro v hv
      exact h.1 hp (v img) (List.mem_map.2 ⟨v, hv, rfl⟩)
    · intro hall
      have hp : main img = pass := by
        apply h.2
        intro r hr
        obtain ⟨v, hv, rfl⟩ := List.mem_map.1 hr
        exact hall v hv
      rw [hp]
      exact ⟨rfl, rfl⟩
  · intro m hm
    refine ⟨by rw [hm]; rfl, by rw [hm]; rfl, ?_⟩
    rw [fcheck_eq_firstStop] at hm
    obtain ⟨pre, post, h1, h2⟩ := firstStop_eq_fail hm
    obtain ⟨l1, l2, hl, hl1, hl2⟩ := List.map_eq_append_iff.1 h1
    obtain ⟨v, l3, hl3, hv, -⟩ := List.map_eq_cons_iff.1 hl2
    refine ⟨l1, v, l3, by rw [hl, hl3], ?_, hv⟩
    intro u hu
    apply h2
    rw [← hl1]
    exact List.mem_map.2 ⟨u, hu, rfl⟩

/-! ## C3: Rule 1 -/

/-- C3, evaluated: on `imgBadLastSlot` the last slot, slot 2 of 3, has the invalid type tag
7 and `validateRule1` passes; on `imgBadSlotZero` all of the slots 1 and 2 have valid tags
and `validateRule1` reports `bad inode`, because of slot 0. -/
theorem validateRule1_skips_last_slot :
    imgBadLastSlot.superblock = .ok ⟨8, 3⟩ ∧ imgBadLastSlot.inodeType 2 = .ok 7 ∧
    validateRule1 imgBadLastSlot = pass ∧
    imgBadSlotZero.superblock = .ok ⟨8, 3⟩ ∧ imgBadSlotZero.inodeType 1 = .ok 1 ∧
    imgBadSlotZero.inodeType 2 = .ok 0 ∧ validateRule1 imgBadSlotZero = .fail .badInode := by
  decide

/-! ## C4, C5: Rule 2 -/

/-- C4, evaluated: on `imgFilePointer 9` (5 inode slots, 8 blocks) the file inode 2 has
non-zero size and the direct pointer 9, which is out of range; the reference reports
`bad direct address in inode`, whether it scans from slot 0 or from slot 1, and
`validateRule2` passes. -/
theorem validateRule2_differs_from_reference :
    (imgFilePointer 9).superblock = .ok ⟨8, 5⟩ ∧
    rule2Reference 0 (imgFilePointer 9) = .fail .badDirect ∧
    rule2Reference 1 (imgFilePointer 9) = .fail .badDirect ∧
    validateRule2 (imgFilePointer 9) = pass := by
  decide

/-- C5, evaluated: the in-use inode 2 of `imgFilePointer 8` has non-zero size and a direct
pointer equal to `nblocks` = 8, that of `imgFilePointer 3` one equal to the last bitmap
block, 3; `validateRule2` passes on both. -/
theorem validateRule2_accepts_boundary_pointer :
    (imgFilePointer 8).superblock = .ok ⟨8, 5⟩ ∧ (imgFilePointer 8).inodeType 2 = .ok 2 ∧
    (imgFilePointer 8).inodeSize 2 = .ok 512 ∧ (imgFilePointer 8).inodeAddr 2 0 = .ok 8 ∧
    validateRule2 (imgFilePointer 8) = pass ∧
    (imgFilePointer 3).superblock = .ok ⟨8, 5⟩ ∧ lastBitmapBlock 5 = 3 ∧
    (imgFilePointer 3).inodeType 2 = .ok 2 ∧
    (imgFilePointer 3).inodeSize 2 = .ok 512 ∧ (imgFilePointer 3).inodeAddr 2 0 = .ok 3 ∧
    validateRule2 (imgFilePointer 3) = pass := by
  decide

/-! ## C7, C8: Rule 3 -/

/-- C7, evaluated: inode 1 of `imgRootIsFile` has the type tag File and `validateRule3`
passes. -/
theorem validateRule3_ignores_type :
    imgRootIsFile.inodeType 1 = .ok 2 ∧ validateRule3 imgRootIsFile = pass := by
  decide

/-- C8, evaluated: all thirteen block pointers of inode 1 of `imgRootNoBlock` are zero, so
it has no allocated block and no entry of its own, and `validateRule3` passes. -/
theorem validateRule3_accepts_unallocated_root :
    (∀ j, j < NDIRECT + 1 → imgRootNoBlock.inodeAddr 1 j = .ok 0) ∧
    validateRule3 imgRootNoBlock = pass := by
  decide

/-! ## C6: the geometry -/

/-- C6, counterexample: for the superblock of a standard xv6 image, `ninodes = 200` and
`nblocks = 1024`, the validators compute 28 as the last bitmap block, and the layout of
the specification gives 27. -/
theorem lastBitmapBlock_ne_spec :
    1 ≤ 200 ∧ 1 ≤ 1024 ∧ lastBitmapBlock 200 = 28 ∧ specLastBitmapBlock 200 1024 = 27 ∧
    lastBitmapBlock 200 ≠ specLastBitmapBlock 200 1024 := by
  decide

/-- C6, amended: for every superblock with `1 ≤ ninodes` (a `uint`), the last-bitmap-block
index the validators compute is `2 + (ninodes / IPB + 1) + IBLOCK(ninodes - 1) / BPB` with
rounded-down quotients: the bitmap block holding the bit of the last inode block, after an
inode table of `ninodes / IPB + 1` blocks that starts at block 2.  It does not depend on
`nblocks`.  The first data block of Rules 6 to 8 is that index plus one.  The index agrees
with the layout of the specification when `ninodes` is not a multiple of `IPB`, is at most
32752, and `1 ≤ nblocks ≤ BPB`. -/
theorem lastBitmapBlock_eq (ninodes nblocks : Nat) (h1 : 1 ≤ ninodes) (h2 : ninodes < U32) :
    lastBitmapBlock ninodes = 2 + (ninodes / IPB + 1) + IBLOCK (ninodes - 1) / BPB ∧
    firstDataBlock ninodes = lastBitmapBlock ninodes + 1 ∧
    (ninodes % IPB ≠ 0 → ninodes ≤ 32752 → 1 ≤ nblocks → nblocks ≤ BPB →
      lastBitmapBlock ninodes = specLastBitmapBlock ninodes nblocks) := by
  unfold firstDataBlock lastBitmapBlock specLastBitmapBlock BBLOCK IBLOCK IPB BPB U32 at *
  have e1 : (ninodes + 4294967296 - 1) % 4294967296 = ninodes - 1 := by omega
  rw [e1]
  refine ⟨by omega, by omega, ?_⟩
  intro h3 h4 h5 h6
  omega

/-- C6, witness of the amended statement at `ninodes = 201`, `nblocks = 1000`. -/
theorem lastBitmapBlock_eq_witness :
    lastBitmapBlock 201 = 2 + (201 / IPB + 1) + IBLOCK (201 - 1) / BPB ∧
    firstDataBlock 201 = lastBitmapBlock 201 + 1 ∧
    lastBitmapBlock 201 = specLastBitmapBlock 201 1000 :=
  have h := lastBitmapBlock_eq 201 1000 (by decide) (by decide)
  ⟨h.1, h.2.1, h.2.2 (by decide) (by decide) (by decide) (by decide)⟩

/-! ## Rule 4: what the flags record -/

theorem Tracks.refl (img : Image) (self : Nat) (f : Flags) :
    Tracks img self f f (fun _ => False) := by
  refine ⟨⟨id, id, id⟩, ⟨fun h => Or.inl h, fun h => Or.inl h, fun h => Or.inl h⟩, ?_⟩
  intro _ o ho
  exact ho.elim

theorem Tracks.congr {img : Image} {self : Nat} {f g : Flags} {S T : Nat → Prop}
    (h : Tracks img self f g S) (hST : ∀ o, S o ↔ T o) : Tracks img self f g T := by
  have e : S = T := funext fun o => propext (hST o)
  rw [← e]
  exact h

theorem Tracks.of_all {img : Image} {self : Nat} {f g : Flags} {S T : Nat → Prop}
    (h : Tracks img self f g S) (hg : g.all = true) (hST : ∀ o, S o → T o) :
    Tracks img self f g T := by
  obtain ⟨h1, ⟨h2, h3, h4⟩, -⟩ := h
  refine ⟨h1, ⟨?_, ?_, ?_⟩, ?_⟩
  · intro hc
    rcases h2 hc with h | ⟨o, ho, he⟩
    · exact Or.inl h
    · exact Or.inr ⟨o, hST o ho, he⟩
  · intro hc
    rcases h3 hc with h | ⟨o, ho, he⟩
    · exact Or.inl h
    · exact Or.inr ⟨o, hST o ho, he⟩
  · intro hc
    rcases h4 hc with h | ⟨o, ho, he⟩
    · exact Or.inl h
    · exact Or.inr ⟨o, hST o ho, he⟩
  · intro hn
    rw [hg] at hn
    exact absurd hn (by decide)

theorem Flags.all_eq_true {f : Flags} :
    f.all = true ↔ f.currEntry = true ∧ f.parentEntry = true ∧ f.currPToItself = true := by
  simp [Flags.all, and_assoc]

theorem Tracks.trans {img : Image} {self : Nat} {f g h : Flags} {S T : Nat → Prop}
    (h1 : Tracks img self f g S) (h2 : Tracks img self g h T) :
    Tracks img self f h (fun o => S o ∨ T o) := by
  obtain ⟨⟨a1, a2, a3⟩, ⟨b1, b2, b3⟩, c⟩ := h1
  obtain ⟨⟨p1, p2, p3⟩, ⟨q1, q2, q3⟩, r⟩ := h2
  refine ⟨⟨fun x => p1 (a1 x), fun x => p2 (a2 x), fun x => p3 (a3 x)⟩, ⟨?_, ?_, ?_⟩, ?_⟩
  · intro hc
    rcases q1 hc with x | ⟨o, ho, he⟩
    · rcases b1 x with y | ⟨o, ho, he⟩
      · exact Or.inl y
      · exact Or.inr ⟨o, Or.inl ho, he⟩
    · exact Or.inr ⟨o, Or.inr ho, he⟩
  · intro hc
    rcases q2 hc with x | ⟨o, ho, he⟩
    · rcases b2 x with y | ⟨o, ho, he⟩
      · exact Or.inl y
      · exact Or.inr ⟨o, Or.inl ho, he⟩
    · exact Or.inr ⟨o, Or.inr ho, he⟩
  · intro hc
    rcases q3 hc with x | ⟨o, ho, he⟩
    · rcases b3 x with y | ⟨o, ho, he⟩
      · exact Or.inl y
      · exact Or.inr ⟨o, Or.inl ho, he⟩
    · exact Or.inr ⟨o, Or.inr ho, he⟩
  · intro hn o ho
    have hg : g.all = false := by
      cases hga : g.all with
      | false => rfl
      | true =>
        obtain ⟨x1, x2, x3⟩ := Flags.all_eq_true.1 hga
        have : h.all = true := Flags.all_eq_true.2 ⟨p1 x1, p2 x2, p3 x3⟩
        rw [this] at hn
        exact absurd hn (by decide)
    rcases ho with ho | ho
    · obtain ⟨c1, c2, c3⟩ := c hg o ho
      exact ⟨fun x => p1 (c1 x), fun x => p2 (c2 x), fun x => p3 (c3 x)⟩
    · exact r hn o ho

theorem range_succ_iff (off c n o : Nat) :
    (o = off ∨ ∃ k, k < n ∧ o = off + c + c * k) ↔ ∃ k, k < n + 1 ∧ o = off + c * k := by
  constructor
  · rintro (h | ⟨k, hk, h⟩)
    · exact ⟨0, by omega, by simp [h]⟩
    · exact ⟨k + 1, by omega, by rw [h, Nat.mul_succ]; omega⟩
  · rintro ⟨k, hk, h⟩
    cases k with
    | zero => exact Or.inl (by simpa using h)
    | succ k => exact Or.inr ⟨k, by omega, by rw [h, Nat.mul_succ]; omega⟩

theorem Tracks.empty_entry {img : Image} {self off : Nat} (f : Flags)
    (h : img.u16 off = .ok 0) : Tracks img self f f (fun o => o = off) := by
  refine ⟨⟨id, id, id⟩, ⟨fun h => Or.inl h, fun h => Or.inl h, fun h => Or.inl h⟩, ?_⟩
  intro _ o ho
  subst ho
  refine ⟨?_, ?_, ?_⟩
  · simp [entryIs, h]
  · simp [entryIs, h]
  · simp only [entrySelf, h, Res.ok.injEq]
    intro hs
    simp only [Bool.and_eq_true, decide_eq_true_eq] at hs
    omega

theorem Tracks.visit {img : Image} {self off inum : Nat} {isDot isParent : Bool} (f : Flags)
    (h0 : img.u16 off = .ok inum) (hne : inum ≠ 0)
    (h1 : img.strEq (off + 2) dot = .ok isDot)
    (h2 : img.strEq (off + 2) dotdot = .ok isParent) :
    Tracks img self f (f.visit self inum isDot isParent) (fun o => o = off) := by
  have e1 : entryIs img dot off = isDot := by simp [entryIs, h0, h1, hne]
  have e2 : entryIs img dotdot off = isParent := by simp [entryIs, h0, h2, hne]
  have e3 : entrySelf img self off = (decide (inum = self) && isDot) := by
    by_cases hs : inum = self
    · subst hs
      simp [entrySelf, h0, h1, hne]
    · simp [entrySelf, h0, hs]
  obtain ⟨c, p, s⟩ := f
  refine ⟨?_, ?_, ?_⟩
  · cases isDot <;> cases isParent <;> simp [Flags.visit]
    all_goals (intro hs; simp [hs])
  · cases isDot <;> cases isParent <;> by_cases hs : inum = self <;>
      simp [Flags.visit, e1, e2, e3, hs]
  · intro _ o ho
    subst ho
    rw [e1, e2, e3]
    cases isDot <;> cases isParent <;> by_cases hs : inum = self <;>
      simp [Flags.visit, hs]

theorem validateRule4_entries_tracks (img : Image) (self : Nat) :
    ∀ (n off : Nat) (f g : Flags), validateRule4.entries img self n off f = .ok g →
      Tracks img self f g (fun o => ∃ k, k < n ∧ o = off + direntSize * k) := by
  intro n
  induction n with
  | zero =>
    intro off f g h
    simp only [validateRule4.entries, Res.pure_eq, Res.ok.injEq] at h
    subst h
    exact (Tracks.refl img self f).congr (by simp)
  | succ n ih =>
    intro off f g h
    rw [validateRule4.entries] at h
    cases h0 : img.u16 off with
    | fail m => simp [h0] at h
    | undefined => simp [h0] at h
    | ok inum =>
      simp only [h0, Res.ok_bind] at h
      by_cases hz : inum = 0
      · simp only [hz, if_true] at h
        have t1 := (@Tracks.empty_entry img self off f (hz ▸ h0)).trans (ih _ f g h)
        exact t1.congr (fun o => range_succ_iff off direntSize n o)
      · simp only [hz, if_false] at h
        cases h1 : img.strEq (off + 2) dot with
        | fail m => simp [h1] at h
        | undefined => simp [h1] at h
        | ok isDot =>
          cases h2 : img.strEq (off + 2) dotdot with
          | fail m => simp [h1, h2] at h
          | undefined => simp [h1, h2] at h
          | ok isParent =>
            simp only [h1, h2, Res.ok_bind] at h
            have t0 := @Tracks.visit img self off inum isDot isParent f h0 hz h1 h2
            by_cases hall : (f.visit self inum isDot isParent).all = true
            · simp only [hall, if_true, Res.pure_eq, Res.ok.injEq] at h
              subst h
              exact t0.of_all hall (fun o ho => ⟨0, by omega, by simp [ho]⟩)
            · simp only [hall] at h
              exact (t0.trans (ih _ _ g h)).congr
                (fun o => range_succ_iff off direntSize n o)

theorem exists_lt_succ_iff (R : Nat → Prop) (n : Nat) :
    (∃ i, i < n + 1 ∧ R i) ↔ R 0 ∨ ∃ i, i < n ∧ R (i + 1) := by
  constructor
  · rintro ⟨i, hi, h⟩
    cases i with
    | zero => exact Or.inl h
    | succ i => exact Or.inr ⟨i, by omega, h⟩
  · rintro (h | ⟨i, hi, h⟩)
    · exact ⟨0, by omega, h⟩
    · exact ⟨i + 1, by omega, h⟩

theorem directSet_succ (img : Image) (cnt p j n o : Nat) :
    directSet img cnt p j (n + 1) o ↔
      (∃ a, img.inodeAddr p j = .ok a ∧ a ≠ 0 ∧ blockSet cnt a o) ∨
        directSet img cnt p (j + 1) n o := by
  unfold directSet
  rw [exists_lt_succ_iff]
  simp only [Nat.add_zero, Nat.add_assoc, Nat.add_comm 1]

theorem indirectSet_succ (img : Image) (cnt off n o : Nat) :
    indirectSet img cnt off (n + 1) o ↔
      (∃ e, img.u32 off = .ok e ∧ e ≠ 0 ∧ blockSet cnt e o) ∨
        indirectSet img cnt (off + 4) n o := by
  unfold indirectSet
  rw [exists_lt_succ_iff]
  simp only [Nat.mul_zero, Nat.add_zero, Nat.mul_succ, Nat.add_assoc, Nat.add_comm 4]

theorem validateRule4_direct_tracks (img : Image) (cnt p self : Nat) :
    ∀ (n j : Nat) (f g : Flags), validateRule4.direct img cnt p self n j f = .ok g →
      Tracks img self f g (directSet img cnt p j n) := by
  intro n
  induction n with
  | zero =>
    intro j f g h
    simp only [validateRule4.direct, Res.pure_eq, Res.ok.injEq] at h
    subst h
    exact (Tracks.refl img self f).congr (by simp [directSet])
  | succ n ih =>
    intro j f g h
    rw [validateRule4.direct] at h
    cases h0 : img.inodeAddr p j with
    | fail m => simp [h0] at h
    | undefined => simp [h0] at h
    | ok a =>
      simp only [h0, Res.ok_bind] at h
      by_cases hz : a = 0
      · simp only [hz, if_true] at h
        refine (ih _ f g h).congr (fun o => ?_)
        rw [directSet_succ, h0]
        simp [hz]
      · simp only [hz, if_false] at h
        cases h1 : validateRule4.entries img self cnt (blockOff a) f with
        | fail m => simp [h1] at h
        | undefined => simp [h1] at h
        | ok f1 =>
          simp only [h1, Res.ok_bind] at h
          have t0 := validateRule4_entries_tracks img self cnt (blockOff a) f f1 h1
          by_cases hall : f1.all = true
          · simp only [hall, if_true, Res.pure_eq, Res.ok.injEq] at h
            subst h
            refine t0.of_all hall (fun o ho => ?_)
            rw [directSet_succ]
            exact Or.inl ⟨a, h0, hz, ho⟩
          · simp only [hall] at h
            refine (t0.trans (ih _ f1 g h)).congr (fun o => ?_)
            rw [directSet_succ, h0]
            simp [hz, blockSet]

theorem validateRule4_indirect_tracks (img : Image) (cnt self : Nat) :
    ∀ (n off : Nat) (f g : Flags), validateRule4.indirect img cnt self n off f = .ok g →
      Tracks img self f g (indirectSet img cnt off n) := by
  intro n
  induction n with
  | zero =>
    intro off f g h
    simp only [validateRule4.indirect, Res.pure_eq, Res.ok.injEq] at h
    subst h
    exact (Tracks.refl img self f).congr (by simp [indirectSet])
  | succ n ih =>
    intro off f g h
    rw [validateRule4.indirect] at h
    cases h0 : img.u32 off with
    | fail m => simp [h0] at h
    | undefined => simp [h0] at h
    | ok e =>
      simp only [h0, Res.ok_bind] at h
      by_cases hz : e = 0
      · simp only [hz, if_true] at h
        refine (ih _ f g h).congr (fun o => ?_)
        rw [indirectSet_succ, h0]
        simp [hz]
      · simp only [hz, if_false] at h
        cases h1 : validateRule4.entries img self cnt (blockOff e) f with
        | fail m => simp [h1] at h
        | undefined => simp [h1] at h
        | ok f1 =>
          simp only [h1, Res.ok_bind] at h
          have t0 := validateRule4_entries_tracks img self cnt (blockOff e) f f1 h1
          by_cases hall : f1.all = true
          · simp only [hall, if_true, Res.pure_eq, Res.ok.injEq] at h
            subst h
            refine t0.of_all hall (fun o ho => ?_)
            rw [indirectSet_succ]
            exact Or.inl ⟨e, h0, hz, ho⟩
          · simp only [hall] at h
            refine (t0.trans (ih _ f1 g h)).congr (fun o => ?_)
            rw [indirectSet_succ, h0]
            simp [hz, blockSet]

theorem mem_blockEntries {cnt b o : Nat} : o ∈ blockEntries cnt b ↔ blockSet cnt b o := by
  simp [blockEntries, blockSet, eq_comm]

theorem mem_directBlocks {img : Image} {p a : Nat} :
    a ∈ directBlocks img p ↔ ∃ j, j < NDIRECT ∧ img.inodeAddr p j = .ok a ∧ a ≠ 0 := by
  simp only [directBlocks, List.mem_filterMap, List.mem_range]
  constructor
  · rintro ⟨j, hj, h⟩
    cases h0 : img.inodeAddr p j with
    | fail m => simp [h0] at h
    | undefined => simp [h0] at h
    | ok x =>
      simp only [h0] at h
      by_cases hx : x = 0
      · simp [hx] at h
      · simp only [hx, if_false, Option.some.injEq] at h
        subst h
        exact ⟨j, hj, h0, hx⟩
  · rintro ⟨j, hj, h0, hx⟩
    exact ⟨j, hj, by simp [h0, hx]⟩

theorem mem_indirectBlocks {img : Image} {p e : Nat} :
    e ∈ indirectBlocks img p ↔
      ∃ ind, img.inodeAddr p NDIRECT = .ok ind ∧ ind ≠ 0 ∧
        ∃ j, j < NINDIRECT ∧ img.u32 (blockOff ind + 4 * j) = .ok e ∧ e ≠ 0 := by
  unfold indirectBlocks
  cases hi : img.inodeAddr p NDIRECT with
  | fail m => simp
  | undefined => simp
  | ok ind =>
    by_cases hz : ind = 0
    · simp [hz]
    · simp only [hz, if_false, List.mem_filterMap, List.mem_range, Res.ok.injEq]
      constructor
      · rintro ⟨j, hj, h⟩
        cases h0 : img.u32 (blockOff ind + 4 * j) with
        | fail m => simp [h0] at h
        | undefined => simp [h0] at h
        | ok x =>
          simp only [h0] at h
          by_cases hx : x = 0
          · simp [hx] at h
          · simp only [hx, if_false, Option.some.injEq] at h
            subst h
            exact ⟨ind, rfl, hz, j, hj, h0, hx⟩
      · rintro ⟨ind1, h1, -, j, hj, h0, hx⟩
        subst h1
        exact ⟨j, hj, by simp [h0, hx]⟩

theorem mem_dirEntries {img : Image} {cnt p o : Nat} :
    o ∈ dirEntries img cnt p ↔
      directSet img cnt p 0 NDIRECT o ∨
        ∃ ind, img.inodeAddr p NDIRECT = .ok ind ∧ ind ≠ 0 ∧
          indirectSet img cnt (blockOff ind) NINDIRECT o := by
  simp only [dirEntries, List.mem_flatten, List.mem_map, List.mem_append]
  constructor
  · rintro ⟨l, ⟨b, hb, rfl⟩, ho⟩
    rw [mem_blockEntries] at ho
    rcases hb with hb | hb
    · obtain ⟨j, hj, h0, hx⟩ := mem_directBlocks.1 hb
      exact Or.inl ⟨j, hj, b, by simpa using h0, hx, ho⟩
    · obtain ⟨ind, h1, h2, j, hj, h0, hx⟩ := mem_indirectBlocks.1 hb
      exact Or.inr ⟨ind, h1, h2, j, hj, b, h0, hx, ho⟩
  · rintro (⟨j, hj, a, h0, hx, ho⟩ | ⟨ind, h1, h2, j, hj, e, h0, hx, ho⟩)
    · refine ⟨_, ⟨a, Or.inl (mem_directBlocks.2 ⟨j, hj, by simpa using h0, hx⟩), rfl⟩, ?_⟩
      exact mem_blockEntries.2 ho
    · refine ⟨_, ⟨e, Or.inr (mem_indirectBlocks.2 ⟨ind, h1, h2, j, hj, h0, hx⟩), rfl⟩, ?_⟩
      exact mem_blockEntries.2 ho

theorem validateRule4_dirFlags_tracks {img : Image} {cnt p self : Nat} {g : Flags}
    (h : validateRule4.dirFlags img cnt p self = .ok g) :
    Tracks img self ⟨false, false, false⟩ g (fun o => o ∈ dirEntries img cnt p) := by
  unfold validateRule4.dirFlags at h
  cases h1 : validateRule4.direct img cnt p self NDIRECT 0 ⟨false, false, false⟩ with
  | fail m => simp [h1] at h
  | undefined => simp [h1] at h
  | ok f =>
    simp only [h1, Res.ok_bind] at h
    have t1 := validateRule4_direct_tracks img cnt p self NDIRECT 0 _ f h1
    cases h2 : img.inodeAddr p NDIRECT with
    | fail m => simp [h2] at h
    | undefined => simp [h2] at h
    | ok ind =>
      simp only [h2, Res.ok_bind] at h
      by_cases hz : ind = 0
      · simp only [hz, if_true, Res.pure_eq, Res.ok.injEq] at h
        subst h
        refine t1.congr (fun o => ?_)
        rw [mem_dirEntries, h2]
        simp [hz]
      · simp only [hz, if_false] at h
        have t2 := validateRule4_indirect_tracks img cnt self NINDIRECT (blockOff ind) f g h
        refine (t1.trans t2).congr (fun o => ?_)
        rw [mem_dirEntries, h2]
        simp [hz]

theorem validateRule4_dirFlags_all {img : Image} {cnt p : Nat} {g : Flags}
    (h : validateRule4.dirFlags img cnt p p = .ok g) : g.all = dirWellFormed img cnt p := by
  obtain ⟨-, ⟨s1, s2, s3⟩, c⟩ := validateRule4_dirFlags_tracks h
  cases hg : g.all with
  | true =>
    obtain ⟨x1, x2, x3⟩ := Flags.all_eq_true.1 hg
    symm
    simp only [dirWellFormed, Bool.and_eq_true, List.any_eq_true]
    refine ⟨⟨?_, ?_⟩, ?_⟩
    · rcases s1 x1 with h | ⟨o, ho, he⟩
      · exact absurd h (by decide)
      · exact ⟨o, ho, he⟩
    · rcases s2 x2 with h | ⟨o, ho, he⟩
      · exact absurd h (by decide)
      · exact ⟨o, ho, he⟩
    · rcases s3 x3 with h | ⟨o, ho, he⟩
      · exact absurd h (by decide)
      · exact ⟨o, ho, he⟩
  | false =>
    symm
    rw [Bool.eq_false_iff]
    intro hw
    simp only [dirWellFormed, Bool.and_eq_true, List.any_eq_true] at hw
    obtain ⟨⟨⟨o1, m1, e1⟩, ⟨o2, m2, e2⟩⟩, ⟨o3, m3, e3⟩⟩ := hw
    have : g.all = true :=
      Flags.all_eq_true.2 ⟨(c hg o1 m1).1 e1, (c hg o2 m2).2.1 e2, (c hg o3 m3).2.2 e3⟩
    rw [this] at hg
    exact absurd hg (by decide)

/-! ## Reads and the Rule 4 loops never print a diagnostic -/

theorem Image.u8_ne_fail (img : Image) (off : Nat) (m : Msg) : img.u8 off ≠ .fail m := by
  unfold Image.u8
  split <;> simp

theorem Image.u16_ne_fail (img : Image) (off : Nat) (m : Msg) : img.u16 off ≠ .fail m := by
  unfold Image.u16
  split <;> simp

theorem Image.u32_ne_fail (img : Image) (off : Nat) (m : Msg) : img.u32 off ≠ .fail m := by
  unfold Image.u32
  split <;> simp

theorem Res.bind_ne_fail {α β : Type} {x : Res α} {f : α → Res β} {m : Msg}
    (hx : x ≠ .fail m) (hf : ∀ a, f a ≠ .fail m) : (x >>= f) ≠ .fail m := by
  cases x with
  | ok a => exact hf a
  | fail m1 => simpa using hx
  | undefined => simp

theorem Image.strEq_ne_fail (img : Image) (m : Msg) :
    ∀ (lit : List Nat) (off : Nat), img.strEq off lit ≠ .fail m := by
  intro lit
  induction lit with
  | nil =>
    intro off
    rw [Image.strEq]
    exact Res.bind_ne_fail (img.u8_ne_fail off m) (fun a => by simp)
  | cons x xs ih =>
    intro off
    rw [Image.strEq]
    refine Res.bind_ne_fail (img.u8_ne_fail off m) (fun a => ?_)
    split
    · exact ih _
    · simp

theorem validateRule4_entries_ne_fail (img : Image) (self : Nat) (m : Msg) :
    ∀ (n off : Nat) (f : Flags), validateRule4.entries img self n off f ≠ .fail m := by
  intro n
  induction n with
  | zero => intro off f; simp [validateRule4.entries]
  | succ n ih =>
    intro off f
    rw [validateRule4.entries]
    refine Res.bind_ne_fail (img.u16_ne_fail off m) (fun inum => ?_)
    split
    · exact ih _ _
    · refine Res.bind_ne_fail (img.strEq_ne_fail m _ _) (fun a => ?_)
      refine Res.bind_ne_fail (img.strEq_ne_fail m _ _) (fun b => ?_)
      dsimp only
      split
      · simp
      · exact ih _ _

theorem validateRule4_direct_ne_fail (img : Image) (cnt p self : Nat) (m : Msg) :
    ∀ (n j : Nat) (f : Flags), validateRule4.direct img cnt p self n j f ≠ .fail m := by
  intro n
  induction n with
  | zero => intro j f; simp [validateRule4.direct]
  | succ n ih =>
    intro j f
    rw [validateRule4.direct]
    refine Res.bind_ne_fail (img.u32_ne_fail _ m) (fun a => ?_)
    split
    · exact ih _ _
    · refine Res.bind_ne_fail (validateRule4_entries_ne_fail img self m _ _ _) (fun f1 => ?_)
      split
      · simp
      · exact ih _ _

theorem validateRule4_indirect_ne_fail (img : Image) (cnt self : Nat) (m : Msg) :
    ∀ (n off : Nat) (f : Flags), validateRule4.indirect img cnt self n off f ≠ .fail m := by
  intro n
  induction n with
  | zero => intro off f; simp [validateRule4.indirect]
  | succ n ih =>
    intro off f
    rw [validateRule4.indirect]
    refine Res.bind_ne_fail (img.u32_ne_fail _ m) (fun a => ?_)
    split
    · exact ih _ _
    · refine Res.bind_ne_fail (validateRule4_entries_ne_fail img self m _ _ _) (fun f1 => ?_)
      split
      · simp
      · exact ih _ _

theorem validateRule4_dirFlags_ne_fail (img : Image) (cnt p self : Nat) (m : Msg) :
    validateRule4.dirFlags img cnt p self ≠ .fail m := by
  unfold validateRule4.dirFlags
  refine Res.bind_ne_fail (validateRule4_direct_ne_fail img cnt p self m _ _ _) (fun f => ?_)
  refine Res.bind_ne_fail (img.u32_ne_fail _ m) (fun ind => ?_)
  split
  · simp
  · exact validateRule4_indirect_ne_fail img cnt self m _ _ _

theorem forall_range_succ (Q : Nat → Prop) (p n : Nat) :
    (∀ s, p ≤ s → s < p + (n + 1) → Q s) ↔ Q p ∧ ∀ s, p + 1 ≤ s → s < p + 1 + n → Q s := by
  constructor
  · intro h
    exact ⟨h p (by omega) (by omega), fun s h1 h2 => h s (by omega) (by omega)⟩
  · rintro ⟨h0, h1⟩ s h2 h3
    by_cases hs : s = p
    · rw [hs]
      exact h0
    · exact h1 s (by omega) (by omega)

theorem validateRule4_scan_spec (img : Image) (cnt : Nat) :
    ∀ (n p : Nat), validateRule4.scan img cnt n (p + 1) p ≠ .undefined →
      (validateRule4.scan img cnt n (p + 1) p = pass ∨
        validateRule4.scan img cnt n (p + 1) p = .fail .dirFormat) ∧
      (validateRule4.scan img cnt n (p + 1) p = pass ↔
        ∀ s, p ≤ s → s < p + n → img.inodeType s = .ok 1 →
          dirWellFormed img cnt s = true) := by
  intro n
  induction n with
  | zero =>
    intro p _
    simp only [validateRule4.scan, true_or, true_iff, Nat.add_zero]
    exact ⟨trivial, fun s h1 h2 => absurd h2 (by omega)⟩
  | succ n ih =>
    intro p hdef
    rw [forall_range_succ]
    rw [validateRule4.scan] at hdef ⊢
    cases h0 : img.inodeType p with
    | fail m => exact absurd h0 (img.u16_ne_fail _ m)
    | undefined => simp [h0] at hdef
    | ok t =>
      simp only [h0, Res.ok_bind] at hdef ⊢
      by_cases ht0 : t = 0
      · simp only [ht0, if_true] at hdef ⊢
        obtain ⟨i1, i2⟩ := ih (p + 1) hdef
        exact ⟨i1, by rw [i2]; simp⟩
      · simp only [ht0, if_false] at hdef ⊢
        by_cases ht1 : t = 1
        · simp only [ht1, if_true, Nat.add_sub_cancel] at hdef ⊢
          cases hf : validateRule4.dirFlags img cnt p p with
          | fail m => exact absurd hf (validateRule4_dirFlags_ne_fail img cnt p p m)
          | undefined => simp [hf] at hdef
          | ok f =>
            simp only [hf, Res.ok_bind] at hdef ⊢
            have hall := validateRule4_dirFlags_all hf
            cases hw : dirWellFormed img cnt p with
            | false =>
              rw [hw] at hall
              simp [hall]
            | true =>
              rw [hw] at hall
              simp only [hall, Bool.not_true, Bool.false_eq_true, if_false] at hdef ⊢
              obtain ⟨i1, i2⟩ := ih (p + 1) hdef
              exact ⟨i1, by rw [i2]; simp⟩
        · simp only [ht1, if_false] at hdef ⊢
          obtain ⟨i1, i2⟩ := ih (p + 1) hdef
          refine ⟨i1, ?_⟩
          rw [i2]
          simp [ht1]

theorem validateRule4_eq_scan {img : Image} {sb : Superblock} {rsize : Nat}
    (hsb : img.superblock = .ok sb) (hsz : img.inodeSize ROOTINO = .ok rsize) :
    validateRule4 img = validateRule4.scan img (rsize / direntSize) (sb.ninodes - 1) (0 + 1) 0 := by
  simp [validateRule4, hsb, hsz]

/-! ## C9: Rule 4 -/

/-- C9, evaluated: in `imgLateParent` every in-use directory inode (the root and inode 2)
has an entry `.`, an entry `..` and an entry `.` with its own number, whether the entries of
a block are taken to be all 32 records of it or, for inode 2, the four records that its own
size 64 covers.  `validateRule4` bounds the entry loop of every directory by
`direntCount`, the size of the root directory divided by 16, here 3; the `..` entry of
inode 2 is the fourth record of its block, so `validateRule4` reports `directory not
properly formatted`, and so does the checker, whose first three validators pass. -/
theorem validateRule4_misses_late_entry :
    imgLateParent.superblock = .ok ⟨8, 4⟩ ∧
    (imgLateParent.inodeSize ROOTINO = .ok 48 ∧ imgLateParent.inodeType 2 = .ok 1 ∧
      imgLateParent.inodeSize 2 = .ok 64 ∧
      dirWellFormed imgLateParent (64 / direntSize) 2 = true) ∧
    (∀ s, s < 4 → imgLateParent.inodeType s = .ok 1 →
      dirWellFormed imgLateParent (BSIZE / direntSize) s = true) ∧
    validateRule4 imgLateParent = .fail .dirFormat ∧
    main imgLateParent = .fail .dirFormat := by
  refine ⟨?_, ⟨?_, ?_, ?_, ?_⟩, ?_, ?_, ?_⟩
  all_goals decide

/-- The behaviour of `validateRule4` as written, with its entry loops bounded by the root
directory's entry count: on every image on which it stays inside the mapped buffer and whose
last inode slot, `ninodes - 1`, is not a directory, it passes if and only if every in-use
Directory inode has, among the non-empty entries within the first `size of inode 1 / 16`
entry records that start at each of its allocated direct blocks and at each block listed in
its indirect block, an entry named `.`, an entry named `..` and an entry named `.` whose
inode number is the inode's own number; otherwise it reports `directory not properly
formatted`. -/
theorem validateRule4_pass_iff (img : Image) (sb : Superblock) (rsize : Nat)
    (hsb : img.superblock = .ok sb) (hsz : img.inodeSize ROOTINO = .ok rsize)
    (hdef : validateRule4 img ≠ .undefined)
    (hlast : img.inodeType (sb.ninodes - 1) ≠ .ok 1) :
    (validateRule4 img = pass ∨ validateRule4 img = .fail .dirFormat) ∧
    (validateRule4 img = pass ↔
      ∀ s, s < sb.ninodes → img.inodeType s = .ok 1 →
        dirWellFormed img (rsize / direntSize) s = true) := by
  rw [validateRule4_eq_scan hsb hsz] at hdef ⊢
  obtain ⟨h1, h2⟩ := validateRule4_scan_spec img _ _ 0 hdef
  refine ⟨h1, h2.trans ⟨?_, ?_⟩⟩
  · intro h s hs ht
    by_cases hl : s < sb.ninodes - 1
    · exact h s (Nat.zero_le s) (by omega) ht
    · have e : s = sb.ninodes - 1 := by omega
      rw [e] at ht
      exact absurd ht hlast
  · intro h s _ hs ht
    exact h s (by omega) ht

/-- An instance of `validateRule4_pass_iff`, on the well-formed image `imgBase`. -/
theorem validateRule4_pass_iff_witness :
    (validateRule4 imgBase = pass ∨ validateRule4 imgBase = .fail .dirFormat) ∧
    (validateRule4 imgBase = pass ↔
      ∀ s, s < 3 → imgBase.inodeType s = .ok 1 →
        dirWellFormed imgBase (32 / direntSize) s = true) :=
  validateRule4_pass_iff imgBase ⟨8, 3⟩ 32 (by decide) (by decide) (by decide) (by decide)

/-! ## C10: Rule 4 does not count -/

/-- C10, counterexample: the root directory of `imgTwoDots`, an in-use Directory inode,
contains two entries named `.`, and `validateRule4` passes. -/
theorem validateRule4_accepts_two_dots :
    imgTwoDots.inodeType 1 = .ok 1 ∧
    (dirEntries imgTwoDots (BSIZE / direntSize) 1).countP (entryIs imgTwoDots dot) = 2 ∧
    validateRule4 imgTwoDots = pass := by
  decide

/-- C10, amended: for every image on which `validateRule4` stays inside the mapped buffer,
if every in-use Directory inode has among its examined entries (the first
`size of inode 1 / 16` entry records of each of its blocks) at least one entry named `.`
with its own inode number and at least one entry named `..`, then `validateRule4` passes,
however many entries are named `.` or `..`. -/
theorem validateRule4_pass_of_wellFormed (img : Image) (sb : Superblock) (rsize : Nat)
    (hsb : img.superblock = .ok sb) (hsz : img.inodeSize ROOTINO = .ok rsize)
    (hdef : validateRule4 img ≠ .undefined)
    (hwf : ∀ s, s < sb.ninodes → img.inodeType s = .ok 1 →
      dirWellFormed img (rsize / direntSize) s = true) :
    validateRule4 img = pass := by
  rw [validateRule4_eq_scan hsb hsz] at hdef ⊢
  exact ((validateRule4_scan_spec img _ _ 0 hdef).2).2 (fun s _ hs ht => hwf s (by omega) ht)

/-- C10, witness of the amended statement on `imgTwoDots`, whose root directory has two
entries named `.`. -/
theorem validateRule4_pass_of_wellFormed_witness :
    (dirEntries imgTwoDots (48 / direntSize) 1).countP (entryIs imgTwoDots dot) = 2 ∧
    validateRule4 imgTwoDots = pass :=
  ⟨by decide,
   validateRule4_pass_of_wellFormed imgTwoDots ⟨8, 3⟩ 48 (by decide) (by decide) (by decide)
     (by decide)⟩

/-! ## C2: minimal images -/

/-- C2, counterexample: `imgExtraBit` and `imgSecondSlot` satisfy every condition of the
claim (with `nblocks = 8`, `ninodes = 3`, `d = 4`), no validator leaves the buffer on them,
and the checker exits with status 1: on `imgExtraBit`, where the bitmap bit of block 8 is
set, with the Rule 6 message, and on `imgSecondSlot`, where the pointer is in the second
direct slot, with the Rule 3 message. -/
theorem fcheck_rejects_claimed_minimal :
    MinimalAsClaimed imgExtraBit ⟨8, 3⟩ 4 ∧
    (∀ v ∈ validators, v imgExtraBit ≠ .undefined) ∧
    main imgExtraBit = .fail .markedButUnused ∧
    exitStatus (main imgExtraBit) = some 1 ∧
    MinimalAsClaimed imgSecondSlot ⟨8, 3⟩ 4 ∧
    (∀ v ∈ validators, v imgSecondSlot ≠ .undefined) ∧
    main imgSecondSlot = .fail .rootMissing ∧
    exitStatus (main imgSecondSlot) = some 1 := by
  unfold MinimalAsClaimed
  refine ⟨⟨?_, ?_, ?_, ?_, ?_, ?_, ?_, ?_, ?_, ?_, ?_, ?_, ?_, ?_, ?_, ?_⟩, ?_, ?_, ?_,
    ⟨?_, ?_, ?_, ?_, ?_, ?_, ?_, ?_, ?_, ?_, ?_, ?_, ?_, ?_, ?_, ?_⟩, ?_, ?_, ?_⟩
  all_goals decide

theorem Image.u32_lt {img : Image} {off v : Nat} (h : img.u32 off = .ok v) : v < U32 := by
  unfold Image.u32 at h
  split at h
  · simp only [Res.ok.injEq] at h
    unfold U32
    omega
  · simp at h

theorem Image.u16_le_size {img : Image} {off v : Nat} (h : img.u16 off = .ok v) :
    off + 2 ≤ img.size := by
  unfold Image.u16 at h
  split at h
  · assumption
  · simp at h

theorem Image.superblock_lt {img : Image} {sb : Superblock} (h : img.superblock = .ok sb) :
    sb.nblocks < U32 ∧ sb.ninodes < U32 := by
  unfold Image.superblock at h
  cases h1 : img.u32 (BSIZE + 4) with
  | fail m => simp [h1] at h
  | undefined => simp [h1] at h
  | ok nb =>
    cases h2 : img.u32 (BSIZE + 8) with
    | fail m => simp [h1, h2] at h
    | undefined => simp [h1, h2] at h
    | ok ni =>
      simp only [h1, h2, Res.ok_bind, Res.pure_eq, Res.ok.injEq] at h
      subst h
      exact ⟨Image.u32_lt h1, Image.u32_lt h2⟩

theorem Image.strEq_dotdot_of_dot {img : Image} {off : Nat}
    (h : img.strEq off dot = .ok true) : img.strEq off dotdot = .ok false := by
  simp only [dot, dotdot, Image.strEq] at h ⊢
  cases h0 : img.u8 off with
  | fail m => simp [h0] at h
  | undefined => simp [h0] at h
  | ok c =>
    simp only [h0, Res.ok_bind] at h ⊢
    by_cases hc : c = 46
    · simp only [hc, if_true] at h ⊢
      cases h1 : img.u8 (off + 1) with
      | fail m => simp [h1] at h
      | undefined => simp [h1] at h
      | ok c1 =>
        simp only [h1, Res.ok_bind, Res.pure_eq, Res.ok.injEq, beq_iff_eq] at h ⊢
        simp [h]
    · simp [hc] at h

theorem Image.strEq_dot_of_dotdot {img : Image} {off : Nat}
    (h : img.strEq off dotdot = .ok true) : img.strEq off dot = .ok false := by
  simp only [dot, dotdot, Image.strEq] at h ⊢
  cases h0 : img.u8 off with
  | fail m => simp [h0] at h
  | undefined => simp [h0] at h
  | ok c =>
    simp only [h0, Res.ok_bind] at h ⊢
    by_cases hc : c = 46
    · simp only [hc, if_true] at h ⊢
      cases h1 : img.u8 (off + 1) with
      | fail m => simp [h1] at h
      | undefined => simp [h1] at h
      | ok c1 =>
        simp only [h1, Res.ok_bind] at h ⊢
        by_cases hc1 : c1 = 46
        · simp [hc1]
        · simp [hc1] at h
    · simp [hc] at h

set_option maxRecDepth 1000000 in
theorem land_mask_eq_zero_iff : ∀ c, c < 256 → ∀ k, k < 8 →
    (Nat.land (sext8 c) (sext8 (bitMask k)) = 0 ↔ c.testBit k = false) := by
  decide

theorem Image.bitmapTest_of_bit {img : Image} {ninodes b : Nat} {x : Bool}
    (h : img.bitmapBit ninodes b = .ok x) :
    ∃ v, img.bitmapTest ninodes b = .ok v ∧ (v = 0 ↔ x = false) := by
  unfold Image.bitmapBit at h
  unfold Image.bitmapTest
  cases h0 : img.u8 (bitmapBase ninodes + b / 8) with
  | fail m => simp [h0] at h
  | undefined => simp [h0] at h
  | ok c =>
    simp only [h0, Res.ok_bind, Res.pure_eq, Res.ok.injEq] at h ⊢
    have hc : c < 256 := by
      unfold Image.u8 at h0
      split at h0
      · simp only [Res.ok.injEq] at h0
        omega
      · simp at h0
    refine ⟨_, rfl, ?_⟩
    rw [← h]
    exact land_mask_eq_zero_iff c hc (b % 8) (Nat.mod_lt _ (by decide))

theorem MinimalImage.fdb_le {img : Image} {sb : Superblock} {d : Nat}
    (h : MinimalImage img sb d) :
    firstDataBlock sb.ninodes ≤ d ∧ d < U32 ∧ sb.nblocks < U32 ∧
      dataIndex (firstDataBlock sb.ninodes) d = d - firstDataBlock sb.ninodes ∧
      d - firstDataBlock sb.ninodes < sb.nblocks := by
  have h1 := (Image.superblock_lt h.hsb).1
  have h2 := h.lo
  have h3 := h.hi
  unfold firstDataBlock dataIndex
  unfold U32 at *
  have h4 : (lastBitmapBlock sb.ninodes + 1) % 4294967296 = lastBitmapBlock sb.ninodes + 1 :=
    Nat.mod_eq_of_lt (by omega)
  rw [h4]
  refine ⟨by omega, by omega, by omega, ?_, by omega⟩
  omega

/-! ### The validators on a minimal image -/

theorem MinimalImage.d_ne_zero {img : Image} {sb : Superblock} {d : Nat}
    (h : MinimalImage img sb d) : d ≠ 0 := by
  have := h.lo
  omega

theorem validateRule1_scan_minimal {img : Image} {sb : Superblock} {d : Nat}
    (h : MinimalImage img sb d) :
    ∀ n p, p + n ≤ sb.ninodes → validateRule1.scan img n p = pass := by
  intro n
  induction n with
  | zero => intro p _; rfl
  | succ n ih =>
    intro p hp
    rw [validateRule1.scan]
    by_cases h1 : p = 1
    · subst h1
      simp only [h.root, Res.ok_bind]
      simp only [one_ne_zero, if_false, true_or, if_true]
      exact ih _ (by omega)
    · simp only [h.unused p (by omega) h1, Res.ok_bind, if_true]
      exact ih _ (by omega)

theorem validateRule1_minimal {img : Image} {sb : Superblock} {d : Nat}
    (h : MinimalImage img sb d) : validateRule1 img = pass := by
  simp only [validateRule1, h.hsb, Res.ok_bind]
  exact validateRule1_scan_minimal h _ _ (by omega)

theorem validateRule2_direct_minimal {img : Image} {sb : Superblock} {d : Nat}
    (h : MinimalImage img sb d) :
    ∀ n j, j + n ≤ NDIRECT → validateRule2.direct img sb 1 n j = pass := by
  intro n
  induction n with
  | zero => intro j _; rfl
  | succ n ih =>
    intro j hj
    rw [validateRule2.direct]
    by_cases h1 : j = 0
    · subst h1
      simp only [h.addr, Res.ok_bind, h.d_ne_zero, if_false, h.lo, h.hi, and_self, if_true]
      exact ih _ (by omega)
    · simp only [h.others j (by omega) (by omega), Res.ok_bind, if_true]
      exact ih _ (by omega)

theorem validateRule2_scan_unused {img : Image} {sb : Superblock} {d : Nat}
    (h : MinimalImage img sb d) :
    ∀ fuel i p, sb.ninodes ≤ i + fuel →
      (∀ s, p ≤ s → s < p + (sb.ninodes - i) → s < sb.ninodes ∧ s ≠ 1) →
      validateRule2.scan img sb fuel i p = pass := by
  intro fuel
  induction fuel with
  | zero =>
    intro i p hi _
    rw [validateRule2.scan]
    simp only [Nat.add_zero] at hi
    simp [hi]
  | succ fuel ih =>
    intro i p hi hs
    rw [validateRule2.scan]
    by_cases h1 : sb.ninodes ≤ i
    · simp [h1]
    · simp only [h1, if_false]
      obtain ⟨a, b⟩ := hs p (by omega) (by omega)
      simp only [h.unused p a b, Res.ok_bind, if_true]
      exact ih _ _ (by omega) (fun s x y => hs s (by omega) (by omega))

theorem inodeOff_eq (p : Nat) : inodeOff p = 1024 + 64 * p := by
  simp [inodeOff, IBLOCK, IPB, BSIZE, dinodeSize]

theorem validateRule2_minimal {img : Image} {sb : Superblock} {d : Nat}
    (h : MinimalImage img sb d) : validateRule2 img = pass := by
  simp only [validateRule2, h.hsb, Res.ok_bind]
  have hn := h.hn
  have hsz : inodeOff (sb.ninodes - 1) + 2 ≤ img.size := by
    by_cases h1 : sb.ninodes - 1 = 1
    · rw [h1]
      exact Image.u16_le_size h.root
    · exact Image.u16_le_size (h.unused (sb.ninodes - 1) (by omega) h1)
  rw [inodeOff_eq] at hsz
  obtain ⟨m, hm⟩ : ∃ m, img.size = m + 2 := ⟨img.size - 2, by omega⟩
  rw [hm, validateRule2.scan]
  have h0 : ¬ sb.ninodes ≤ 1 := by omega
  simp only [h0, if_false, h.unused 0 (by omega) (by omega), Res.ok_bind, if_true]
  rw [validateRule2.scan]
  by_cases h2 : sb.ninodes ≤ 1 + 1
  · simp [h2]
  · simp only [h2, if_false, h.root, Res.ok_bind, one_ne_zero, true_or, if_true, h.size]
    have e : ¬ (2 * direntSize = 0) := by decide
    simp only [e, if_false, validateRule2_direct_minimal h NDIRECT 0 (by omega), h.ind,
      Res.ok_bind, if_true]
    exact validateRule2_scan_unused h _ _ _ (by unfold NDIRECT; omega)
      (fun s x y => ⟨by unfold NDIRECT at y; omega, by omega⟩)

theorem validateRule3_minimal {img : Image} {sb : Superblock} {d : Nat}
    (h : MinimalImage img sb d) : validateRule3 img = pass := by
  have e : 2 * direntSize / direntSize = 1 + 1 := by decide
  simp only [validateRule3, h.size, h.addr, h.e0, Res.ok_bind, e, validateRule3.scan,
    Image.strEq_dotdot_of_dot h.n0, h.n1, h.e1, if_true, Res.pure_eq]
  simp

theorem validateRule4_dirFlags_minimal {img : Image} {sb : Superblock} {d : Nat}
    (h : MinimalImage img sb d) :
    validateRule4.dirFlags img 2 1 1 = .ok ⟨true, true, true⟩ := by
  have he : validateRule4.entries img 1 2 (blockOff d) ⟨false, false, false⟩
      = .ok ⟨true, true, true⟩ := by
    simp only [validateRule4.entries, h.e0, h.e1, h.n0, h.n1, Res.ok_bind, one_ne_zero,
      if_false, Image.strEq_dotdot_of_dot h.n0, Image.strEq_dot_of_dotdot h.n1]
    simp [Flags.visit, Flags.all]
  unfold validateRule4.dirFlags
  have hd : validateRule4.direct img 2 1 1 NDIRECT 0 ⟨false, false, false⟩
      = .ok ⟨true, true, true⟩ := by
    unfold NDIRECT
    rw [validateRule4.direct]
    simp only [h.addr, Res.ok_bind, h.d_ne_zero, if_false, he]
    simp [Flags.all]
  simp only [hd, Res.ok_bind, h.ind, if_true, Res.pure_eq]

theorem validateRule4_scan_minimal {img : Image} {sb : Superblock} {d : Nat}
    (h : MinimalImage img sb d) :
    ∀ n p, p + n ≤ sb.ninodes → validateRule4.scan img 2 n (p + 1) p = pass := by
  intro n
  induction n with
  | zero => intro p _; rfl
  | succ n ih =>
    intro p hp
    rw [validateRule4.scan]
    by_cases h1 : p = 1
    · subst h1
      simp only [h.root, Res.ok_bind, one_ne_zero, if_false, if_true, Nat.add_sub_cancel,
        validateRule4_dirFlags_minimal h]
      simp only [Flags.all, Bool.and_self, Bool.not_true, Bool.false_eq_true, if_false]
      exact ih _ (by omega)
    · simp only [h.unused p (by omega) h1, Res.ok_bind, if_true]
      exact ih _ (by omega)

theorem validateRule4_minimal {img : Image} {sb : Superblock} {d : Nat}
    (h : MinimalImage img sb d) : validateRule4 img = pass := by
  have e : 2 * direntSize / direntSize = 2 := by decide
  simp only [validateRule4, ROOTINO, h.size, h.hsb, Res.ok_bind, e]
  exact validateRule4_scan_minimal h _ 0 (by omega)

theorem validateRule5_direct_minimal {img : Image} {sb : Superblock} {d : Nat}
    (h : MinimalImage img sb d) :
    ∀ n j, j + n ≤ NDIRECT → validateRule5.direct img sb 1 n j = pass := by
  intro n
  induction n with
  | zero => intro j _; rfl
  | succ n ih =>
    intro j hj
    rw [validateRule5.direct]
    by_cases h1 : j = 0
    · subst h1
      obtain ⟨v, hv, hv0⟩ := Image.bitmapTest_of_bit h.bitd
      have hv1 : ¬ v = 0 := by simp [hv0]
      have hr : ¬ (d ≤ lastBitmapBlock sb.ninodes ∨ sb.nblocks ≤ d) := by
        have := h.lo
        have := h.hi
        omega
      simp only [h.addr, Res.ok_bind, h.d_ne_zero, if_false, hr, hv, hv1]
      exact ih _ (by omega)
    · simp only [h.others j (by omega) (by omega), Res.ok_bind, if_true]
      exact ih _ (by omega)

theorem validateRule5_scan_minimal {img : Image} {sb : Superblock} {d : Nat}
    (h : MinimalImage img sb d) :
    ∀ n p, p + n ≤ sb.ninodes → validateRule5.scan img sb n p = pass := by
  intro n
  induction n with
  | zero => intro p _; rfl
  | succ n ih =>
    intro p hp
    rw [validateRule5.scan]
    by_cases h1 : p = 1
    · subst h1
      simp only [h.root, Res.ok_bind, one_ne_zero, if_false, true_or, if_true,
        validateRule5_direct_minimal h NDIRECT 0 (by omega), h.ind]
      exact ih _ (by omega)
    · simp only [h.unused p (by omega) h1, Res.ok_bind, if_true]
      exact ih _ (by omega)

theorem validateRule5_minimal {img : Image} {sb : Superblock} {d : Nat}
    (h : MinimalImage img sb d) : validateRule5 img = pass := by
  simp only [validateRule5, h.hsb, Res.ok_bind]
  exact validateRule5_scan_minimal h _ _ (by omega)

theorem Scratch.get_ok {s : Scratch} {i : Nat} (h : i < s.len) : s.get i = .ok (s.cell i) := by
  simp [Scratch.get, h]

theorem Scratch.set_ok {s : Scratch} {i : Nat} (v : Nat) (h : i < s.len) :
    s.set i v = .ok ⟨s.len, fun k => if k = i then v else s.cell k⟩ := by
  simp [Scratch.set, h]

theorem validateRule6_markDirect_zero {img : Image} {sb : Superblock} {d : Nat}
    (h : MinimalImage img sb d) (fdb : Nat) :
    ∀ n j s, 1 ≤ j → j + n ≤ NDIRECT → validateRule6.markDirect img fdb 1 n j s = .ok s := by
  intro n
  induction n with
  | zero => intro j s _ _; rfl
  | succ n ih =>
    intro j s h1 h2
    rw [validateRule6.markDirect]
    simp only [h.others j h1 (by omega), Res.ok_bind, if_true]
    exact ih _ _ (by omega) (by omega)

theorem validateRule6_mark_unused {img : Image} {sb : Superblock} {d : Nat}
    (h : MinimalImage img sb d) (fdb : Nat) :
    ∀ n p s, 2 ≤ p → p + n ≤ sb.ninodes → validateRule6.mark img fdb n p s = .ok s := by
  intro n
  induction n with
  | zero => intro p s _ _; rfl
  | succ n ih =>
    intro p s h1 h2
    rw [validateRule6.mark]
    simp only [h.unused p (by omega) (by omega), Res.ok_bind, if_true]
    exact ih _ _ (by omega) (by omega)

theorem validateRule6_mark_minimal {img : Image} {sb : Superblock} {d : Nat}
    (h : MinimalImage img sb d) :
    validateRule6.mark img (firstDataBlock sb.ninodes) sb.ninodes 0 (Scratch.zero sb.nblocks)
      = .ok ⟨sb.nblocks, fun k => if k = d - firstDataBlock sb.ninodes then 1 else 0⟩ := by
  obtain ⟨m, hm⟩ : ∃ m, sb.ninodes = m + 2 := ⟨sb.ninodes - 2, by have := h.hn; omega⟩
  obtain ⟨-, -, -, hidx, hlt⟩ := h.fdb_le
  have hset : (Scratch.zero sb.nblocks).set (dataIndex (firstDataBlock sb.ninodes) d) 1
      = .ok ⟨sb.nblocks, fun k => if k = d - firstDataBlock sb.ninodes then 1 else 0⟩ := by
    rw [hidx, Scratch.set_ok 1 (by simpa [Scratch.zero] using hlt)]
    rfl
  have hdir : validateRule6.markDirect img (firstDataBlock sb.ninodes) 1 NDIRECT 0
      (Scratch.zero sb.nblocks)
      = .ok ⟨sb.nblocks, fun k => if k = d - firstDataBlock sb.ninodes then 1 else 0⟩ := by
    unfold NDIRECT
    rw [validateRule6.markDirect]
    simp only [h.addr, Res.ok_bind, h.d_ne_zero, if_false, hset]
    exact validateRule6_markDirect_zero h _ _ _ _ (by omega) (by unfold NDIRECT; omega)
  have e : validateRule6.mark img (firstDataBlock sb.ninodes) (m + 2) 0
      (Scratch.zero sb.nblocks)
      = .ok ⟨sb.nblocks, fun k => if k = d - firstDataBlock sb.ninodes then 1 else 0⟩ := by
    rw [validateRule6.mark]
    simp only [h.unused 0 (by omega) (by omega), Res.ok_bind, if_true]
    rw [validateRule6.mark]
    simp only [h.root, Res.ok_bind, one_ne_zero, if_false, true_or, if_true, hdir, h.ind]
    exact validateRule6_mark_unused h _ _ _ _ (by omega) (by omega)
  rw [hm] at e ⊢
  exact e

theorem validateRule6_check_minimal {img : Image} {sb : Superblock} {d : Nat}
    (h : MinimalImage img sb d) :
    ∀ n i, i + n ≤ sb.nblocks →
      validateRule6.check img sb
        ⟨sb.nblocks, fun k => if k = d - firstDataBlock sb.ninodes then 1 else 0⟩ n i
        = pass := by
  intro n
  induction n with
  | zero => intro i _; rfl
  | succ n ih =>
    intro i hi
    rw [validateRule6.check]
    obtain ⟨hfd, hd, hnb, -, -⟩ := h.fdb_le
    have hget : (⟨sb.nblocks, fun k => if k = d - firstDataBlock sb.ninodes then 1 else 0⟩ :
        Scratch).get i = .ok (if i = d - firstDataBlock sb.ninodes then 1 else 0) :=
      Scratch.get_ok (by show i < sb.nblocks; omega)
    by_cases hb : (firstDataBlock sb.ninodes + i) % U32 = d
    · obtain ⟨v, hv, -⟩ := Image.bitmapTest_of_bit h.bitd
      have hi2 : i = d - firstDataBlock sb.ninodes := by
        unfold U32 at hb hd hnb
        omega
      simp only [hb, hv, Res.ok_bind, hget, if_pos hi2, one_ne_zero, false_and, if_false]
      exact ih (i + 1) (by omega)
    · obtain ⟨v, hv, hv0⟩ := Image.bitmapTest_of_bit (h.bits i (by omega) hb)
      have hv1 : v = 0 := hv0.2 rfl
      simp only [hv, Res.ok_bind, hget, hv1, ne_eq, not_true_eq_false, and_false, if_false]
      exact ih _ (by omega)

theorem validateRule6_minimal {img : Image} {sb : Superblock} {d : Nat}
    (h : MinimalImage img sb d) : validateRule6 img = pass := by
  simp only [validateRule6, h.hsb, Res.ok_bind, validateRule6_mark_minimal h]
  exact validateRule6_check_minimal h _ _ (by omega)

theorem validateRule7_8_direct_zero {img : Image} {sb : Superblock} {d : Nat}
    (h : MinimalImage img sb d) (fdb : Nat) :
    ∀ n j s, 1 ≤ j → j + n ≤ NDIRECT → validateRule7_8.direct img fdb 1 n j s = .ok s := by
  intro n
  induction n with
  | zero => intro j s _ _; rfl
  | succ n ih =>
    intro j s h1 h2
    rw [validateRule7_8.direct]
    simp only [h.others j h1 (by omega), Res.ok_bind, if_true]
    exact ih _ _ (by omega) (by omega)

theorem validateRule7_8_scan_unused {img : Image} {sb : Superblock} {d : Nat}
    (h : MinimalImage img sb d) (fdb : Nat) :
    ∀ n p s, 2 ≤ p → p + n ≤ sb.ninodes → validateRule7_8.scan img fdb n p s = .ok s := by
  intro n
  induction n with
  | zero => intro p s _ _; rfl
  | succ n ih =>
    intro p s h1 h2
    rw [validateRule7_8.scan]
    simp only [h.unused p (by omega) (by omega), Res.ok_bind, if_true]
    exact ih _ _ (by omega) (by omega)

theorem validateRule7_8_minimal {img : Image} {sb : Superblock} {d : Nat}
    (h : MinimalImage img sb d) : validateRule7_8 img = pass := by
  obtain ⟨m, hm⟩ : ∃ m, sb.ninodes = m + 2 := ⟨sb.ninodes - 2, by have := h.hn; omega⟩
  obtain ⟨-, -, -, hidx, hlt⟩ := h.fdb_le
  have hclaim : (Scratch.zero sb.nblocks).claim (dataIndex (firstDataBlock sb.ninodes) d)
      .directTwice
      = .ok ⟨sb.nblocks, fun k => if k = d - firstDataBlock sb.ninodes then 1 else 0⟩ := by
    have hl : d - firstDataBlock sb.ninodes < (Scratch.zero sb.nblocks).len := by
      simpa [Scratch.zero] using hlt
    rw [hidx, Scratch.claim, Scratch.get_ok hl]
    simp only [Res.ok_bind, Scratch.zero, zero_ne_one, if_false]
    exact Scratch.set_ok 1 hl
  have hdir : validateRule7_8.direct img (firstDataBlock sb.ninodes) 1 NDIRECT 0
      (Scratch.zero sb.nblocks)
      = .ok ⟨sb.nblocks, fun k => if k = d - firstDataBlock sb.ninodes then 1 else 0⟩ := by
    unfold NDIRECT
    rw [validateRule7_8.direct]
    simp only [h.addr, Res.ok_bind, h.d_ne_zero, if_false, hclaim]
    exact validateRule7_8_direct_zero h _ _ _ _ (by omega) (by unfold NDIRECT; omega)
  have e : validateRule7_8.scan img (firstDataBlock sb.ninodes) (m + 2) 0
      (Scratch.zero sb.nblocks)
      = .ok ⟨sb.nblocks, fun k => if k = d - firstDataBlock sb.ninodes then 1 else 0⟩ := by
    rw [validateRule7_8.scan]
    simp only [h.unused 0 (by omega) (by omega), Res.ok_bind, if_true]
    rw [validateRule7_8.scan]
    simp only [h.root, Res.ok_bind, one_ne_zero, if_false, true_or, if_true, hdir, h.ind]
    exact validateRule7_8_scan_unused h _ _ _ _ (by omega) (by omega)
  simp only [validateRule7_8, h.hsb, Res.ok_bind]
  rw [hm] at e ⊢
  rw [e]
  rfl

theorem walkDirect_zero {σ : Type} {img : Image} {sb : Superblock} {d : Nat}
    (h : MinimalImage img sb d) (cnt : Nat) (visit : Nat → σ → Res σ) :
    ∀ n j s, 1 ≤ j → j + n ≤ NDIRECT → walkDirect img cnt visit 1 n j s = .ok s := by
  intro n
  induction n with
  | zero => intro j s _ _; rfl
  | succ n ih =>
    intro j s h1 h2
    rw [walkDirect]
    simp only [h.others j h1 (by omega), Res.ok_bind, if_true]
    exact ih _ _ (by omega) (by omega)

theorem walkInodes_unused {σ : Type} {img : Image} {sb : Superblock} {d : Nat}
    (h : MinimalImage img sb d) (cnt : Nat) (visit : Nat → σ → Res σ) :
    ∀ n p s, 2 ≤ p → p + n ≤ sb.ninodes → walkInodes img cnt visit n p s = .ok s := by
  intro n
  induction n with
  | zero => intro p s _ _; rfl
  | succ n ih =>
    intro p s h1 h2
    rw [walkInodes]
    simp only [h.unused p (by omega) (by omega), Res.ok_bind, if_true]
    exact ih _ _ (by omega) (by omega)

theorem walkInodes_minimal {σ : Type} {img : Image} {sb : Superblock} {d : Nat}
    (h : MinimalImage img sb d) (visit : Nat → σ → Res σ) (s : σ) :
    walkInodes img 2 visit sb.ninodes 0 s
      = (visit (blockOff d) s >>= fun s1 => visit (blockOff d + direntSize) s1) := by
  obtain ⟨m, hm⟩ : ∃ m, sb.ninodes = m + 2 := ⟨sb.ninodes - 2, by have := h.hn; omega⟩
  have e : walkInodes img 2 visit (m + 2) 0 s
      = (visit (blockOff d) s >>= fun s1 => visit (blockOff d + direntSize) s1) := by
    rw [walkInodes]
    simp only [h.unused 0 (by omega) (by omega), Res.ok_bind, if_true]
    rw [walkInodes]
    simp only [h.root, Res.ok_bind, one_ne_zero, if_false, if_true]
    unfold NDIRECT
    rw [walkDirect]
    simp only [h.addr, Res.ok_bind, h.d_ne_zero, if_false, walkEntries]
    cases h0 : visit (blockOff d) s with
    | fail x => rfl
    | undefined => rfl
    | ok s1 =>
      simp only [Res.ok_bind]
      cases h1 : visit (blockOff d + direntSize) s1 with
      | fail x => rfl
      | undefined => rfl
      | ok s2 =>
        simp only [Res.ok_bind, Res.pure_eq]
        rw [walkDirect_zero h 2 visit _ _ _ (by omega) (by unfold NDIRECT; omega)]
        have hind := h.ind
        unfold NDIRECT at hind
        simp only [Res.ok_bind, hind, if_true]
        exact walkInodes_unused h 2 visit _ _ _ (by omega) (by omega)
  rw [hm]
  exact e

theorem validateRule9_check_minimal {img : Image} {sb : Superblock} {d : Nat}
    (h : MinimalImage img sb d) (s : Scratch) (hlen : s.len = sb.ninodes)
    (hcell : s.cell 1 ≠ 0) :
    ∀ n p, p + n ≤ sb.ninodes → validateRule9.check img s n p = pass := by
  intro n
  induction n with
  | zero => intro p _; rfl
  | succ n ih =>
    intro p hp
    rw [validateRule9.check]
    by_cases h1 : p = 1
    · subst h1
      simp only [h.root, Res.ok_bind, one_ne_zero, if_false, true_or, if_true,
        Scratch.get_ok (show 1 < s.len by omega), hcell]
      exact ih _ (by omega)
    · simp only [h.unused p (by omega) h1, Res.ok_bind, if_true]
      exact ih _ (by omega)

theorem validateRule9_minimal {img : Image} {sb : Superblock} {d : Nat}
    (h : MinimalImage img sb d) : validateRule9 img = pass := by
  have e : 2 * direntSize / direntSize = 2 := by decide
  have hn := h.hn
  simp only [validateRule9, ROOTINO, h.size, h.hsb, Res.ok_bind, e, walkInodes_minimal h,
    validateRule9.visit, h.e0, h.e1, one_ne_zero, if_false, Scratch.incr]
  rw [Scratch.get_ok (by show 1 < sb.ninodes; omega)]
  simp only [Res.ok_bind]
  rw [Scratch.set_ok _ (by show 1 < sb.ninodes; omega)]
  simp only [Res.ok_bind]
  rw [Scratch.get_ok (by show 1 < sb.ninodes; omega)]
  simp only [Res.ok_bind]
  rw [Scratch.set_ok _ (by show 1 < sb.ninodes; omega)]
  simp only [Res.ok_bind]
  refine validateRule9_check_minimal h _ rfl ?_ _ _ (by omega)
  simp [Scratch.zero, U32]

theorem validateRule10_build_unused {img : Image} {sb : Superblock} {d : Nat}
    (h : MinimalImage img sb d) :
    ∀ n p s, 2 ≤ p → p + n ≤ sb.ninodes → validateRule10.build img n p s = .ok s := by
  intro n
  induction n with
  | zero => intro p s _ _; rfl
  | succ n ih =>
    intro p s h1 h2
    rw [validateRule10.build]
    simp only [h.unused p (by omega) (by omega), Res.ok_bind, if_true]
    exact ih _ _ (by omega) (by omega)

theorem validateRule10_build_minimal {img : Image} {sb : Superblock} {d : Nat}
    (h : MinimalImage img sb d) :
    ∃ s, validateRule10.build img sb.ninodes 0 (Scratch.zero sb.ninodes) = .ok s ∧
      s.len = sb.ninodes ∧ s.cell 1 ≠ 0 := by
  obtain ⟨m, hm⟩ : ∃ m, sb.ninodes = m + 2 := ⟨sb.ninodes - 2, by have := h.hn; omega⟩
  have hn := h.hn
  refine ⟨⟨sb.ninodes, fun k => if k = 1 then (0 + 1) % U32 else 0⟩, ?_, rfl, by simp [U32]⟩
  have e : validateRule10.build img (m + 2) 0 (Scratch.zero sb.ninodes)
      = .ok ⟨sb.ninodes, fun k => if k = 1 then (0 + 1) % U32 else 0⟩ := by
    rw [validateRule10.build]
    simp only [h.unused 0 (by omega) (by omega), Res.ok_bind, if_true]
    rw [validateRule10.build]
    simp only [h.root, Res.ok_bind, one_ne_zero, if_false, true_or, if_true, Scratch.incr]
    rw [Scratch.get_ok (by show 1 < sb.ninodes; omega)]
    simp only [Res.ok_bind]
    rw [Scratch.set_ok _ (by show 1 < sb.ninodes; omega)]
    simp only [Res.ok_bind]
    exact validateRule10_build_unused h _ _ _ (by omega) (by omega)
  rw [hm] at e ⊢
  exact e

theorem validateRule10_minimal {img : Image} {sb : Superblock} {d : Nat}
    (h : MinimalImage img sb d) : validateRule10 img = pass := by
  have e : 2 * direntSize / direntSize = 2 := by decide
  have hn := h.hn
  obtain ⟨s, hs, hlen, hcell⟩ := validateRule10_build_minimal h
  simp only [validateRule10, ROOTINO, h.size, h.hsb, Res.ok_bind, e, hs, walkInodes_minimal h,
    validateRule10.visit, h.e0, h.e1, one_ne_zero, if_false,
    Scratch.get_ok (show 1 < s.len by omega), hcell]

theorem validateRule11_12_check_minimal {img : Image} {sb : Superblock} {d : Nat}
    (h : MinimalImage img sb d) :
    ∀ n p, p + n ≤ sb.ninodes →
      validateRule11_12.check img (Scratch.zero sb.ninodes) n p = pass := by
  intro n
  induction n with
  | zero => intro p _; rfl
  | succ n ih =>
    intro p hp
    rw [validateRule11_12.check]
    by_cases h1 : p = 1
    · subst h1
      have hg : (Scratch.zero sb.ninodes).get 1 = .ok 0 :=
        Scratch.get_ok (by show 1 < sb.ninodes; omega)
      simp only [h.root, Res.ok_bind, one_ne_zero, if_false, OfNat.one_ne_ofNat, if_true, hg,
        Nat.not_lt_zero]
      exact ih _ (by omega)
    · simp only [h.unused p (by omega) h1, Res.ok_bind, if_true]
      exact ih _ (by omega)

theorem validateRule11_12_minimal {img : Image} {sb : Superblock} {d : Nat}
    (h : MinimalImage img sb d) : validateRule11_12 img = pass := by
  have e : 2 * direntSize / direntSize = 2 := by decide
  simp only [validateRule11_12, ROOTINO, h.size, h.hsb, Res.ok_bind, e, walkInodes_minimal h,
    validateRule11_12.visit, h.e0, h.e1, one_ne_zero, if_false, h.n0, if_true, Res.pure_eq,
    Image.strEq_dot_of_dotdot h.n1, h.n1, Bool.false_eq_true]
  exact validateRule11_12_check_minimal h _ _ (by omega)

/-- C2, amended: for every image with `ninodes ≥ 2` whose only in-use inode is inode 1,
where inode 1 is a Directory of the size of two entries whose first direct pointer is `d`,
with `lastBitmapBlock < d < nblocks`, and whose other pointers are zero, block `d` beginning
with the entries `(".", 1)` and `("..", 1)`, the bitmap bit of `d` set and the bitmap bit of
every other block `firstDataBlock + i` with `i < nblocks` (modulo `2^32`) clear, all these
reads being inside the buffer: all ten validators pass and the checker exits with status 0
and no output. -/
theorem fcheck_minimal_image (img : Image) (sb : Superblock) (d : Nat)
    (hsb : img.superblock = .ok sb) (hn : 2 ≤ sb.ninodes)
    (hunused : ∀ s, s < sb.ninodes → s ≠ 1 → img.inodeType s = .ok 0)
    (hroot : img.inodeType 1 = .ok 1)
    (hsize : img.inodeSize 1 = .ok (2 * direntSize))
    (haddr : img.inodeAddr 1 0 = .ok d)
    (hothers : ∀ j, 1 ≤ j → j < NDIRECT → img.inodeAddr 1 j = .ok 0)
    (hlo : lastBitmapBlock sb.ninodes < d) (hhi : d < sb.nblocks)
    (hind : img.inodeAddr 1 NDIRECT = .ok 0)
    (he0 : img.u16 (blockOff d) = .ok 1)
    (hn0 : img.strEq (blockOff d + 2) dot = .ok true)
    (he1 : img.u16 (blockOff d + direntSize) = .ok 1)
    (hn1 : img.strEq (blockOff d + direntSize + 2) dotdot = .ok true)
    (hbitd : img.bitmapBit sb.ninodes d = .ok true)
    (hbits : ∀ i, i < sb.nblocks → (firstDataBlock sb.ninodes + i) % U32 ≠ d →
      img.bitmapBit sb.ninodes ((firstDataBlock sb.ninodes + i) % U32) = .ok false) :
    (∀ v ∈ validators, v img = pass) ∧ main img = pass ∧
      exitStatus (main img) = some 0 ∧ stderrLine (main img) = none := by
  have h : MinimalImage img sb d :=
    ⟨hsb, hn, hunused, hroot, hsize, haddr, hothers, hlo, hhi, hind, he0, hn0, he1, hn1, hbitd,
      hbits⟩
  have hall : ∀ v ∈ validators, v img = pass := by
    intro v hv
    simp only [validators, List.mem_cons, List.mem_singleton, List.not_mem_nil, or_false] at hv
    rcases hv with e | e | e | e | e | e | e | e | e | e <;> rw [e]
    · exact validateRule1_minimal h
    · exact validateRule2_minimal h
    · exact validateRule3_minimal h
    · exact validateRule4_minimal h
    · exact validateRule5_minimal h
    · exact validateRule6_minimal h
    · exact validateRule7_8_minimal h
    · exact validateRule9_minimal h
    · exact validateRule10_minimal h
    · exact validateRule11_12_minimal h
  have hp : main img = pass := by
    rw [fcheck_eq_firstStop]
    apply firstStop_eq_pass.2
    intro r hr
    obtain ⟨v, hv, rfl⟩ := List.mem_map.1 hr
    exact hall v hv
  refine ⟨hall, hp, ?_, ?_⟩
  · rw [hp]
    rfl
  · rw [hp]
    rfl

/-- C2, witness of the amended statement on `imgBase` (8 blocks, 3 inode slots, root data
block 4). -/
theorem fcheck_minimal_image_witness :
    (∀ v ∈ validators, v imgBase = pass) ∧ main imgBase = pass ∧
      exitStatus (main imgBase) = some 0 ∧ stderrLine (main imgBase) = none :=
  fcheck_minimal_image imgBase ⟨8, 3⟩ 4 (by decide) (by decide) (by decide) (by decide)
    (by decide) (by decide) (by decide) (by decide) (by decide) (by decide) (by decide)
    (by decide) (by decide) (by decide) (by decide) (by decide)

/-! ## The fuel of the Rule 2 scan -/

theorem Image.inodeType_undefined {img : Image} {p : Nat} (h : img.size ≤ p) :
    img.inodeType p = .undefined := by
  unfold Image.inodeType Image.u16
  rw [inodeOff_eq]
  have : ¬ (1024 + 64 * p + 2 ≤ img.size) := by omega
  simp [this]

/-- The scan of `validateRule2` never runs out of fuel: once `fuel + p` covers the buffer,
more fuel does not change the outcome (a scan that is still running when `p` has passed the
end of the buffer reads outside it). -/
theorem validateRule2_scan_fuel (img : Image) (sb : Superblock) :
    ∀ fuel i p, img.size ≤ fuel + p →
      validateRule2.scan img sb (fuel + 1) i p = validateRule2.scan img sb fuel i p := by
  intro fuel
  induction fuel with
  | zero =>
    intro i p hp
    rw [validateRule2.scan, validateRule2.scan]
    rw [Image.inodeType_undefined (by omega)]
    rfl
  | succ fuel ih =>
    intro i p hp
    have ih1 : ∀ j, validateRule2.scan img sb (fuel + 1) j (p + 1)
        = validateRule2.scan img sb fuel j (p + 1) := fun j => ih j (p + 1) (by omega)
    conv_lhs => rw [validateRule2.scan]
    conv_rhs => rw [validateRule2.scan]
    simp only [ih1]

/-! ## C12: the bitmap test -/

/-- C12: for every block index `b` and every bitmap content, the value computed by
`validateRule5` and `validateRule6` (the byte at bitmap base + `b/8`, ANDed with
`bitMask[b%8]`, both sign-extended from `char`) is non-zero if and only if bit `b mod 8`,
counted from the least-significant bit, of byte `b div 8` of the bitmap region is 1 (the
test and the bit are read from the same byte, so one is defined when the other is).  This
holds for all eight bit positions of every byte value, including position 7, where the mask
`0x80` is sign-extended to `0xFFFFFF80`. -/
theorem bitmapTest_ne_zero_iff (img : Image) (ninodes b : Nat) :
    (img.bitmapTest ninodes b >>= fun v => (pure (decide (v ≠ 0)) : Res Bool))
      = img.bitmapBit ninodes b ∧
    sext8 (bitMask 7) = 4294967168 ∧
    (∀ c, c < 256 → ∀ k, k < 8 →
      (Nat.land (sext8 c) (sext8 (bitMask k)) ≠ 0 ↔ c.testBit k = true)) := by
  refine ⟨?_, by decide, ?_⟩
  · unfold Image.bitmapTest Image.bitmapBit
    cases h0 : img.u8 (bitmapBase ninodes + b / 8) with
    | fail m => rfl
    | undefined => rfl
    | ok c =>
      simp only [Res.ok_bind, Res.pure_eq, Res.ok.injEq]
      have hc : c < 256 := by
        unfold Image.u8 at h0
        split at h0
        · simp only [Res.ok.injEq] at h0
          omega
        · simp at h0
      have h := land_mask_eq_zero_iff c hc (b % 8) (Nat.mod_lt _ (by decide))
      cases ht : c.testBit (b % 8) with
      | false => simp [h.2 ht]
      | true =>
        have : ¬ Nat.land (sext8 c) (sext8 (bitMask (b % 8))) = 0 := by
          intro h1
          rw [h.1 h1] at ht
          exact absurd ht (by decide)
        simp [this]
  · intro c hc k hk
    have h := land_mask_eq_zero_iff c hc k hk
    cases ht : c.testBit k with
    | false => simp [h.2 ht]
    | true =>
      simp only [ne_eq, iff_true]
      intro h1
      rw [h.1 h1] at ht
      exact absurd ht (by decide)

/-! ## C11: Rule 5 -/

set_option maxRecDepth 100000 in
/-- C11, evaluated: in `imgIndirectFree` every block pointer lies in the valid range, the
in-use inode 2 has the indirect pointer 5, the bitmap bit of block 5 is clear, and
`validateRule5` passes. -/
theorem validateRule5_skips_indirect_pointer :
    imgIndirectFree.superblock = .ok ⟨8, 4⟩ ∧
    (∀ r ∈ allRefs imgIndirectFree 4, lastBitmapBlock 4 < r.2 ∧ r.2 < 8) ∧
    imgIndirectFree.inodeType 2 = .ok 2 ∧
    imgIndirectFree.inodeAddr 2 NDIRECT = .ok 5 ∧
    imgIndirectFree.bitmapBit 4 5 = .ok false ∧
    validateRule5 imgIndirectFree = pass := by
  refine ⟨?_, ?_, ?_, ?_, ?_, ?_⟩
  all_goals decide

/-! ## C18: the order of Rules 9 and 10 -/

/-- C18, counterexample: `imgBothViolations` passes the validators of Rules 1 to 8 and
violates both Rule 9 (the in-use inode 2 is named by no entry) and Rule 10 (the entry `x`
names the unused inode 3); the checker reports the Rule 9 message. -/
theorem main_reports_rule9_first :
    (∀ v ∈ validators.take 7, v imgBothViolations = pass) ∧
    validateRule9 imgBothViolations = .fail .inodeNotInDir ∧
    validateRule10 imgBothViolations = .fail .inodeFreeInDir ∧
    main imgBothViolations = .fail .inodeNotInDir ∧
    stderrLine (main imgBothViolations)
      = some "ERROR: inode marked use but not found in a directory." := by
  refine ⟨?_, ?_, ?_, ?_, ?_⟩
  all_goals decide

/-- C18, amended: for every image that passes the validators of Rules 1 through 8 and on
which `validateRule9` reports its violation, the checker reports `ERROR: inode marked use
but not found in a directory.` with status 1, whatever `validateRule10` would report:
`validateRule9` runs, and exits, before `validateRule10`. -/
theorem main_rule9_before_rule10 (img : Image)
    (h18 : ∀ v ∈ validators.take 7, v img = pass)
    (h9 : validateRule9 img = .fail .inodeNotInDir) :
    main img = .fail .inodeNotInDir ∧ exitStatus (main img) = some 1 ∧
      stderrLine (main img) = some "ERROR: inode marked use but not found in a directory." := by
  have hm : main img = .fail .inodeNotInDir := by
    simp only [validators, List.take, List.mem_cons, List.mem_singleton, List.not_mem_nil,
      or_false, forall_eq_or_imp, forall_eq] at h18
    obtain ⟨h1, h2, h3, h4, h5, h6, h7⟩ := h18
    simp only [main, h1, h2, h3, h4, h5, h6, h7, h9, Res.ok_bind, Res.fail_bind]
  rw [hm]
  exact ⟨rfl, rfl, rfl⟩

/-- C18, witness of the amended statement on `imgBothViolations`. -/
theorem main_rule9_before_rule10_witness :
    main imgBothViolations = .fail .inodeNotInDir ∧
      exitStatus (main imgBothViolations) = some 1 ∧
      stderrLine (main imgBothViolations)
        = some "ERROR: inode marked use but not found in a directory." :=
  main_rule9_before_rule10 imgBothViolations (by decide) (by decide)

/-! ## Loops as folds over the references in scan order -/

theorem Res.bind_assoc {α β γ : Type} (x : Res α) (f : α → Res β) (g : β → Res γ) :
    ((x >>= f) >>= g) = (x >>= fun a => f a >>= g) := by
  cases x <;> rfl

theorem foldRes_append {α σ : Type} (step : α → σ → Res σ) :
    ∀ (l1 l2 : List α) (s : σ),
      foldRes step (l1 ++ l2) s = (foldRes step l1 s >>= foldRes step l2) := by
  intro l1
  induction l1 with
  | nil => intro l2 s; rfl
  | cons a l1 ih =>
    intro l2 s
    simp only [List.cons_append, foldRes]
    rw [Res.bind_assoc]
    congr 1
    funext s1
    exact ih l2 s1

theorem foldRes_map {α β σ : Type} (step : β → σ → Res σ) (g : α → β) :
    ∀ (l : List α) (s : σ),
      foldRes step (l.map g) s = foldRes (fun a s => step (g a) s) l s := by
  intro l
  induction l with
  | nil => intro s; rfl
  | cons a l ih =>
    intro s
    simp only [List.map_cons, foldRes]
    congr 1
    funext s1
    exact ih s1

theorem foldRes_flatten {α σ : Type} (step : α → σ → Res σ) :
    ∀ (ls : List (List α)) (s : σ),
      foldRes step ls.flatten s = foldRes (fun l s => foldRes step l s) ls s := by
  intro ls
  induction ls with
  | nil => intro s; rfl
  | cons l ls ih =>
    intro s
    simp only [List.flatten_cons, foldRes, foldRes_append]
    congr 1
    funext s1
    exact ih s1

theorem Res.Le.le_refl {α : Type} (x : Res α) : Res.Le x x := Or.inr rfl

theorem Res.Le.of_undefined {α : Type} (y : Res α) : Res.Le .undefined y := Or.inl rfl

theorem Res.Le.eq_of_ne {α : Type} {x y : Res α} (h : Res.Le x y) (hx : x ≠ .undefined) :
    x = y := by
  rcases h with h | h
  · exact absurd h hx
  · exact h

theorem Res.Le.bind {α β : Type} {x y : Res α} {f g : α → Res β} (h : Res.Le x y)
    (hf : ∀ a, Res.Le (f a) (g a)) : Res.Le (x >>= f) (y >>= g) := by
  rcases h with h | h
  · rw [h]
    exact Res.Le.of_undefined _
  · rw [← h]
    cases x with
    | ok a => exact hf a
    | fail m => exact Res.Le.le_refl _
    | undefined => exact Res.Le.of_undefined _

theorem ptrLoop_le {σ : Type} (rd : Nat → Res Nat) (step : Nat → σ → Res σ)
    (loop : Nat → Nat → σ → Res σ) (hrd : ∀ j m, rd j ≠ .fail m)
    (h0 : ∀ j s, loop 0 j s = .ok s)
    (hs : ∀ n j s, loop (n + 1) j s =
      (rd j >>= fun a =>
        if a = 0 then loop n (j + 1) s else (step a s >>= fun s1 => loop n (j + 1) s1))) :
    ∀ n j s, Res.Le (loop n j s) (foldRes step (ptrsFrom rd n j) s) := by
  intro n
  induction n with
  | zero =>
    intro j s
    rw [h0]
    exact Res.Le.le_refl _
  | succ n ih =>
    intro j s
    rw [hs, ptrsFrom]
    cases h : rd j with
    | undefined => exact Res.Le.of_undefined _
    | fail m => exact absurd h (hrd j m)
    | ok a =>
      simp only [Res.ok_bind]
      by_cases ha : a = 0
      · simp only [ha, if_true, List.nil_append]
        exact ih _ _
      · simp only [ha, if_false, List.singleton_append, foldRes]
        exact Res.Le.bind (Res.Le.le_refl _) (fun s1 => ih _ _)

theorem Image.inUse_of_type {img : Image} {p t : Nat} (h : img.inodeType p = .ok t) :
    img.inUse p = decide (t = 1 ∨ t = 2 ∨ t = 3) := by
  simp [Image.inUse, h]

theorem inodeRefs_of_unused {img : Image} {p t : Nat} (h : img.inodeType p = .ok t)
    (ht : ¬ (t = 1 ∨ t = 2 ∨ t = 3)) : inodeRefs img p = [] := by
  simp [inodeRefs, Image.inUse_of_type h, ht]

theorem inodeRefs_of_used {img : Image} {p t ind : Nat} (h : img.inodeType p = .ok t)
    (ht : t = 1 ∨ t = 2 ∨ t = 3) (hi : img.inodeAddr p NDIRECT = .ok ind) :
    inodeRefs img p =
      (ptrsFrom (img.inodeAddr p) NDIRECT 0).map (fun a => (RefKind.direct, a))
        ++ (if ind = 0 then []
            else (RefKind.indirect, ind) ::
              (ptrsFrom (fun j => img.u32 (blockOff ind + 4 * j)) NINDIRECT 0).map
                (fun a => (RefKind.entry, a))) := by
  simp [inodeRefs, Image.inUse_of_type h, ht, hi]

theorem inodeRefs_of_used_undefined {img : Image} {p t : Nat} (h : img.inodeType p = .ok t)
    (ht : t = 1 ∨ t = 2 ∨ t = 3) (hi : img.inodeAddr p NDIRECT = .undefined) :
    inodeRefs img p =
      (ptrsFrom (img.inodeAddr p) NDIRECT 0).map (fun a => (RefKind.direct, a)) := by
  simp [inodeRefs, Image.inUse_of_type h, ht, hi]

theorem validateRule7_8_direct_le (img : Image) (fdb p : Nat) :
    ∀ n j s, Res.Le (validateRule7_8.direct img fdb p n j s)
      (foldRes (fun a s => claimStep fdb (RefKind.direct, a) s)
        (ptrsFrom (img.inodeAddr p) n j) s) := by
  apply ptrLoop_le
  · intro j m
    exact img.u32_ne_fail _ m
  · intro j s
    rfl
  · intro n j s
    rfl

theorem validateRule7_8_indirect_le (img : Image) (fdb base : Nat) :
    ∀ n j s, Res.Le (validateRule7_8.indirect img fdb n (base + 4 * j) s)
      (foldRes (fun a s => claimStep fdb (RefKind.entry, a) s)
        (ptrsFrom (fun j => img.u32 (base + 4 * j)) n j) s) := by
  apply ptrLoop_le (fun j => img.u32 (base + 4 * j))
    (fun a s => claimStep fdb (RefKind.entry, a) s)
    (fun n j s => validateRule7_8.indirect img fdb n (base + 4 * j) s)
  · intro j m
    exact img.u32_ne_fail _ m
  · intro j s
    rfl
  · intro n j s
    rfl

theorem validateRule7_8_scan_le (img : Image) (fdb : Nat) :
    ∀ n p s, Res.Le (validateRule7_8.scan img fdb n p s)
      (foldRes (claimStep fdb) (refsFrom img n p) s) := by
  intro n
  induction n with
  | zero => intro p s; exact Res.Le.le_refl _
  | succ n ih =>
    intro p s
    rw [validateRule7_8.scan, refsFrom, foldRes_append]
    cases h : img.inodeType p with
    | undefined => exact Res.Le.of_undefined _
    | fail m => exact absurd h (img.u16_ne_fail _ m)
    | ok t =>
      simp only [Res.ok_bind]
      by_cases ht0 : t = 0
      · have hu : ¬ (t = 1 ∨ t = 2 ∨ t = 3) := by omega
        simp only [ht0, if_true]
        rw [inodeRefs_of_unused h hu]
        exact ih _ _
      · simp only [ht0, if_false]
        by_cases ht : t = 1 ∨ t = 2 ∨ t = 3
        · simp only [ht, if_true]
          cases hi : img.inodeAddr p NDIRECT with
          | fail m => exact absurd hi (img.u32_ne_fail _ m)
          | undefined =>
            rw [inodeRefs_of_used_undefined h ht hi, foldRes_map]
            refine Res.Le.bind (validateRule7_8_direct_le img fdb p _ _ _) (fun s1 => ?_)
            exact Res.Le.of_undefined _
          | ok ind =>
            rw [inodeRefs_of_used h ht hi, foldRes_append, Res.bind_assoc, foldRes_map]
            refine Res.Le.bind (validateRule7_8_direct_le img fdb p _ _ _) (fun s1 => ?_)
            simp only [Res.ok_bind]
            by_cases hz : ind = 0
            · simp only [hz, if_true, foldRes, Res.ok_bind]
              exact ih _ _
            · simp only [hz, if_false, foldRes, Res.bind_assoc, foldRes_map]
              refine Res.Le.bind (Res.Le.le_refl _) (fun s2 => ?_)
              exact Res.Le.bind (validateRule7_8_indirect_le img fdb (blockOff ind) _ 0 s2)
                (fun s3 => ih _ _)
        · simp only [ht, if_false]
          rw [inodeRefs_of_unused h ht]
          exact ih _ _

/-! ## Claiming cells for a list of references -/

theorem Scratch.claim_eq (s : Scratch) (i : Nat) (m : Msg) :
    s.claim i m =
      if i < s.len then
        (if s.cell i = 1 then .fail m
         else .ok ⟨s.len, fun k => if k = i then 1 else s.cell k⟩)
      else .undefined := by
  unfold Scratch.claim Scratch.get Scratch.set
  by_cases h : i < s.len
  · simp only [h, if_true, Res.ok_bind]
  · simp only [h, if_false, Res.undefined_bind]

theorem claimFold_ok (fdb : Nat) :
    ∀ (l : List (RefKind × Nat)) (s s1 : Scratch), foldRes (claimStep fdb) l s = .ok s1 →
      s1.len = s.len ∧
      (∀ r ∈ l, dataIndex fdb r.2 < s.len ∧ s.cell (dataIndex fdb r.2) ≠ 1) ∧
      (l.map fun r => dataIndex fdb r.2).Nodup ∧
      ∀ i, s1.cell i = if i ∈ l.map (fun r => dataIndex fdb r.2) then 1 else s.cell i := by
  intro l
  induction l with
  | nil =>
    intro s s1 h
    simp only [foldRes, Res.ok.injEq] at h
    subst h
    simp
  | cons a l ih =>
    intro s s1 h
    simp only [foldRes, claimStep, Scratch.claim_eq] at h
    by_cases hb : dataIndex fdb a.2 < s.len
    · simp only [hb, if_true] at h
      by_cases hc : s.cell (dataIndex fdb a.2) = 1
      · simp [hc] at h
      · simp only [hc, if_false, Res.ok_bind] at h
        obtain ⟨h1, h2, h3, h4⟩ := ih _ _ h
        have hnot : dataIndex fdb a.2 ∉ l.map (fun r => dataIndex fdb r.2) := by
          intro hm
          obtain ⟨r, hr, he⟩ := List.mem_map.1 hm
          have := (h2 r hr).2
          simp only [he, if_true] at this
          exact this rfl
        refine ⟨h1, ?_, ?_, ?_⟩
        · intro r hr
          rcases List.mem_cons.1 hr with e | e
          · rw [e]
            exact ⟨hb, hc⟩
          · obtain ⟨x, y⟩ := h2 r e
            refine ⟨x, ?_⟩
            by_cases he : dataIndex fdb r.2 = dataIndex fdb a.2
            · simp [he] at y
            · simpa [he] using y
        · simp only [List.map_cons, List.nodup_cons]
          exact ⟨hnot, h3⟩
        · intro i
          rw [h4 i]
          simp only [List.map_cons, List.mem_cons]
          by_cases hi : i ∈ l.map (fun r => dataIndex fdb r.2)
          · simp [hi]
          · by_cases he : i = dataIndex fdb a.2
            · simp [he]
            · simp [hi, he]
    · simp [hb] at h

theorem claimFold_fail (fdb : Nat) :
    ∀ (l : List (RefKind × Nat)) (s : Scratch) (m : Msg),
      foldRes (claimStep fdb) l s = .fail m →
      ∃ pre r post s1, l = pre ++ r :: post ∧ foldRes (claimStep fdb) pre s = .ok s1 ∧
        (s.cell (dataIndex fdb r.2) = 1 ∨
          dataIndex fdb r.2 ∈ pre.map (fun q => dataIndex fdb q.2)) ∧
        m = r.1.twice := by
  intro l
  induction l with
  | nil =>
    intro s m h
    simp [foldRes] at h
  | cons a l ih =>
    intro s m h
    simp only [foldRes] at h
    cases hs : claimStep fdb a s with
    | undefined => simp [hs] at h
    | fail m1 =>
      simp only [hs, Res.fail_bind, Res.fail.injEq] at h
      simp only [claimStep, Scratch.claim_eq] at hs
      by_cases hb : dataIndex fdb a.2 < s.len
      · simp only [hb, if_true] at hs
        by_cases hc : s.cell (dataIndex fdb a.2) = 1
        · simp only [hc, if_true, Res.fail.injEq] at hs
          exact ⟨[], a, l, s, rfl, rfl, Or.inl hc, by rw [← h, ← hs]⟩
        · simp [hc] at hs
      · simp [hb] at hs
    | ok s1 =>
      simp only [hs, Res.ok_bind] at h
      obtain ⟨pre, r, post, s2, h1, h2, h3, h4⟩ := ih s1 m h
      refine ⟨a :: pre, r, post, s2, by simp [h1], by simp [foldRes, hs, h2], ?_, h4⟩
      simp only [claimStep, Scratch.claim_eq] at hs
      by_cases hb : dataIndex fdb a.2 < s.len
      · simp only [hb, if_true] at hs
        by_cases hc : s.cell (dataIndex fdb a.2) = 1
        · simp [hc] at hs
        · simp only [hc, if_false, Res.ok.injEq] at hs
          subst hs
          simp only [List.map_cons, List.mem_cons]
          rcases h3 with h3 | h3
          · by_cases he : dataIndex fdb r.2 = dataIndex fdb a.2
            · exact Or.inr (Or.inl he)
            · simp only [he, if_false] at h3
              exact Or.inl h3
          · exact Or.inr (Or.inr h3)
      · simp [hb] at hs

theorem dataIndex_inj {fdb b1 b2 : Nat} (h1 : b1 < U32) (h2 : b2 < U32) (hf : fdb < U32)
    (h : dataIndex fdb b1 = dataIndex fdb b2) : b1 = b2 := by
  unfold dataIndex U32 at *
  omega

theorem firstDataBlock_lt (n : Nat) : firstDataBlock n < U32 :=
  Nat.mod_lt _ (by decide)

theorem mem_ptrsFrom {rd : Nat → Res Nat} {a : Nat} :
    ∀ {n j : Nat}, a ∈ ptrsFrom rd n j ↔ ∃ i, i < n ∧ rd (j + i) = .ok a ∧ a ≠ 0 := by
  intro n
  induction n with
  | zero => intro j; simp [ptrsFrom]
  | succ n ih =>
    intro j
    rw [ptrsFrom, List.mem_append, ih, exists_lt_succ_iff]
    simp only [Nat.add_zero, Nat.add_assoc, Nat.add_comm 1]
    apply or_congr_left
    cases h : rd j with
    | undefined => simp
    | fail m => simp
    | ok x =>
      by_cases hx : x = 0
      · simp only [hx, if_true, List.not_mem_nil, Res.ok.injEq, false_iff, not_and, not_not]
        intro e
        exact e.symm
      · simp only [hx, if_false, List.mem_singleton, Res.ok.injEq]
        constructor
        · intro e
          rw [e]
          exact ⟨rfl, hx⟩
        · intro e
          exact e.1.symm

theorem inodeRefs_lt {img : Image} {p : Nat} {r : RefKind × Nat} (h : r ∈ inodeRefs img p) :
    r.2 < U32 := by
  unfold inodeRefs at h
  split at h
  · rcases List.mem_append.1 h with h | h
    · obtain ⟨a, ha, rfl⟩ := List.mem_map.1 h
      obtain ⟨i, -, hi, -⟩ := mem_ptrsFrom.1 ha
      exact Image.u32_lt hi
    · cases hi : img.inodeAddr p NDIRECT with
      | undefined => simp [hi] at h
      | fail m => simp [hi] at h
      | ok ind =>
        simp only [hi] at h
        by_cases hz : ind = 0
        · simp [hz] at h
        · simp only [hz, if_false, List.mem_cons] at h
          rcases h with h | h
          · rw [h]
            exact Image.u32_lt hi
          · obtain ⟨a, ha, rfl⟩ := List.mem_map.1 h
            obtain ⟨i, -, hi2, -⟩ := mem_ptrsFrom.1 ha
            exact Image.u32_lt hi2
  · simp at h

theorem refsFrom_lt {img : Image} {r : RefKind × Nat} :
    ∀ {n p : Nat}, r ∈ refsFrom img n p → r.2 < U32 := by
  intro n
  induction n with
  | zero => intro p h; simp [refsFrom] at h
  | succ n ih =>
    intro p h
    rw [refsFrom, List.mem_append] at h
    rcases h with h | h
    · exact inodeRefs_lt h
    · exact ih h

/-! ## Rules 7 and 8 in terms of the reference list -/

theorem validateRule7_8_le {img : Image} {sb : Superblock} (hsb : img.superblock = .ok sb) :
    Res.Le (validateRule7_8 img)
      (foldRes (claimStep (firstDataBlock sb.ninodes)) (allRefs img sb.ninodes)
        (Scratch.zero sb.nblocks) >>= fun _ => pass) := by
  simp only [validateRule7_8, hsb, Res.ok_bind]
  exact Res.Le.bind (validateRule7_8_scan_le img _ _ _ _) (fun _ => Res.Le.le_refl _)

theorem refs_mem_of_index_mem {fdb : Nat} (hf : fdb < U32) {l : List (RefKind × Nat)}
    (hl : ∀ q ∈ l, q.2 < U32) {b : Nat} (hb : b < U32)
    (h : dataIndex fdb b ∈ l.map (fun q => dataIndex fdb q.2)) : b ∈ l.map Prod.snd := by
  obtain ⟨q, hq, he⟩ := List.mem_map.1 h
  have := dataIndex_inj (hl q hq) hb hf he
  rw [← this]
  exact List.mem_map.2 ⟨q, hq, rfl⟩

theorem nodup_of_index_nodup {fdb : Nat} {l : List (RefKind × Nat)}
    (h : (l.map fun q => dataIndex fdb q.2).Nodup) : (l.map Prod.snd).Nodup := by
  have e : (l.map fun q => dataIndex fdb q.2) = (l.map Prod.snd).map (dataIndex fdb) := by
    simp [List.map_map, Function.comp_def]
  rw [e] at h
  exact List.Nodup.of_map _ h

theorem validateRule7_8_fail_decomp {img : Image} {sb : Superblock}
    (hsb : img.superblock = .ok sb) {m : Msg} (h : validateRule7_8 img = .fail m) :
    ∃ pre r post, allRefs img sb.ninodes = pre ++ r :: post ∧ (pre.map Prod.snd).Nodup ∧
      r.2 ∈ pre.map Prod.snd ∧ m = r.1.twice := by
  have hle := (validateRule7_8_le hsb).eq_of_ne (by rw [h]; simp)
  rw [h] at hle
  cases hf : foldRes (claimStep (firstDataBlock sb.ninodes)) (allRefs img sb.ninodes)
      (Scratch.zero sb.nblocks) with
  | undefined => simp [hf] at hle
  | ok s => simp [hf] at hle
  | fail m1 =>
    simp only [hf, Res.fail_bind, Res.fail.injEq] at hle
    obtain ⟨pre, r, post, s1, h1, h2, h3, h4⟩ := claimFold_fail _ _ _ _ hf
    have hlt : ∀ q ∈ allRefs img sb.ninodes, q.2 < U32 := fun q hq => refsFrom_lt hq
    refine ⟨pre, r, post, h1, ?_, ?_, by rw [hle, h4]⟩
    · exact nodup_of_index_nodup (claimFold_ok _ _ _ _ h2).2.2.1
    · rcases h3 with h3 | h3
      · simp [Scratch.zero] at h3
      · refine refs_mem_of_index_mem (firstDataBlock_lt _) (fun q hq => hlt q ?_)
          (hlt r ?_) h3
        · rw [h1]
          exact List.mem_append_left _ hq
        · rw [h1]
          simp

theorem validateRule7_8_of_decomp {img : Image} {sb : Superblock}
    (hsb : img.superblock = .ok sb) (hdef : validateRule7_8 img ≠ .undefined)
    {pre post : List (RefKind × Nat)} {r : RefKind × Nat}
    (h1 : allRefs img sb.ninodes = pre ++ r :: post) (h2 : (pre.map Prod.snd).Nodup)
    (h3 : r.2 ∈ pre.map Prod.snd) : validateRule7_8 img = .fail r.1.twice := by
  have hle := (validateRule7_8_le hsb).eq_of_ne hdef
  rw [hle] at hdef ⊢
  rw [h1, foldRes_append] at hdef ⊢
  have hlt : ∀ q ∈ pre, q.2 < U32 := by
    intro q hq
    have : q ∈ allRefs img sb.ninodes := by
      rw [h1]
      exact List.mem_append_left _ hq
    exact refsFrom_lt this
  cases hp : foldRes (claimStep (firstDataBlock sb.ninodes)) pre (Scratch.zero sb.nblocks) with
  | undefined => simp [hp] at hdef
  | fail m1 =>
    exfalso
    obtain ⟨pre1, r1, post1, s1, e1, -, e3, -⟩ := claimFold_fail _ _ _ _ hp
    rcases e3 with e3 | e3
    · simp [Scratch.zero] at e3
    · have hm : r1.2 ∈ pre1.map Prod.snd := by
        refine refs_mem_of_index_mem (firstDataBlock_lt _) (fun q hq => hlt q ?_)
          (hlt r1 ?_) e3
        · rw [e1]
          exact List.mem_append_left _ hq
        · rw [e1]
          simp
      rw [e1] at h2
      simp only [List.map_append, List.map_cons] at h2
      have := (List.nodup_append.1 h2).2.2
      exact this hm (List.mem_cons_self _ _)
  | ok s1 =>
    obtain ⟨a1, a2, -, a4⟩ := claimFold_ok _ _ _ _ hp
    obtain ⟨q, hq, he⟩ := List.mem_map.1 h3
    have hidx : dataIndex (firstDataBlock sb.ninodes) r.2
        ∈ pre.map (fun q => dataIndex (firstDataBlock sb.ninodes) q.2) :=
      List.mem_map.2 ⟨q, hq, by rw [he]⟩
    have hb : dataIndex (firstDataBlock sb.ninodes) r.2 < s1.len := by
      rw [a1, ← he]
      exact (a2 q hq).1
    have hc : s1.cell (dataIndex (firstDataBlock sb.ninodes) r.2) = 1 := by
      rw [a4]
      simp [hidx]
    simp only [Res.ok_bind, foldRes, claimStep, Scratch.claim_eq, hb, hc, if_true,
      Res.fail_bind]

theorem validateRule7_8_pass_iff_nodup {img : Image} {sb : Superblock}
    (hsb : img.superblock = .ok sb) (hdef : validateRule7_8 img ≠ .undefined) :
    validateRule7_8 img = pass ↔ ((allRefs img sb.ninodes).map Prod.snd).Nodup := by
  constructor
  · intro h
    have hle := (validateRule7_8_le hsb).eq_of_ne hdef
    rw [h] at hle
    cases hf : foldRes (claimStep (firstDataBlock sb.ninodes)) (allRefs img sb.ninodes)
        (Scratch.zero sb.nblocks) with
    | undefined => simp [hf] at hle
    | fail m => simp [hf] at hle
    | ok s => exact nodup_of_index_nodup (claimFold_ok _ _ _ _ hf).2.2.1
  · intro h
    cases hr : validateRule7_8 img with
    | undefined => exact absurd hr hdef
    | ok u => rfl
    | fail m =>
      exfalso
      obtain ⟨pre, r, post, h1, -, h3, -⟩ := validateRule7_8_fail_decomp hsb hr
      rw [h1] at h
      simp only [List.map_append, List.map_cons] at h
      exact (List.nodup_append.1 h).2.2 h3 (List.mem_cons_self _ _)

/-! ## Runs that stay inside the buffer -/

theorem ptrLoop_eq {σ : Type} (rd : Nat → Res Nat) (step : Nat → σ → Res σ)
    (loop : Nat → Nat → σ → Res σ) (h0 : ∀ j s, loop 0 j s = .ok s)
    (hs : ∀ n j s, loop (n + 1) j s =
      (rd j >>= fun a =>
        if a = 0 then loop n (j + 1) s else (step a s >>= fun s1 => loop n (j + 1) s1))) :
    ∀ n j s, (∀ i, i < n → ∃ a, rd (j + i) = .ok a) →
      loop n j s = foldRes step (ptrsFrom rd n j) s := by
  intro n
  induction n with
  | zero =>
    intro j s _
    rw [h0]
    rfl
  | succ n ih =>
    intro j s hr
    rw [hs, ptrsFrom]
    obtain ⟨a, h⟩ := hr 0 (by omega)
    rw [Nat.add_zero] at h
    have hr1 : ∀ i, i < n → ∃ a, rd (j + 1 + i) = .ok a := by
      intro i hi
      have := hr (i + 1) (by omega)
      rwa [← Nat.add_assoc, Nat.add_right_comm] at this
    simp only [h, Res.ok_bind]
    by_cases ha : a = 0
    · simp only [ha, if_true, List.nil_append]
      exact ih _ _ hr1
    · simp only [ha, if_false, List.singleton_append, foldRes]
      congr 1
      funext s1
      exact ih _ _ hr1

theorem validateRule7_8_scan_eq (img : Image) (fdb : Nat) :
    ∀ n p s, (∀ k, k < n → img.slotReadable (p + k)) →
      validateRule7_8.scan img fdb n p s = foldRes (claimStep fdb) (refsFrom img n p) s := by
  intro n
  induction n with
  | zero => intro p s _; rfl
  | succ n ih =>
    intro p s hr
    have hr1 : ∀ k, k < n → img.slotReadable (p + 1 + k) := by
      intro k hk
      have := hr (k + 1) (by omega)
      rwa [← Nat.add_assoc, Nat.add_right_comm] at this
    obtain ⟨⟨t, h⟩, hads, hinds⟩ := hr 0 (by omega)
    simp only [Nat.add_zero] at h hads hinds
    rw [validateRule7_8.scan, refsFrom, foldRes_append]
    simp only [h, Res.ok_bind]
    by_cases ht0 : t = 0
    · have hu : ¬ (t = 1 ∨ t = 2 ∨ t = 3) := by omega
      simp only [ht0, if_true]
      rw [inodeRefs_of_unused h hu]
      exact ih _ _ hr1
    · simp only [ht0, if_false]
      by_cases ht : t = 1 ∨ t = 2 ∨ t = 3
      · simp only [ht, if_true]
        obtain ⟨ind, hi⟩ := hads NDIRECT (by omega)
        have hd : validateRule7_8.direct img fdb p NDIRECT 0 s
            = foldRes (fun a s => claimStep fdb (RefKind.direct, a) s)
                (ptrsFrom (img.inodeAddr p) NDIRECT 0) s := by
          refine ptrLoop_eq (img.inodeAddr p)
            (fun a s => claimStep fdb (RefKind.direct, a) s)
            (validateRule7_8.direct img fdb p) (fun _ _ => rfl) (fun _ _ _ => rfl) _ _ _ ?_
          intro i hi2
          rw [Nat.zero_add]
          exact hads i (by omega)
        rw [inodeRefs_of_used h ht hi, foldRes_append, Res.bind_assoc, foldRes_map, hd]
        congr 1
        funext s1
        simp only [hi, Res.ok_bind]
        by_cases hz : ind = 0
        · simp only [hz, if_true, foldRes, Res.ok_bind]
          exact ih _ _ hr1
        · simp only [hz, if_false, foldRes, Res.bind_assoc, foldRes_map]
          have hu : img.inUse p = true := by simp [Image.inUse_of_type h, ht]
          have he : ∀ s2, validateRule7_8.indirect img fdb NINDIRECT (blockOff ind + 4 * 0) s2
              = foldRes (fun a s => claimStep fdb (RefKind.entry, a) s)
                  (ptrsFrom (fun j => img.u32 (blockOff ind + 4 * j)) NINDIRECT 0) s2 := by
            intro s2
            refine ptrLoop_eq (fun j => img.u32 (blockOff ind + 4 * j))
              (fun a s => claimStep fdb (RefKind.entry, a) s)
              (fun n j s => validateRule7_8.indirect img fdb n (blockOff ind + 4 * j) s)
              (fun _ _ => rfl) (fun _ _ _ => rfl) _ _ _ ?_
            intro i hi2
            rw [Nat.zero_add]
            exact hinds ind hu hi hz i hi2
          show (claimStep fdb (RefKind.indirect, ind) s1 >>= fun s2 =>
            validateRule7_8.indirect img fdb NINDIRECT (blockOff ind + 4 * 0) s2 >>= _) = _
          congr 1
          funext s2
          rw [he s2]
          congr 1
          funext s3
          exact ih _ _ hr1
      · simp only [ht, if_false]
        rw [inodeRefs_of_unused h ht]
        exact ih _ _ hr1

theorem claimFold_ne_undefined (fdb : Nat) :
    ∀ (l : List (RefKind × Nat)) (s : Scratch), (∀ r ∈ l, dataIndex fdb r.2 < s.len) →
      foldRes (claimStep fdb) l s ≠ .undefined := by
  intro l
  induction l with
  | nil => intro s _; simp [foldRes]
  | cons a l ih =>
    intro s h
    have ha := h a (List.mem_cons_self _ _)
    simp only [foldRes, claimStep, Scratch.claim_eq, ha, if_true]
    by_cases hc : s.cell (dataIndex fdb a.2) = 1
    · simp [hc]
    · simp only [hc, if_false, Res.ok_bind]
      exact ih _ (fun r hr => h r (List.mem_cons_of_mem _ hr))

theorem Image.u32_ok_of_le {img : Image} {off : Nat} (h : off + 4 ≤ img.size) :
    ∃ a, img.u32 off = .ok a := by
  unfold Image.u32
  simp only [h, if_true]
  exact ⟨_, rfl⟩

theorem Image.u16_ok_of_le {img : Image} {off : Nat} (h : off + 2 ≤ img.size) :
    ∃ a, img.u16 off = .ok a := by
  unfold Image.u16
  simp only [h, if_true]
  exact ⟨_, rfl⟩

theorem mem_refsFrom_of_mem {img : Image} {r : RefKind × Nat} {q : Nat}
    (h : r ∈ inodeRefs img q) : ∀ {n p : Nat}, p ≤ q → q < p + n → r ∈ refsFrom img n p := by
  intro n
  induction n with
  | zero => intro p h1 h2; omega
  | succ n ih =>
    intro p h1 h2
    rw [refsFrom, List.mem_append]
    by_cases e : q = p
    · rw [← e]
      exact Or.inl h
    · exact Or.inr (ih (by omega) (by omega))

theorem indirect_mem_inodeRefs {img : Image} {p ind : Nat} (hu : img.inUse p = true)
    (hi : img.inodeAddr p NDIRECT = .ok ind) (hz : ind ≠ 0) :
    (RefKind.indirect, ind) ∈ inodeRefs img p := by
  simp [inodeRefs, hu, hi, hz]

theorem slotReadable_of_buffer {img : Image} {sb : Superblock}
    (htable : inodeOff sb.ninodes ≤ img.size) (hblocks : sb.nblocks * BSIZE ≤ img.size)
    (hrange : ∀ r ∈ allRefs img sb.ninodes, r.2 < sb.nblocks) {p : Nat}
    (hp : p < sb.ninodes) : img.slotReadable p := by
  rw [inodeOff_eq] at htable
  refine ⟨?_, ?_, ?_⟩
  · apply Image.u16_ok_of_le
    rw [inodeOff_eq]
    omega
  · intro j hj
    apply Image.u32_ok_of_le
    rw [inodeOff_eq]
    unfold NDIRECT at hj
    omega
  · intro ind hu hi hz j hj
    apply Image.u32_ok_of_le
    have hm : (RefKind.indirect, ind) ∈ allRefs img sb.ninodes :=
      mem_refsFrom_of_mem (indirect_mem_inodeRefs hu hi hz) (Nat.zero_le p) (by omega)
    have hlt : ind < sb.nblocks := hrange _ hm
    have hb : blockOff ind ≤ ind * BSIZE := Nat.mod_le _ _
    unfold BSIZE at hb hblocks
    unfold NINDIRECT at hj
    omega

theorem validateRule7_8_defined {img : Image} {sb : Superblock}
    (hsb : img.superblock = .ok sb) (htable : inodeOff sb.ninodes ≤ img.size)
    (hblocks : sb.nblocks * BSIZE ≤ img.size)
    (hrange : ∀ r ∈ allRefs img sb.ninodes,
      lastBitmapBlock sb.ninodes < r.2 ∧ r.2 < sb.nblocks) :
    validateRule7_8 img ≠ .undefined := by
  have hread : ∀ k, k < sb.ninodes → img.slotReadable (0 + k) := by
    intro k hk
    rw [Nat.zero_add]
    exact slotReadable_of_buffer htable hblocks (fun r hr => (hrange r hr).2) hk
  have hnb := (Image.superblock_lt hsb).1
  have hidx : ∀ r ∈ allRefs img sb.ninodes,
      dataIndex (firstDataBlock sb.ninodes) r.2 < (Scratch.zero sb.nblocks).len := by
    intro r hr
    obtain ⟨h1, h2⟩ := hrange r hr
    show dataIndex (firstDataBlock sb.ninodes) r.2 < sb.nblocks
    unfold dataIndex firstDataBlock
    unfold U32 at *
    omega
  simp only [validateRule7_8, hsb, Res.ok_bind]
  rw [validateRule7_8_scan_eq img _ _ _ _ hread]
  have := claimFold_ne_undefined _ _ _ hidx
  unfold allRefs at this
  cases hf : foldRes (claimStep (firstDataBlock sb.ninodes)) (refsFrom img sb.ninodes 0)
      (Scratch.zero sb.nblocks) with
  | undefined => exact absurd hf this
  | fail m => simp
  | ok s => simp

/-! ## C14, C15: Rules 7 and 8 -/

/-- C14: for every image (a buffer that holds the inode table and the `nblocks` blocks of its
superblock) whose block pointers all lie in the valid data range, `validateRule7_8` passes if
and only if the non-zero block references of all in-use inodes, taken together (every
direct slot, every indirect pointer, every entry of every referenced indirect block), are
pairwise distinct block numbers; otherwise it fails with one of its two messages. -/
theorem validateRule7_8_pass_iff (img : Image) (sb : Superblock)
    (hsb : img.superblock = .ok sb) (htable : inodeOff sb.ninodes ≤ img.size)
    (hblocks : sb.nblocks * BSIZE ≤ img.size)
    (hrange : ∀ r ∈ allRefs img sb.ninodes,
      lastBitmapBlock sb.ninodes < r.2 ∧ r.2 < sb.nblocks) :
    (validateRule7_8 img = pass ↔ ((allRefs img sb.ninodes).map Prod.snd).Nodup) ∧
    (¬ ((allRefs img sb.ninodes).map Prod.snd).Nodup →
      validateRule7_8 img = .fail .directTwice ∨
        validateRule7_8 img = .fail .indirectTwice) := by
  have hdef := validateRule7_8_defined hsb htable hblocks hrange
  have hiff := validateRule7_8_pass_iff_nodup hsb hdef
  refine ⟨hiff, ?_⟩
  intro hn
  cases hr : validateRule7_8 img with
  | undefined => exact absurd hr hdef
  | ok u => exact absurd (hiff.1 (by rw [hr])) hn
  | fail m =>
    obtain ⟨pre, r, post, -, -, -, hm⟩ := validateRule7_8_fail_decomp hsb hr
    rw [hm]
    cases r.1 with
    | direct => exact Or.inl rfl
    | indirect => exact Or.inr rfl
    | entry => exact Or.inr rfl

set_option maxRecDepth 100000 in
/-- C14, witness: on `imgIndirectFree` the references are the blocks 4, 6, 5 and 7, which are
distinct, and on `imgSharedDirect` block 5 is referenced twice. -/
theorem validateRule7_8_pass_iff_witness :
    (validateRule7_8 imgIndirectFree = pass ↔
      ((allRefs imgIndirectFree 4).map Prod.snd).Nodup) ∧
    (¬ ((allRefs imgSharedDirect 5).map Prod.snd).Nodup →
      validateRule7_8 imgSharedDirect = .fail .directTwice ∨
        validateRule7_8 imgSharedDirect = .fail .indirectTwice) :=
  ⟨(validateRule7_8_pass_iff imgIndirectFree ⟨8, 4⟩ (by decide) (by decide) (by decide)
      (by decide)).1,
   (validateRule7_8_pass_iff imgSharedDirect ⟨8, 5⟩ (by decide) (by decide) (by decide)
      (by decide)).2⟩

/-- C15: for every image on which `validateRule7_8` fails, the references in scan order
(inodes in table order; within an inode the direct slots, then the indirect pointer, then
the entries of the indirect block) split into references to pairwise distinct blocks, a
reference `r` to one of these blocks, and the rest, and the message is that of the kind of
`r`: `direct address used more than once` for a direct pointer, `indirect address used more
than once` for an indirect pointer or an indirect-block entry.  Conversely, when the run
stays inside the buffer and the first reference to an already-claimed block is `r`, this is
the message reported; in particular it is `direct address used more than once` when `r` is
a direct pointer. -/
theorem validateRule7_8_message (img : Image) (sb : Superblock)
    (hsb : img.superblock = .ok sb) :
    (∀ m, validateRule7_8 img = .fail m →
      ∃ pre r post, allRefs img sb.ninodes = pre ++ r :: post ∧
        (pre.map Prod.snd).Nodup ∧ r.2 ∈ pre.map Prod.snd ∧ m = r.1.twice) ∧
    (validateRule7_8 img ≠ .undefined → ∀ pre r post,
      allRefs img sb.ninodes = pre ++ r :: post → (pre.map Prod.snd).Nodup →
      r.2 ∈ pre.map Prod.snd →
      validateRule7_8 img = .fail r.1.twice ∧
        (r.1 = RefKind.direct → validateRule7_8 img = .fail .directTwice)) := by
  refine ⟨fun m h => validateRule7_8_fail_decomp hsb h, ?_⟩
  intro hdef pre r post h1 h2 h3
  have h := validateRule7_8_of_decomp hsb hdef h1 h2 h3
  refine ⟨h, ?_⟩
  intro hk
  rw [h, hk]
  rfl

/-- C15, witness: in `imgSharedDirect` the inodes 2 and 3 both list block 5 as a direct
pointer; the references in scan order are 4, 5, 5, and the message is `direct address used
more than once`. -/
theorem validateRule7_8_message_witness :
    allRefs imgSharedDirect 5
      = [(RefKind.direct, 4), (RefKind.direct, 5)] ++ (RefKind.direct, 5) :: [] ∧
    validateRule7_8 imgSharedDirect = .fail .directTwice ∧
    main imgSharedDirect = .fail .directTwice :=
  ⟨by decide,
   ((validateRule7_8_message imgSharedDirect ⟨8, 5⟩ (by decide)).2 (by decide)
      [(RefKind.direct, 4), (RefKind.direct, 5)] (RefKind.direct, 5) [] (by decide)
      (by decide) (by decide)).1,
   by decide⟩

/-! ## Rule 6 in terms of the reference list -/

theorem validateRule6_markDirect_le (img : Image) (fdb p : Nat) :
    ∀ n j s, Res.Le (validateRule6.markDirect img fdb p n j s)
      (foldRes (fun a s => markStep fdb (RefKind.direct, a) s)
        (ptrsFrom (img.inodeAddr p) n j) s) := by
  apply ptrLoop_le
  · intro j m
    exact img.u32_ne_fail _ m
  · intro j s
    rfl
  · intro n j s
    rfl

theorem validateRule6_markIndirect_le (img : Image) (fdb base : Nat) :
    ∀ n j s, Res.Le (validateRule6.markIndirect img fdb n (base + 4 * j) s)
      (foldRes (fun a s => markStep fdb (RefKind.entry, a) s)
        (ptrsFrom (fun j => img.u32 (base + 4 * j)) n j) s) := by
  apply ptrLoop_le (fun j => img.u32 (base + 4 * j))
    (fun a s => markStep fdb (RefKind.entry, a) s)
    (fun n j s => validateRule6.markIndirect img fdb n (base + 4 * j) s)
  · intro j m
    exact img.u32_ne_fail _ m
  · intro j s
    rfl
  · intro n j s
    rfl

theorem validateRule6_mark_le (img : Image) (fdb : Nat) :
    ∀ n p s, Res.Le (validateRule6.mark img fdb n p s)
      (foldRes (markStep fdb) (refsFrom img n p) s) := by
  intro n
  induction n with
  | zero => intro p s; exact Res.Le.le_refl _
  | succ n ih =>
    intro p s
    rw [validateRule6.mark, refsFrom, foldRes_append]
    cases h : img.inodeType p with
    | undefined => exact Res.Le.of_undefined _
    | fail m => exact absurd h (img.u16_ne_fail _ m)
    | ok t =>
      simp only [Res.ok_bind]
      by_cases ht0 : t = 0
      · have hu : ¬ (t = 1 ∨ t = 2 ∨ t = 3) := by omega
        simp only [ht0, if_true]
        rw [inodeRefs_of_unused h hu]
        exact ih _ _
      · simp only [ht0, if_false]
        by_cases ht : t = 1 ∨ t = 2 ∨ t = 3
        · simp only [ht, if_true]
          cases hi : img.inodeAddr p NDIRECT with
          | fail m => exact absurd hi (img.u32_ne_fail _ m)
          | undefined =>
            rw [inodeRefs_of_used_undefined h ht hi, foldRes_map]
            refine Res.Le.bind (validateRule6_markDirect_le img fdb p _ _ _) (fun s1 => ?_)
            exact Res.Le.of_undefined _
          | ok ind =>
            rw [inodeRefs_of_used h ht hi, foldRes_append, Res.bind_assoc, foldRes_map]
            refine Res.Le.bind (validateRule6_markDirect_le img fdb p _ _ _) (fun s1 => ?_)
            simp only [Res.ok_bind]
            by_cases hz : ind = 0
            · simp only [hz, if_true, foldRes, Res.ok_bind]
              exact ih _ _
            · simp only [hz, if_false, foldRes, Res.bind_assoc, foldRes_map]
              refine Res.Le.bind (Res.Le.le_refl _) (fun s2 => ?_)
              exact Res.Le.bind (validateRule6_markIndirect_le img fdb (blockOff ind) _ 0 s2)
                (fun s3 => ih _ _)
        · simp only [ht, if_false]
          rw [inodeRefs_of_unused h ht]
          exact ih _ _

theorem markFold_ok (fdb : Nat) :
    ∀ (l : List (RefKind × Nat)) (s s1 : Scratch), foldRes (markStep fdb) l s = .ok s1 →
      s1.len = s.len ∧
      ∀ i, s1.cell i = if i ∈ l.map (fun r => dataIndex fdb r.2) then 1 else s.cell i := by
  intro l
  induction l with
  | nil =>
    intro s s1 h
    simp only [foldRes, Res.ok.injEq] at h
    subst h
    simp
  | cons a l ih =>
    intro s s1 h
    simp only [foldRes, markStep, Scratch.set] at h
    by_cases hb : dataIndex fdb a.2 < s.len
    · simp only [hb, if_true, Res.ok_bind] at h
      obtain ⟨h1, h4⟩ := ih _ _ h
      refine ⟨h1, ?_⟩
      intro i
      rw [h4 i]
      simp only [List.map_cons, List.mem_cons]
      by_cases hi : i ∈ l.map (fun r => dataIndex fdb r.2)
      · simp [hi]
      · by_cases he : i = dataIndex fdb a.2
        · simp [he]
        · simp [hi, he]
    · simp [hb] at h

theorem markFold_ne_fail (fdb : Nat) (m : Msg) :
    ∀ (l : List (RefKind × Nat)) (s : Scratch), foldRes (markStep fdb) l s ≠ .fail m := by
  intro l
  induction l with
  | nil => intro s; simp [foldRes]
  | cons a l ih =>
    intro s
    simp only [foldRes]
    refine Res.bind_ne_fail ?_ (fun s1 => ih s1)
    unfold markStep Scratch.set
    split <;> simp

theorem Image.bitmapBit_of_test {img : Image} {ninodes b v : Nat}
    (h : img.bitmapTest ninodes b = .ok v) :
    img.bitmapBit ninodes b = .ok (decide (v ≠ 0)) := by
  unfold Image.bitmapTest at h
  unfold Image.bitmapBit
  cases h0 : img.u8 (bitmapBase ninodes + b / 8) with
  | fail m => simp [h0] at h
  | undefined => simp [h0] at h
  | ok c =>
    simp only [h0, Res.ok_bind, Res.pure_eq, Res.ok.injEq] at h ⊢
    have hc : c < 256 := by
      unfold Image.u8 at h0
      split at h0
      · simp only [Res.ok.injEq] at h0
        omega
      · simp at h0
    have hl := land_mask_eq_zero_iff c hc (b % 8) (Nat.mod_lt _ (by decide))
    rw [h] at hl
    cases ht : c.testBit (b % 8) with
    | false => simp [hl.2 ht]
    | true =>
      have : ¬ v = 0 := by
        intro h1
        rw [hl.1 h1] at ht
        exact absurd ht (by decide)
      simp [this]

theorem Image.bitmapTest_ne_fail (img : Image) (ninodes b : Nat) (m : Msg) :
    img.bitmapTest ninodes b ≠ .fail m := by
  unfold Image.bitmapTest
  exact Res.bind_ne_fail (img.u8_ne_fail _ m) (fun c => by simp)

theorem validateRule6_check_spec (img : Image) (sb : Superblock) (s : Scratch) :
    ∀ n i, i + n ≤ s.len → validateRule6.check img sb s n i ≠ .undefined →
      (validateRule6.check img sb s n i = pass ∨
        validateRule6.check img sb s n i = .fail .markedButUnused) ∧
      (validateRule6.check img sb s n i = .fail .markedButUnused ↔
        ∃ k, i ≤ k ∧ k < i + n ∧ s.cell k = 0 ∧
          img.bitmapBit sb.ninodes ((firstDataBlock sb.ninodes + k) % U32) = .ok true) := by
  intro n
  induction n with
  | zero =>
    intro i _ _
    simp only [validateRule6.check, true_or, true_and]
    constructor
    · intro h
      exact absurd h (by simp)
    · rintro ⟨k, h1, h2, -⟩
      omega
  | succ n ih =>
    intro i hi hdef
    rw [validateRule6.check] at hdef ⊢
    cases hv : img.bitmapTest sb.ninodes ((firstDataBlock sb.ninodes + i) % U32) with
    | undefined => simp [hv] at hdef
    | fail m => exact absurd hv (img.bitmapTest_ne_fail _ _ m)
    | ok v =>
      have hbit := Image.bitmapBit_of_test hv
      have hget : s.get i = .ok (s.cell i) := Scratch.get_ok (by omega)
      simp only [hv, hget, Res.ok_bind] at hdef ⊢
      by_cases hc : s.cell i = 0 ∧ v ≠ 0
      · simp only [hc, and_self, if_true, ne_eq, not_false_eq_true, or_true, true_and,
          true_iff]
        refine ⟨i, Nat.le_refl i, by omega, hc.1, ?_⟩
        rw [hbit]
        simp [hc.2]
      · simp only [hc, if_false] at hdef ⊢
        obtain ⟨i1, i2⟩ := ih (i + 1) (by omega) hdef
        refine ⟨i1, i2.trans ⟨?_, ?_⟩⟩
        · rintro ⟨k, h1, h2, h3, h4⟩
          exact ⟨k, by omega, by omega, h3, h4⟩
        · rintro ⟨k, h1, h2, h3, h4⟩
          by_cases hk : k = i
          · exfalso
            subst hk
            rw [hbit] at h4
            simp only [Res.ok.injEq, decide_eq_true_eq] at h4
            exact hc ⟨h3, h4⟩
          · exact ⟨k, by omega, by omega, h3, h4⟩

theorem dataIndex_eq_iff {fdb b i : Nat} (hf : fdb < U32) (hb : b < U32) (hi : i < U32) :
    dataIndex fdb b = i ↔ b = (fdb + i) % U32 := by
  unfold dataIndex U32 at *
  omega

theorem validateRule6_spec {img : Image} {sb : Superblock} (hsb : img.superblock = .ok sb)
    (hdef : validateRule6 img ≠ .undefined) :
    (validateRule6 img = pass ∨ validateRule6 img = .fail .markedButUnused) ∧
    (validateRule6 img = .fail .markedButUnused ↔
      ∃ i, i < sb.nblocks ∧
        img.bitmapBit sb.ninodes ((firstDataBlock sb.ninodes + i) % U32) = .ok true ∧
        ∀ r ∈ allRefs img sb.ninodes, r.2 ≠ (firstDataBlock sb.ninodes + i) % U32) := by
  have hnb := (Image.superblock_lt hsb).1
  simp only [validateRule6, hsb, Res.ok_bind] at hdef ⊢
  have hle := (validateRule6_mark_le img (firstDataBlock sb.ninodes) sb.ninodes 0
    (Scratch.zero sb.nblocks)).eq_of_ne (Res.bind_ne_undefined hdef)
  rw [hle] at hdef ⊢
  cases hf : foldRes (markStep (firstDataBlock sb.ninodes)) (refsFrom img sb.ninodes 0)
      (Scratch.zero sb.nblocks) with
  | undefined => simp [hf] at hdef
  | fail m => exact absurd hf (markFold_ne_fail _ m _ _)
  | ok s =>
    simp only [hf, Res.ok_bind] at hdef ⊢
    obtain ⟨hlen, hcell⟩ := markFold_ok _ _ _ _ hf
    have hlen2 : s.len = sb.nblocks := hlen
    obtain ⟨c1, c2⟩ := validateRule6_check_spec img sb s sb.nblocks 0 (by omega) hdef
    refine ⟨c1, c2.trans ⟨?_, ?_⟩⟩
    · rintro ⟨k, -, h2, h3, h4⟩
      refine ⟨k, by omega, h4, ?_⟩
      intro r hr he
      have hm : k ∈ (refsFrom img sb.ninodes 0).map
          (fun r => dataIndex (firstDataBlock sb.ninodes) r.2) := by
        refine List.mem_map.2 ⟨r, hr, ?_⟩
        exact (dataIndex_eq_iff (firstDataBlock_lt _) (refsFrom_lt hr) (by omega)).2 he
      rw [hcell k] at h3
      simp [hm] at h3
    · rintro ⟨i, h1, h2, h3⟩
      refine ⟨i, Nat.zero_le i, by omega, ?_, h2⟩
      rw [hcell i]
      have hm : i ∉ (refsFrom img sb.ninodes 0).map
          (fun r => dataIndex (firstDataBlock sb.ninodes) r.2) := by
        intro hm
        obtain ⟨r, hr, he⟩ := List.mem_map.1 hm
        exact h3 r hr
          ((dataIndex_eq_iff (firstDataBlock_lt _) (refsFrom_lt hr) (by omega)).1 he)
      simp [hm, Scratch.zero]

/-! ## C13: Rule 6 -/

/-- C13, counterexample: in `imgExtraBit` every block pointer lies in the valid range and
every block of the data region (4 to 7) whose bitmap bit is set is referenced, yet
`validateRule6` reports `bitmap marks block in use but it is not in use`, because of the
bit of block 8. -/
theorem validateRule6_reports_outside_region :
    imgExtraBit.superblock = .ok ⟨8, 3⟩ ∧
    (∀ r ∈ allRefs imgExtraBit 3, lastBitmapBlock 3 < r.2 ∧ r.2 < 8) ∧
    (∀ b, b < 8 → firstDataBlock 3 ≤ b → imgExtraBit.bitmapBit 3 b = .ok true →
      ∃ r ∈ allRefs imgExtraBit 3, r.2 = b) ∧
    validateRule6 imgExtraBit = .fail .markedButUnused := by
  refine ⟨?_, ?_, ?_, ?_⟩
  all_goals decide

/-- C13, amended: for every image whose block pointers all lie in the valid data range and
on which `validateRule6` reads only inside the mapped buffer, `validateRule6` reports
`bitmap marks block in use but it is not in use` if and only if there is a block
`firstDataBlock + i` with `i < nblocks` (one of the `nblocks` blocks from the first data
block on, modulo `2^32`) whose on-disk bitmap bit is set and which is referenced by no
in-use inode, neither as a direct pointer, nor as an indirect pointer, nor as an entry of an
indirect block; otherwise it passes. -/
theorem validateRule6_fail_iff (img : Image) (sb : Superblock)
    (hsb : img.superblock = .ok sb)
    (_hrange : ∀ r ∈ allRefs img sb.ninodes,
      lastBitmapBlock sb.ninodes < r.2 ∧ r.2 < sb.nblocks)
    (hdef : validateRule6 img ≠ .undefined) :
    (validateRule6 img = pass ∨ validateRule6 img = .fail .markedButUnused) ∧
    (validateRule6 img = .fail .markedButUnused ↔
      ∃ i, i < sb.nblocks ∧
        img.bitmapBit sb.ninodes ((firstDataBlock sb.ninodes + i) % U32) = .ok true ∧
        ∀ r ∈ allRefs img sb.ninodes, r.2 ≠ (firstDataBlock sb.ninodes + i) % U32) :=
  validateRule6_spec hsb hdef

/-- C13, witness of the amended statement on `imgExtraBit`. -/
theorem validateRule6_fail_iff_witness :
    (validateRule6 imgExtraBit = pass ∨ validateRule6 imgExtraBit = .fail .markedButUnused) ∧
    (validateRule6 imgExtraBit = .fail .markedButUnused ↔
      ∃ i, i < 8 ∧
        imgExtraBit.bitmapBit 3 ((firstDataBlock 3 + i) % U32) = .ok true ∧
        ∀ r ∈ allRefs imgExtraBit 3, r.2 ≠ (firstDataBlock 3 + i) % U32) :=
  validateRule6_fail_iff imgExtraBit ⟨8, 3⟩ (by decide) (by decide) (by decide)

/-! ## The directory traversal as a fold over the examined entries -/

theorem walkEntries_eq {σ : Type} (visit : Nat → σ → Res σ) :
    ∀ n off s, walkEntries visit n off s
      = foldRes visit ((List.range n).map fun k => off + direntSize * k) s := by
  intro n
  induction n with
  | zero => intro off s; rfl
  | succ n ih =>
    intro off s
    rw [walkEntries, List.range_succ_eq_map]
    simp only [List.map_cons, List.map_map, foldRes, Nat.mul_zero, Nat.add_zero]
    congr 1
    funext s1
    rw [ih]
    congr 1
    apply List.map_congr_left
    intro k _
    simp only [Function.comp_apply, Nat.mul_succ]
    omega

theorem filterMap_range_ptrs (rd : Nat → Res Nat) :
    ∀ n j, (List.range n).filterMap (fun i =>
        match rd (j + i) with
        | .ok a => if a = 0 then none else some a
        | _ => none) = ptrsFrom rd n j := by
  intro n
  induction n with
  | zero => intro j; rfl
  | succ n ih =>
    intro j
    rw [List.range_succ_eq_map, ptrsFrom, ← ih (j + 1), List.filterMap_cons,
      List.filterMap_map]
    have e : ((fun i => match rd (j + i) with
        | .ok a => if a = 0 then none else some a
        | _ => none) ∘ Nat.succ) = (fun i => match rd (j + 1 + i) with
        | .ok a => if a = 0 then none else some a
        | _ => none) := by
      funext i
      simp only [Function.comp_apply, Nat.succ_eq_add_one]
      rw [Nat.add_assoc, Nat.add_comm 1 i]
    rw [e, Nat.add_zero]
    cases h : rd j with
    | undefined => simp
    | fail m => simp
    | ok a =>
      by_cases ha : a = 0
      · simp [ha]
      · simp [ha]

theorem directBlocks_eq (img : Image) (p : Nat) :
    directBlocks img p = ptrsFrom (img.inodeAddr p) NDIRECT 0 := by
  have h := filterMap_range_ptrs (img.inodeAddr p) NDIRECT 0
  simp only [Nat.zero_add] at h
  exact h

theorem indirectBlocks_eq {img : Image} {p ind : Nat}
    (hi : img.inodeAddr p NDIRECT = .ok ind) (hz : ind ≠ 0) :
    indirectBlocks img p = ptrsFrom (fun j => img.u32 (blockOff ind + 4 * j)) NINDIRECT 0 := by
  have h := filterMap_range_ptrs (fun j => img.u32 (blockOff ind + 4 * j)) NINDIRECT 0
  simp only [Nat.zero_add] at h
  simp only [indirectBlocks, hi, hz, if_false]
  exact h

theorem foldRes_blocks {σ : Type} (visit : Nat → σ → Res σ) (cnt : Nat) (l : List Nat)
    (s : σ) :
    foldRes visit ((l.map (blockEntries cnt)).flatten) s
      = foldRes (fun a s => walkEntries visit cnt (blockOff a) s) l s := by
  rw [foldRes_flatten, foldRes_map]
  congr 1
  funext a s1
  rw [walkEntries_eq]
  rfl

theorem walkDirect_le {σ : Type} (img : Image) (cnt : Nat) (visit : Nat → σ → Res σ)
    (p : Nat) :
    ∀ n j s, Res.Le (walkDirect img cnt visit p n j s)
      (foldRes visit (((ptrsFrom (img.inodeAddr p) n j).map (blockEntries cnt)).flatten)
        s) := by
  intro n j s
  rw [foldRes_blocks]
  revert n j s
  apply ptrLoop_le
  · intro j m
    exact img.u32_ne_fail _ m
  · intro j s
    rfl
  · intro n j s
    rfl

theorem walkIndirect_le {σ : Type} (img : Image) (cnt : Nat) (visit : Nat → σ → Res σ)
    (base : Nat) :
    ∀ n j s, Res.Le (walkIndirect img cnt visit n (base + 4 * j) s)
      (foldRes visit
        (((ptrsFrom (fun j => img.u32 (base + 4 * j)) n j).map (blockEntries cnt)).flatten)
        s) := by
  intro n j s
  rw [foldRes_blocks]
  revert n j s
  apply ptrLoop_le (fun j => img.u32 (base + 4 * j))
    (fun a s => walkEntries visit cnt (blockOff a) s)
    (fun n j s => walkIndirect img cnt visit n (base + 4 * j) s)
  · intro j m
    exact img.u32_ne_fail _ m
  · intro j s
    rfl
  · intro n j s
    rfl

theorem walkInodes_le {σ : Type} (img : Image) (cnt : Nat) (visit : Nat → σ → Res σ) :
    ∀ n p s, Res.Le (walkInodes img cnt visit n p s)
      (foldRes visit (walkOffsets img cnt n p) s) := by
  intro n
  induction n with
  | zero => intro p s; exact Res.Le.le_refl _
  | succ n ih =>
    intro p s
    rw [walkInodes, walkOffsets, foldRes_append]
    cases h : img.inodeType p with
    | undefined => exact Res.Le.of_undefined _
    | fail m => exact absurd h (img.u16_ne_fail _ m)
    | ok t =>
      simp only [Res.ok_bind, Res.ok.injEq]
      by_cases ht0 : t = 0
      · have hu : ¬ t = 1 := by omega
        simp only [ht0, if_true, hu, if_false, foldRes, Res.ok_bind]
        exact ih _ _
      · simp only [ht0, if_false]
        by_cases ht : t = 1
        · simp only [ht, if_true, dirEntries, List.map_append, List.flatten_append,
            foldRes_append, Res.bind_assoc, directBlocks_eq]
          refine Res.Le.bind (walkDirect_le img cnt visit p _ _ _) (fun s1 => ?_)
          cases hi : img.inodeAddr p NDIRECT with
          | fail m => exact absurd hi (img.u32_ne_fail _ m)
          | undefined => exact Res.Le.of_undefined _
          | ok ind =>
            simp only [Res.ok_bind]
            by_cases hz : ind = 0
            · have e : indirectBlocks img p = [] := by simp [indirectBlocks, hi, hz]
              simp only [hz, if_true, e, List.map_nil, List.flatten_nil, foldRes, Res.ok_bind]
              exact ih _ _
            · simp only [hz, if_false, indirectBlocks_eq hi hz]
              exact Res.Le.bind (walkIndirect_le img cnt visit (blockOff ind) _ 0 s1)
                (fun s2 => ih _ _)
        · simp only [ht, if_false, foldRes, Res.ok_bind]
          exact ih _ _

/-! ## Counting entries -/

theorem Scratch.incr_eq (s : Scratch) (i : Nat) :
    s.incr i =
      if i < s.len then
        .ok ⟨s.len, fun k => if k = i then (s.cell i + 1) % U32 else s.cell k⟩
      else .undefined := by
  unfold Scratch.incr Scratch.get Scratch.set
  by_cases h : i < s.len
  · simp only [h, if_true, Res.ok_bind]
  · simp only [h, if_false, Res.undefined_bind]

theorem countFold (img : Image) (sel : Nat → Bool) (v : Nat → Scratch → Res Scratch)
    (hv : ∀ off s s1, v off s = .ok s1 →
      if sel off = true then s.incr (entryInum img off) = .ok s1 else s1 = s) :
    ∀ (l : List Nat) (s s1 : Scratch), foldRes v l s = .ok s1 →
      s1.len = s.len ∧
      ((∀ i, s.cell i < U32) → ∀ i, s1.cell i < U32) ∧
      ∀ i, s1.cell i % U32
        = (s.cell i + l.countP (fun off => sel off && decide (entryInum img off = i)))
          % U32 := by
  intro l
  induction l with
  | nil =>
    intro s s1 h
    simp only [foldRes, Res.ok.injEq] at h
    subst h
    simp
  | cons a l ih =>
    intro s s1 h
    simp only [foldRes] at h
    cases ha : v a s with
    | undefined => simp [ha] at h
    | fail m => simp [ha] at h
    | ok s2 =>
      simp only [ha, Res.ok_bind] at h
      obtain ⟨h1, h2, h3⟩ := ih s2 s1 h
      have hstep := hv a s s2 ha
      by_cases hs : sel a = true
      · simp only [hs, if_true, Scratch.incr_eq] at hstep
        by_cases hb : entryInum img a < s.len
        · simp only [hb, if_true, Res.ok.injEq] at hstep
          subst hstep
          refine ⟨h1, ?_, ?_⟩
          · intro hlt
            apply h2
            intro i
            show (if i = entryInum img a then (s.cell (entryInum img a) + 1) % U32
              else s.cell i) < U32
            split
            · exact Nat.mod_lt _ (by decide)
            · exact hlt i
          · intro i
            have e := h3 i
            simp only [List.countP_cons, hs, Bool.true_and] at e ⊢
            by_cases hi : entryInum img a = i
            · subst hi
              simp only [if_true, decide_True] at e ⊢
              unfold U32 at e ⊢
              omega
            · have hi2 : ¬ i = entryInum img a := fun x => hi x.symm
              simp only [hi2, if_false, hi, decide_False] at e ⊢
              simpa using e
        · simp [hb] at hstep
      · simp only [hs, if_false] at hstep
        subst hstep
        refine ⟨h1, h2, ?_⟩
        intro i
        rw [h3 i]
        simp [List.countP_cons, hs]

theorem foldRes_ne_fail {α σ : Type} (step : α → σ → Res σ) (m : Msg)
    (h : ∀ a s, step a s ≠ .fail m) : ∀ (l : List α) (s : σ), foldRes step l s ≠ .fail m := by
  intro l
  induction l with
  | nil => intro s; simp [foldRes]
  | cons a l ih =>
    intro s
    simp only [foldRes]
    exact Res.bind_ne_fail (h a s) (fun s1 => ih s1)

theorem Scratch.incr_ne_fail (s : Scratch) (i : Nat) (m : Msg) : s.incr i ≠ .fail m := by
  rw [Scratch.incr_eq]
  split <;> simp

theorem entryInum_of_read {img : Image} {off inum : Nat} (h : img.u16 off = .ok inum) :
    entryInum img off = inum := by
  simp [entryInum, h]

theorem validateRule9_visit_spec (img : Image) (off : Nat) (s s1 : Scratch)
    (h : validateRule9.visit img off s = .ok s1) :
    if decide (entryInum img off ≠ 0) = true then s.incr (entryInum img off) = .ok s1
    else s1 = s := by
  unfold validateRule9.visit at h
  cases h0 : img.u16 off with
  | undefined => simp [h0] at h
  | fail m => simp [h0] at h
  | ok inum =>
    simp only [h0, Res.ok_bind] at h
    rw [entryInum_of_read h0]
    by_cases hz : inum = 0
    · simp only [hz, if_true, Res.pure_eq, Res.ok.injEq] at h
      simp [hz, h]
    · simp only [hz, if_false] at h
      simp [hz, h]

theorem validateRule9_visit_ne_fail (img : Image) (m : Msg) (off : Nat) (s : Scratch) :
    validateRule9.visit img off s ≠ .fail m := by
  unfold validateRule9.visit
  refine Res.bind_ne_fail (img.u16_ne_fail _ m) (fun inum => ?_)
  split
  · simp
  · exact Scratch.incr_ne_fail _ _ m

theorem validateRule9_check_spec (img : Image) (s : Scratch) :
    ∀ n i, i + n ≤ s.len → validateRule9.check img s n i ≠ .undefined →
      (validateRule9.check img s n i = pass ∨
        validateRule9.check img s n i = .fail .inodeNotInDir) ∧
      (validateRule9.check img s n i = pass ↔
        ∀ k, i ≤ k → k < i + n → img.inUse k = true → s.cell k ≠ 0) := by
  intro n
  induction n with
  | zero =>
    intro i _ _
    simp only [validateRule9.check, true_or, true_and, true_iff]
    intro k h1 h2
    omega
  | succ n ih =>
    intro i hi hdef
    rw [forall_range_succ]
    rw [validateRule9.check] at hdef ⊢
    cases h : img.inodeType i with
    | undefined => simp [h] at hdef
    | fail m => exact absurd h (img.u16_ne_fail _ m)
    | ok t =>
      have hu := Image.inUse_of_type h
      simp only [h, Res.ok_bind] at hdef ⊢
      by_cases ht0 : t = 0
      · simp only [ht0, if_true] at hdef ⊢
        obtain ⟨i1, i2⟩ := ih (i + 1) (by omega) hdef
        refine ⟨i1, ?_⟩
        rw [i2, hu]
        simp [ht0]
      · simp only [ht0, if_false] at hdef ⊢
        by_cases ht : t = 1 ∨ t = 2 ∨ t = 3
        · have hget : s.get i = .ok (s.cell i) := Scratch.get_ok (by omega)
          simp only [ht, if_true, hget, Res.ok_bind] at hdef ⊢
          by_cases hc : s.cell i = 0
          · simp [hc, hu, ht]
          · simp only [hc, if_false] at hdef ⊢
            obtain ⟨i1, i2⟩ := ih (i + 1) (by omega) hdef
            refine ⟨i1, ?_⟩
            rw [i2]
            simp [hc]
        · simp only [ht, if_false] at hdef ⊢
          obtain ⟨i1, i2⟩ := ih (i + 1) (by omega) hdef
          refine ⟨i1, ?_⟩
          rw [i2, hu]
          simp [ht]

theorem count_cell_eq {l : List Nat} {p : Nat → Bool} {c : Nat} (hl : l.length < U32)
    (hc : c < U32) (h : c % U32 = (0 + l.countP p) % U32) : c = l.countP p := by
  have h1 : l.countP p ≤ l.length := List.countP_le_length p
  unfold U32 at *
  omega

theorem validateRule9_spec {img : Image} {sb : Superblock} {rsize : Nat}
    (hsb : img.superblock = .ok sb) (hsz : img.inodeSize ROOTINO = .ok rsize)
    (hdef : validateRule9 img ≠ .undefined)
    (hcount : (walkOffsets img (rsize / direntSize) sb.ninodes 0).length < U32) :
    (validateRule9 img = pass ∨ validateRule9 img = .fail .inodeNotInDir) ∧
    (validateRule9 img = pass ↔
      ∀ k, k < sb.ninodes → img.inUse k = true →
        ∃ off ∈ walkOffsets img (rsize / direntSize) sb.ninodes 0,
          entryInum img off = k ∧ k ≠ 0) := by
  simp only [validateRule9, hsb, hsz, Res.ok_bind] at hdef ⊢
  have hle := (walkInodes_le img (rsize / direntSize) (validateRule9.visit img) sb.ninodes 0
    (Scratch.zero sb.ninodes)).eq_of_ne (Res.bind_ne_undefined hdef)
  rw [hle] at hdef ⊢
  cases hf : foldRes (validateRule9.visit img)
      (walkOffsets img (rsize / direntSize) sb.ninodes 0) (Scratch.zero sb.ninodes) with
  | undefined => simp [hf] at hdef
  | fail m =>
    exact absurd hf (foldRes_ne_fail _ m (validateRule9_visit_ne_fail img m) _ _)
  | ok s =>
    simp only [hf, Res.ok_bind] at hdef ⊢
    obtain ⟨hlen, hlt, hcnt⟩ := countFold img (fun off => decide (entryInum img off ≠ 0))
      (validateRule9.visit img) (validateRule9_visit_spec img) _ _ _ hf
    have hlen2 : s.len = sb.ninodes := hlen
    have hz : ∀ i, (Scratch.zero sb.ninodes).cell i < U32 := by
      intro i
      show 0 < U32
      decide
    obtain ⟨c1, c2⟩ := validateRule9_check_spec img s sb.ninodes 0 (by omega) hdef
    refine ⟨c1, c2.trans ?_⟩
    have key : ∀ k, s.cell k ≠ 0 ↔
        ∃ off ∈ walkOffsets img (rsize / direntSize) sb.ninodes 0,
          entryInum img off = k ∧ k ≠ 0 := by
      intro k
      have e := count_cell_eq hcount (hlt hz k) (hcnt k)
      rw [e]
      constructor
      · intro h
        obtain ⟨off, ho, hp⟩ := List.countP_pos_iff.1 (Nat.pos_of_ne_zero h)
        simp only [Bool.and_eq_true, decide_eq_true_eq] at hp
        refine ⟨off, ho, hp.2, ?_⟩
        rw [← hp.2]
        exact hp.1
      · rintro ⟨off, ho, h1, h2⟩
        apply Nat.pos_iff_ne_zero.1
        apply List.countP_pos_iff.2
        refine ⟨off, ho, ?_⟩
        simp only [Bool.and_eq_true, decide_eq_true_eq]
        exact ⟨by rw [h1]; exact h2, h1⟩
    constructor
    · intro h k hk hu
      exact (key k).1 (h k (Nat.zero_le k) (by omega) hu)
    · intro h k _ hk hu
      exact (key k).2 (h k (by omega) hu)

/-! ## C16: Rule 9 -/

/-- C16, evaluated: in `imgLateEntry 3 2` every in-use inode (1, 2 and 3) is the inode
number of a non-empty entry stored in a block of an in-use directory; the File inode 3 is
named by the fourth entry of the directory at inode 2, inside that directory's own size
64.  `validateRule9` bounds the entry loop of every directory by `direntCount`, the size of
the root directory divided by 16, here 3, never reaches that entry and reports `inode
marked use but not found in a directory`; so does the checker, whose validators for Rules 1
to 8 pass. -/
theorem validateRule9_misses_late_entry :
    (imgLateEntry 3 2).superblock = .ok ⟨8, 5⟩ ∧
    ((imgLateEntry 3 2).inodeSize ROOTINO = .ok 48 ∧ (imgLateEntry 3 2).inodeType 2 = .ok 1 ∧
      (imgLateEntry 3 2).inodeSize 2 = .ok 64 ∧ (imgLateEntry 3 2).inodeAddr 2 0 = .ok 5 ∧
      entryInum (imgLateEntry 3 2) (blockOff 5 + direntSize * 3) = 3 ∧
      (imgLateEntry 3 2).inUse 3 = true) ∧
    (∀ k, k < 5 → (imgLateEntry 3 2).inUse k = true →
      ∃ off ∈ walkOffsets (imgLateEntry 3 2) (BSIZE / direntSize) 5 0,
        entryInum (imgLateEntry 3 2) off = k ∧ k ≠ 0) ∧
    validateRule9 (imgLateEntry 3 2) = .fail .inodeNotInDir ∧
    main (imgLateEntry 3 2) = .fail .inodeNotInDir := by
  refine ⟨?_, ⟨?_, ?_, ?_, ?_, ?_, ?_⟩, ?_, ?_, ?_⟩
  all_goals decide

/-- The behaviour of `validateRule9` as written, with its entry loops bounded by the root
directory's entry count: on every image on which it reads only inside the mapped buffer and
indexes only inside its counter array, and in which fewer than `2^32` entry records are
examined, it passes if and only if for every in-use inode number `k` (any type) there is an
in-use Directory inode one of whose non-empty entries, among the first
`size of inode 1 / 16` entry records that start at each of that directory's allocated direct
blocks and at each block listed in its indirect block, has inode number `k`; otherwise it
reports `inode marked use but not found in a directory`. -/
theorem validateRule9_pass_iff (img : Image) (sb : Superblock) (rsize : Nat)
    (hsb : img.superblock = .ok sb) (hsz : img.inodeSize ROOTINO = .ok rsize)
    (hdef : validateRule9 img ≠ .undefined)
    (hcount : (walkOffsets img (rsize / direntSize) sb.ninodes 0).length < U32) :
    (validateRule9 img = pass ∨ validateRule9 img = .fail .inodeNotInDir) ∧
    (validateRule9 img = pass ↔
      ∀ k, k < sb.ninodes → img.inUse k = true →
        ∃ off ∈ walkOffsets img (rsize / direntSize) sb.ninodes 0,
          entryInum img off = k ∧ k ≠ 0) :=
  validateRule9_spec hsb hsz hdef hcount

/-- An instance of `validateRule9_pass_iff`, on `imgLateEntry 3 2`. -/
theorem validateRule9_pass_iff_witness :
    (validateRule9 (imgLateEntry 3 2) = pass ∨
      validateRule9 (imgLateEntry 3 2) = .fail .inodeNotInDir) ∧
    (validateRule9 (imgLateEntry 3 2) = pass ↔
      ∀ k, k < 5 → (imgLateEntry 3 2).inUse k = true →
        ∃ off ∈ walkOffsets (imgLateEntry 3 2) (48 / direntSize) 5 0,
          entryInum (imgLateEntry 3 2) off = k ∧ k ≠ 0) :=
  validateRule9_pass_iff (imgLateEntry 3 2) ⟨8, 5⟩ 48 (by decide) (by decide) (by decide)
    (by decide)

/-! ## Rule 10 -/

theorem validateRule10_build_ne_fail (img : Image) (m : Msg) :
    ∀ n i s, validateRule10.build img n i s ≠ .fail m := by
  intro n
  induction n with
  | zero => intro i s; simp [validateRule10.build]
  | succ n ih =>
    intro i s
    rw [validateRule10.build]
    refine Res.bind_ne_fail (img.u16_ne_fail _ m) (fun t => ?_)
    split
    · exact ih _ _
    · split
      · exact Res.bind_ne_fail (Scratch.incr_ne_fail _ _ m) (fun s1 => ih _ _)
      · exact ih _ _

theorem validateRule10_build_spec (img : Image) :
    ∀ n i s s1, i + n ≤ s.len → validateRule10.build img n i s = .ok s1 →
      s1.len = s.len ∧
      ∀ k, s1.cell k =
        if i ≤ k ∧ k < i + n ∧ img.inUse k = true then (s.cell k + 1) % U32 else s.cell k := by
  intro n
  induction n with
  | zero =>
    intro i s s1 _ h
    simp only [validateRule10.build, Res.pure_eq, Res.ok.injEq] at h
    subst h
    refine ⟨rfl, fun k => ?_⟩
    rw [if_neg]
    omega
  | succ n ih =>
    intro i s s1 hi h
    rw [validateRule10.build] at h
    cases ht : img.inodeType i with
    | undefined => simp [ht] at h
    | fail m => simp [ht] at h
    | ok t =>
      simp only [ht, Res.ok_bind] at h
      have hu := Image.inUse_of_type ht
      have hrange : ∀ k, k ≠ i → ((i + 1 ≤ k ∧ k < i + 1 + n ∧ img.inUse k = true) ↔
          (i ≤ k ∧ k < i + (n + 1) ∧ img.inUse k = true)) := by
        intro k hk
        constructor <;> rintro ⟨a, b, c⟩ <;> exact ⟨by omega, by omega, c⟩
      by_cases hin : t = 1 ∨ t = 2 ∨ t = 3
      · have ht0 : t ≠ 0 := by omega
        have hlt : i < s.len := by omega
        simp only [ht0, if_false, hin, if_true, Scratch.incr_eq, hlt, Res.ok_bind] at h
        obtain ⟨h1, h2⟩ := ih _ _ _ (by show i + 1 + n ≤ s.len; omega) h
        refine ⟨h1, fun k => ?_⟩
        rw [h2 k]
        simp only [hin, decide_True] at hu
        by_cases hk : k = i
        · subst hk
          have c1 : ¬ (k + 1 ≤ k ∧ k < k + 1 + n ∧ img.inUse k = true) := by omega
          have c2 : k ≤ k ∧ k < k + (n + 1) ∧ img.inUse k = true := ⟨by omega, by omega, hu⟩
          rw [if_neg c1, if_pos c2]
          simp
        · simp only [hrange k hk, hk, if_false]
      · have hu2 : ¬ (img.inUse i = true) := by simp [hu, hin]
        have h2 : validateRule10.build img n (i + 1) s = .ok s1 := by
          by_cases ht0 : t = 0
          · simpa [ht0] using h
          · simpa [ht0, hin] using h
        obtain ⟨h1, h3⟩ := ih _ _ _ (by omega) h2
        refine ⟨h1, fun k => ?_⟩
        rw [h3 k]
        by_cases hk : k = i
        · subst hk
          have c1 : ¬ (k + 1 ≤ k ∧ k < k + 1 + n ∧ img.inUse k = true) := by omega
          have c2 : ¬ (k ≤ k ∧ k < k + (n + 1) ∧ img.inUse k = true) := fun c => hu2 c.2.2
          rw [if_neg c1, if_neg c2]
        · simp only [hrange k hk]

theorem validateRule10_visit_pass {img : Image} {u : Scratch} {off : Nat}
    (h : validateRule10.visit img u off () = .ok ()) (hz : entryInum img off ≠ 0) :
    entryInum img off < u.len ∧ u.cell (entryInum img off) ≠ 0 := by
  unfold validateRule10.visit at h
  cases h0 : img.u16 off with
  | undefined => simp [h0] at h
  | fail m => simp [h0] at h
  | ok inum =>
    rw [entryInum_of_read h0] at hz ⊢
    simp only [h0, Res.ok_bind, hz, if_false, Scratch.get] at h
    by_cases hl : inum < u.len
    · simp only [hl, if_true, Res.ok_bind] at h
      refine ⟨hl, fun hc => ?_⟩
      simp [hc] at h
    · simp [hl] at h

theorem validateRule10_visit_fail {img : Image} {u : Scratch} {off : Nat} {m : Msg}
    (h : validateRule10.visit img u off () = .fail m) :
    m = .inodeFreeInDir ∧ entryInum img off ≠ 0 ∧ entryInum img off < u.len ∧
      u.cell (entryInum img off) = 0 := by
  unfold validateRule10.visit at h
  cases h0 : img.u16 off with
  | undefined => simp [h0] at h
  | fail m => exact absurd h0 (img.u16_ne_fail _ _)
  | ok inum =>
    rw [entryInum_of_read h0]
    simp only [h0, Res.ok_bind] at h
    by_cases hz : inum = 0
    · simp [hz, pass] at h
    · simp only [hz, if_false, Scratch.get] at h
      by_cases hl : inum < u.len
      · simp only [hl, if_true, Res.ok_bind] at h
        by_cases hc : u.cell inum = 0
        · simp only [hc, if_true, Res.fail.injEq] at h
          exact ⟨h.symm, hz, hl, hc⟩
        · simp [hc, pass] at h
      · simp [hl] at h

theorem foldRes_ok_all {α : Type} (step : α → Unit → Res Unit) :
    ∀ l, foldRes step l () = .ok () → ∀ a ∈ l, step a () = .ok () := by
  intro l
  induction l with
  | nil => intro _ a ha; simp at ha
  | cons b l ih =>
    intro h a ha
    simp only [foldRes] at h
    cases hb : step b () with
    | undefined => simp [hb] at h
    | fail m => simp [hb] at h
    | ok x =>
      cases x
      simp only [hb, Res.ok_bind] at h
      rcases List.mem_cons.1 ha with e | e
      · rw [e]; exact hb
      · exact ih h a e

theorem foldRes_fail_exists {α : Type} (step : α → Unit → Res Unit) (m : Msg) :
    ∀ l, foldRes step l () = .fail m → ∃ a ∈ l, step a () = .fail m := by
  intro l
  induction l with
  | nil => intro h; simp [foldRes] at h
  | cons b l ih =>
    intro h
    simp only [foldRes] at h
    cases hb : step b () with
    | undefined => simp [hb] at h
    | fail m1 =>
      simp only [hb, Res.fail_bind, Res.fail.injEq] at h
      exact ⟨b, List.mem_cons_self _ _, by rw [hb, h]⟩
    | ok x =>
      cases x
      simp only [hb, Res.ok_bind] at h
      obtain ⟨a, ha, e⟩ := ih h
      exact ⟨a, List.mem_cons_of_mem _ ha, e⟩

theorem validateRule10_spec {img : Image} {sb : Superblock} {rsize : Nat}
    (hsb : img.superblock = .ok sb) (hsz : img.inodeSize ROOTINO = .ok rsize)
    (hdef : validateRule10 img ≠ .undefined) :
    (validateRule10 img = pass ∨ validateRule10 img = .fail .inodeFreeInDir) ∧
    (validateRule10 img = .fail .inodeFreeInDir ↔
      ∃ off ∈ walkOffsets img (rsize / direntSize) sb.ninodes 0,
        entryInum img off ≠ 0 ∧
          ¬ (entryInum img off < sb.ninodes ∧ img.inUse (entryInum img off) = true)) := by
  simp only [validateRule10, hsb, hsz, Res.ok_bind] at hdef ⊢
  cases hb : validateRule10.build img sb.ninodes 0 (Scratch.zero sb.ninodes) with
  | undefined => simp [hb] at hdef
  | fail m => exact absurd hb (validateRule10_build_ne_fail img m _ _ _)
  | ok u =>
    simp only [hb, Res.ok_bind] at hdef ⊢
    obtain ⟨hlen, hcell⟩ := validateRule10_build_spec img _ _ _ _
      (by show 0 + sb.ninodes ≤ sb.ninodes; omega) hb
    have hlen2 : u.len = sb.ninodes := hlen
    have hu : ∀ k, k < sb.ninodes → (u.cell k ≠ 0 ↔ img.inUse k = true) := by
      intro k hk
      rw [hcell k]
      have hz : (Scratch.zero sb.ninodes).cell k = 0 := rfl
      by_cases hi : img.inUse k = true
      · have c : 0 ≤ k ∧ k < 0 + sb.ninodes ∧ img.inUse k = true := ⟨by omega, by omega, hi⟩
        rw [if_pos c, hz]
        simp [hi, U32]
      · have c : ¬ (0 ≤ k ∧ k < 0 + sb.ninodes ∧ img.inUse k = true) := fun c => hi c.2.2
        rw [if_neg c, hz]
        simp [hi]
    have hle := (walkInodes_le img (rsize / direntSize) (validateRule10.visit img u)
      sb.ninodes 0 ()).eq_of_ne hdef
    rw [hle] at hdef ⊢
    cases hf : foldRes (validateRule10.visit img u)
        (walkOffsets img (rsize / direntSize) sb.ninodes 0) () with
    | undefined => exact absurd hf hdef
    | ok x =>
      cases x
      refine ⟨Or.inl rfl, ?_⟩
      constructor
      · intro h
        simp at h
      · rintro ⟨off, ho, hz, hbad⟩
        exfalso
        obtain ⟨a, b⟩ := validateRule10_visit_pass (foldRes_ok_all _ _ hf off ho) hz
        rw [hlen2] at a
        exact hbad ⟨a, (hu _ a).1 b⟩
    | fail m =>
      obtain ⟨off, ho, hv⟩ := foldRes_fail_exists _ m _ hf
      obtain ⟨hm, hz, hl, hc⟩ := validateRule10_visit_fail hv
      subst hm
      refine ⟨Or.inr rfl, ?_⟩
      constructor
      · intro _
        rw [hlen2] at hl
        refine ⟨off, ho, hz, fun hbad => ?_⟩
        exact (hu _ hl).2 hbad.2 hc
      · intro _
        rfl

/-! ## C17: Rule 10 -/

/-- C17, evaluated: in `imgLateEntry 3 0` the fourth entry of the directory at inode 2,
inside that directory's own size 64, is non-empty and carries the inode number 3, whose
table slot has the type Unused.  `validateRule10` bounds the entry loop of every directory
by `direntCount`, the size of the root directory divided by 16, here 3, never reaches that
entry and passes; the checker as a whole passes too. -/
theorem validateRule10_misses_late_entry :
    (imgLateEntry 3 0).superblock = .ok ⟨8, 5⟩ ∧
    ((imgLateEntry 3 0).inodeSize ROOTINO = .ok 48 ∧ (imgLateEntry 3 0).inodeType 2 = .ok 1 ∧
      (imgLateEntry 3 0).inodeSize 2 = .ok 64 ∧ (imgLateEntry 3 0).inodeAddr 2 0 = .ok 5 ∧
      entryInum (imgLateEntry 3 0) (blockOff 5 + direntSize * 3) = 3) ∧
    (∃ off ∈ walkOffsets (imgLateEntry 3 0) (BSIZE / direntSize) 5 0,
      entryInum (imgLateEntry 3 0) off ≠ 0 ∧
        ¬ (entryInum (imgLateEntry 3 0) off < 5 ∧
          (imgLateEntry 3 0).inUse (entryInum (imgLateEntry 3 0) off) = true)) ∧
    (imgLateEntry 3 0).inodeType 3 = .ok 0 ∧
    validateRule10 (imgLateEntry 3 0) = pass ∧
    main (imgLateEntry 3 0) = pass := by
  refine ⟨?_, ⟨?_, ?_, ?_, ?_, ?_⟩, ?_, ?_, ?_, ?_⟩
  all_goals decide

/-- The behaviour of `validateRule10` as written, with its entry loops bounded by the root
directory's entry count: on every image on which it reads only inside the mapped buffer and
indexes only inside its in-use array, it reports `inode referred to in directory but marked
free` if and only if some non-empty entry, among the first `size of inode 1 / 16` entry
records that start at each allocated direct block and at each block listed in the indirect
block of an in-use Directory inode, carries an inode number that is not the number of an
in-use inode; otherwise it passes. -/
theorem validateRule10_fail_iff (img : Image) (sb : Superblock) (rsize : Nat)
    (hsb : img.superblock = .ok sb) (hsz : img.inodeSize ROOTINO = .ok rsize)
    (hdef : validateRule10 img ≠ .undefined) :
    (validateRule10 img = pass ∨ validateRule10 img = .fail .inodeFreeInDir) ∧
    (validateRule10 img = .fail .inodeFreeInDir ↔
      ∃ off ∈ walkOffsets img (rsize / direntSize) sb.ninodes 0,
        entryInum img off ≠ 0 ∧
          ¬ (entryInum img off < sb.ninodes ∧ img.inUse (entryInum img off) = true)) :=
  validateRule10_spec hsb hsz hdef

/-- An instance of `validateRule10_fail_iff`, on `imgBothViolations`, where the third entry
of the root directory names the unused inode 3. -/
theorem validateRule10_fail_iff_witness :
    (validateRule10 imgBothViolations = pass ∨
      validateRule10 imgBothViolations = .fail .inodeFreeInDir) ∧
    (validateRule10 imgBothViolations = .fail .inodeFreeInDir ↔
      ∃ off ∈ walkOffsets imgBothViolations (48 / direntSize) 4 0,
        entryInum imgBothViolations off ≠ 0 ∧
          ¬ (entryInum imgBothViolations off < 4 ∧
            imgBothViolations.inUse (entryInum imgBothViolations off) = true)) :=
  validateRule10_fail_iff imgBothViolations ⟨8, 4⟩ 48 (by decide) (by decide) (by decide)

/-! ## Rules 11 and 12 -/

theorem Image.inodeNlink_ne_fail (img : Image) (p : Nat) (m : Msg) :
    img.inodeNlink p ≠ .fail m := by
  unfold Image.inodeNlink
  exact Res.bind_ne_fail (img.u16_ne_fail _ m) (fun n => by simp)

theorem validateRule11_12_visit_spec (img : Image) (off : Nat) (s s1 : Scratch)
    (h : validateRule11_12.visit img off s = .ok s1) :
    if linkEntry img off = true then s.incr (entryInum img off) = .ok s1 else s1 = s := by
  unfold validateRule11_12.visit at h
  cases h0 : img.u16 off with
  | undefined => simp [h0] at h
  | fail m => simp [h0] at h
  | ok inum =>
    simp only [h0, Res.ok_bind] at h
    have he := entryInum_of_read h0
    by_cases hz : inum = 0
    · simp only [hz, if_true, Res.pure_eq, Res.ok.injEq] at h
      have hl : linkEntry img off = false := by simp [linkEntry, he, hz]
      simp [hl, h]
    · simp only [hz, if_false] at h
      cases h1 : img.strEq (off + 2) dot with
      | undefined => simp [h1] at h
      | fail m => simp [h1] at h
      | ok isDot =>
        simp only [h1, Res.ok_bind] at h
        cases isDot with
        | true =>
          simp only [if_true, Res.pure_eq, Res.ok.injEq] at h
          have hl : linkEntry img off = false := by simp [linkEntry, entryIs, h0, hz, h1]
          simp [hl, h]
        | false =>
          simp only [Bool.false_eq_true, if_false] at h
          cases h2 : img.strEq (off + 2) dotdot with
          | undefined => simp [h2] at h
          | fail m => simp [h2] at h
          | ok isParent =>
            simp only [h2, Res.ok_bind] at h
            cases isParent with
            | true =>
              simp only [if_true, Res.pure_eq, Res.ok.injEq] at h
              have hl : linkEntry img off = false := by simp [linkEntry, entryIs, h0, hz, h2]
              simp [hl, h]
            | false =>
              simp only [Bool.false_eq_true, if_false] at h
              have hl : linkEntry img off = true := by
                simp [linkEntry, entryIs, h0, hz, h1, h2, he]
              simp [hl, he, h]

theorem validateRule11_12_visit_ne_fail (img : Image) (m : Msg) (off : Nat) (s : Scratch) :
    validateRule11_12.visit img off s ≠ .fail m := by
  unfold validateRule11_12.visit
  refine Res.bind_ne_fail (img.u16_ne_fail _ m) (fun inum => ?_)
  split
  · simp
  · refine Res.bind_ne_fail (img.strEq_ne_fail m _ _) (fun b => ?_)
    split
    · simp
    · refine Res.bind_ne_fail (img.strEq_ne_fail m _ _) (fun c => ?_)
      split
      · simp
      · exact Scratch.incr_ne_fail _ _ m

theorem validateRule11_12_check_pass (img : Image) (s : Scratch) :
    ∀ n i, validateRule11_12.check img s n i = pass →
      ∀ k, i ≤ k → k < i + n →
        (img.inodeType k = .ok 2 → img.inodeNlink k = .ok (s.cell k)) ∧
        (img.inodeType k = .ok 1 → s.cell k ≤ 1) := by
  intro n
  induction n with
  | zero =>
    intro i _ k h1 h2
    omega
  | succ n ih =>
    intro i h
    rw [forall_range_succ]
    rw [validateRule11_12.check] at h
    cases ht : img.inodeType i with
    | undefined => simp [ht, pass] at h
    | fail m1 => exact absurd ht (img.u16_ne_fail _ _)
    | ok t =>
      simp only [ht, Res.ok_bind] at h
      by_cases h0 : t = 0
      · simp only [h0, if_true] at h
        refine ⟨⟨fun e => ?_, fun e => ?_⟩, ih _ h⟩
        · simp [h0] at e
        · simp [h0] at e
      · simp only [h0, if_false] at h
        by_cases h2 : t = 2
        · subst h2
          simp only [if_true, Scratch.get] at h
          by_cases hl : i < s.len
          · simp only [hl, if_true, Res.ok_bind] at h
            cases hn : img.inodeNlink i with
            | undefined => simp [hn, pass] at h
            | fail m1 => exact absurd hn (img.inodeNlink_ne_fail _ _)
            | ok nl =>
              simp only [hn, Res.ok_bind] at h
              by_cases hc : s.cell i = nl
              · rw [if_neg (not_not.2 hc)] at h
                refine ⟨⟨fun _ => by rw [hc], fun e => ?_⟩, ih _ h⟩
                simp at e
              · rw [if_pos hc] at h
                simp [pass] at h
          · simp [hl, pass] at h
        · simp only [h2, if_false] at h
          by_cases h1 : t = 1
          · subst h1
            simp only [if_true, Scratch.get] at h
            by_cases hl : i < s.len
            · simp only [hl, if_true, Res.ok_bind] at h
              by_cases hc : 1 < s.cell i
              · rw [if_pos hc] at h
                simp [pass] at h
              · rw [if_neg hc] at h
                refine ⟨⟨fun e => ?_, fun _ => by omega⟩, ih _ h⟩
                simp at e
            · simp [hl, pass] at h
          · simp only [h1, if_false] at h
            refine ⟨⟨fun e => ?_, fun e => ?_⟩, ih _ h⟩
            · simp at e
              exact absurd e h2
            · simp at e
              exact absurd e h1

theorem validateRule11_12_check_fail (img : Image) (s : Scratch) :
    ∀ n i m, validateRule11_12.check img s n i = .fail m →
      (m = .badRefCount ∧ ∃ k, i ≤ k ∧ k < i + n ∧ img.inodeType k = .ok 2 ∧
        ∃ nl, img.inodeNlink k = .ok nl ∧ s.cell k ≠ nl) ∨
      (m = .dirTwice ∧ ∃ k, i ≤ k ∧ k < i + n ∧ img.inodeType k = .ok 1 ∧ 1 < s.cell k) := by
  intro n
  induction n with
  | zero =>
    intro i m h
    simp [validateRule11_12.check, pass] at h
  | succ n ih =>
    intro i m h
    have wk : ((m = .badRefCount ∧ ∃ k, i + 1 ≤ k ∧ k < i + 1 + n ∧ img.inodeType k = .ok 2 ∧
          ∃ nl, img.inodeNlink k = .ok nl ∧ s.cell k ≠ nl) ∨
        (m = .dirTwice ∧ ∃ k, i + 1 ≤ k ∧ k < i + 1 + n ∧ img.inodeType k = .ok 1 ∧
          1 < s.cell k)) →
        ((m = .badRefCount ∧ ∃ k, i ≤ k ∧ k < i + (n + 1) ∧ img.inodeType k = .ok 2 ∧
          ∃ nl, img.inodeNlink k = .ok nl ∧ s.cell k ≠ nl) ∨
        (m = .dirTwice ∧ ∃ k, i ≤ k ∧ k < i + (n + 1) ∧ img.inodeType k = .ok 1 ∧
          1 < s.cell k)) := by
      rintro (⟨hm, k, h1, h2, h3⟩ | ⟨hm, k, h1, h2, h3⟩)
      · exact Or.inl ⟨hm, k, by omega, by omega, h3⟩
      · exact Or.inr ⟨hm, k, by omega, by omega, h3⟩
    rw [validateRule11_12.check] at h
    cases ht : img.inodeType i with
    | undefined => simp [ht] at h
    | fail m1 => exact absurd ht (img.u16_ne_fail _ _)
    | ok t =>
      simp only [ht, Res.ok_bind] at h
      by_cases h0 : t = 0
      · simp only [h0, if_true] at h
        exact wk (ih _ _ h)
      · simp only [h0, if_false] at h
        by_cases h2 : t = 2
        · subst h2
          simp only [if_true, Scratch.get] at h
          by_cases hl : i < s.len
          · simp only [hl, if_true, Res.ok_bind] at h
            cases hn : img.inodeNlink i with
            | undefined => simp [hn] at h
            | fail m1 => exact absurd hn (img.inodeNlink_ne_fail _ _)
            | ok nl =>
              simp only [hn, Res.ok_bind] at h
              by_cases hc : s.cell i = nl
              · rw [if_neg (not_not.2 hc)] at h
                exact wk (ih _ _ h)
              · rw [if_pos hc] at h
                simp only [Res.fail.injEq] at h
                exact Or.inl ⟨h.symm, i, by omega, by omega, ht, nl, hn, hc⟩
          · simp [hl] at h
        · simp only [h2, if_false] at h
          by_cases h1 : t = 1
          · subst h1
            simp only [if_true, Scratch.get] at h
            by_cases hl : i < s.len
            · simp only [hl, if_true, Res.ok_bind] at h
              by_cases hc : 1 < s.cell i
              · rw [if_pos hc] at h
                simp only [Res.fail.injEq] at h
                exact Or.inr ⟨h.symm, i, by omega, by omega, ht, hc⟩
              · rw [if_neg hc] at h
                exact wk (ih _ _ h)
            · simp [hl] at h
          · simp only [h1, if_false] at h
            exact wk (ih _ _ h)

theorem validateRule11_12_cases {img : Image} {sb : Superblock} {rsize : Nat}
    (hsb : img.superblock = .ok sb) (hsz : img.inodeSize ROOTINO = .ok rsize)
    (hdef : validateRule11_12 img ≠ .undefined)
    (hcount : (walkOffsets img (rsize / direntSize) sb.ninodes 0).length < U32) :
    (validateRule11_12 img = pass ∧
      ∀ k, k < sb.ninodes →
        (img.inodeType k = .ok 2 →
          img.inodeNlink k = .ok (linkCount img (rsize / direntSize) sb.ninodes k)) ∧
        (img.inodeType k = .ok 1 → linkCount img (rsize / direntSize) sb.ninodes k ≤ 1)) ∨
    (validateRule11_12 img = .fail .badRefCount ∧
      ∃ k, k < sb.ninodes ∧ img.inodeType k = .ok 2 ∧
        ∃ nl, img.inodeNlink k = .ok nl ∧
          nl ≠ linkCount img (rsize / direntSize) sb.ninodes k) ∨
    (validateRule11_12 img = .fail .dirTwice ∧
      ∃ k, k < sb.ninodes ∧ img.inodeType k = .ok 1 ∧
        1 < linkCount img (rsize / direntSize) sb.ninodes k) := by
  simp only [validateRule11_12, hsb, hsz, Res.ok_bind] at hdef ⊢
  have hle := (walkInodes_le img (rsize / direntSize) (validateRule11_12.visit img) sb.ninodes 0
    (Scratch.zero sb.ninodes)).eq_of_ne (Res.bind_ne_undefined hdef)
  rw [hle] at hdef ⊢
  cases hf : foldRes (validateRule11_12.visit img)
      (walkOffsets img (rsize / direntSize) sb.ninodes 0) (Scratch.zero sb.ninodes) with
  | undefined => simp [hf] at hdef
  | fail m =>
    exact absurd hf (foldRes_ne_fail _ m (validateRule11_12_visit_ne_fail img m) _ _)
  | ok s =>
    simp only [hf, Res.ok_bind] at hdef ⊢
    obtain ⟨_, hlt, hcnt⟩ := countFold img (linkEntry img)
      (validateRule11_12.visit img) (validateRule11_12_visit_spec img) _ _ _ hf
    have hz : ∀ i, (Scratch.zero sb.ninodes).cell i < U32 := by
      intro i
      show 0 < U32
      decide
    have key : ∀ k, s.cell k = linkCount img (rsize / direntSize) sb.ninodes k :=
      fun k => count_cell_eq hcount (hlt hz k) (hcnt k)
    cases hc : validateRule11_12.check img s sb.ninodes 0 with
    | undefined => exact absurd hc hdef
    | ok x =>
      cases x
      refine Or.inl ⟨rfl, fun k hk => ?_⟩
      have := validateRule11_12_check_pass img s _ _ hc k (Nat.zero_le k) (by omega)
      rw [key k] at this
      exact this
    | fail m =>
      rcases validateRule11_12_check_fail img s _ _ _ hc with
        ⟨hm, k, _, h2, h3, nl, h4, h5⟩ | ⟨hm, k, _, h2, h3, h4⟩
      · subst hm
        rw [key k] at h5
        exact Or.inr (Or.inl ⟨rfl, k, by omega, h3, nl, h4, fun e => h5 e.symm⟩)
      · subst hm
        rw [key k] at h4
        exact Or.inr (Or.inr ⟨rfl, k, by omega, h3, h4⟩)

theorem validateRule11_12_eval :
    validateRule11_12 (imgLinks 2 2) = pass ∧
    linkCount (imgLinks 2 2) (64 / direntSize) 5 2 = 2 ∧
    validateRule11_12 (imgLinks 0 2) = .fail .badRefCount ∧
    linkCount (imgLinks 0 2) (64 / direntSize) 5 2 = 1 ∧
    validateRule11_12 (imgLinks 3 1) = .fail .dirTwice ∧
    linkCount (imgLinks 3 1) (64 / direntSize) 5 3 = 2 := by
  refine ⟨?_, ?_, ?_, ?_, ?_, ?_⟩
  all_goals decide

/-! ## C19: Rule 11 -/

/-- The behaviour of Rule 11 in `validateRule11_12` as written, with its entry loops bounded
by the root directory's entry count: on every image on which it reads only inside the
mapped buffer and indexes only inside its counter array, in which fewer than `2^32` entry
records are examined and no Directory inode is counted more than once, it reports `bad
reference count for file` if and only if some in-use File inode's stored link count differs
from the number of non-empty entries, not named `.` or `..`, that carry its number among
the first `size of inode 1 / 16` entry records that start at each allocated direct block and
at each block listed in the indirect block of an in-use Directory inode; otherwise it
passes. -/
theorem validateRule11_12_badRefCount_iff (img : Image) (sb : Superblock) (rsize : Nat)
    (hsb : img.superblock = .ok sb) (hsz : img.inodeSize ROOTINO = .ok rsize)
    (hdef : validateRule11_12 img ≠ .undefined)
    (hcount : (walkOffsets img (rsize / direntSize) sb.ninodes 0).length < U32)
    (hdirs : ∀ k, k < sb.ninodes → img.inodeType k = .ok 1 →
      linkCount img (rsize / direntSize) sb.ninodes k ≤ 1) :
    (validateRule11_12 img = pass ∨ validateRule11_12 img = .fail .badRefCount) ∧
    (validateRule11_12 img = .fail .badRefCount ↔
      ∃ k, k < sb.ninodes ∧ img.inodeType k = .ok 2 ∧
        ∃ nl, img.inodeNlink k = .ok nl ∧
          nl ≠ linkCount img (rsize / direntSize) sb.ninodes k) := by
  rcases validateRule11_12_cases hsb hsz hdef hcount with
    ⟨h, hall⟩ | ⟨h, hex⟩ | ⟨_, k, hk, ht, hc⟩
  · refine ⟨Or.inl h, ?_⟩
    rw [h]
    constructor
    · intro e
      simp [pass] at e
    · rintro ⟨k, hk, ht, nl, hn, hne⟩
      have := (hall k hk).1 ht
      rw [hn] at this
      simp only [Res.ok.injEq] at this
      exact absurd this hne
  · exact ⟨Or.inr h, fun _ => hex, fun _ => h⟩
  · have := hdirs k hk ht
    omega

/-- Two instances of `validateRule11_12_badRefCount_iff`: the File inode 2 of link count 2
referenced from the root directory only (`imgLinks 0 2`) and from two directories
(`imgLinks 2 2`), by entries that are among those examined. -/
theorem validateRule11_12_badRefCount_iff_witness :
    ((validateRule11_12 (imgLinks 0 2) = pass ∨
        validateRule11_12 (imgLinks 0 2) = .fail .badRefCount) ∧
      (validateRule11_12 (imgLinks 0 2) = .fail .badRefCount ↔
        ∃ k, k < 5 ∧ (imgLinks 0 2).inodeType k = .ok 2 ∧
          ∃ nl, (imgLinks 0 2).inodeNlink k = .ok nl ∧
            nl ≠ linkCount (imgLinks 0 2) (64 / direntSize) 5 k)) ∧
    ((validateRule11_12 (imgLinks 2 2) = pass ∨
        validateRule11_12 (imgLinks 2 2) = .fail .badRefCount) ∧
      (validateRule11_12 (imgLinks 2 2) = .fail .badRefCount ↔
        ∃ k, k < 5 ∧ (imgLinks 2 2).inodeType k = .ok 2 ∧
          ∃ nl, (imgLinks 2 2).inodeNlink k = .ok nl ∧
            nl ≠ linkCount (imgLinks 2 2) (64 / direntSize) 5 k)) :=
  ⟨validateRule11_12_badRefCount_iff (imgLinks 0 2) ⟨8, 5⟩ 64 (by decide) (by decide)
      (by decide) (by decide) (by decide),
   validateRule11_12_badRefCount_iff (imgLinks 2 2) ⟨8, 5⟩ 64 (by decide) (by decide)
      (by decide) (by decide) (by decide)⟩

/-! ## C20: Rule 12 -/

/-- C20, evaluated: in `imgLateEntry 2 0` there is no File inode, and the Directory inode 2
is the inode number of two non-empty entries not named `.` or `..`: the third entry of the
root directory and the fourth entry of its own block, inside its own size 64.
`validateRule11_12` bounds the entry loop of every directory by `direntCount`, the size of
the root directory divided by 16, here 3, never counts the second entry and passes; the
checker as a whole passes too. -/
theorem validateRule11_12_misses_second_link :
    (imgLateEntry 2 0).superblock = .ok ⟨8, 5⟩ ∧
    ((imgLateEntry 2 0).inodeSize ROOTINO = .ok 48 ∧ (imgLateEntry 2 0).inodeSize 2 = .ok 64 ∧
      (imgLateEntry 2 0).inodeAddr 2 0 = .ok 5 ∧
      entryInum (imgLateEntry 2 0) (blockOff 5 + direntSize * 3) = 2 ∧
      linkEntry (imgLateEntry 2 0) (blockOff 5 + direntSize * 3) = true) ∧
    (∀ k, k < 5 → (imgLateEntry 2 0).inodeType k = .ok 2 →
      (imgLateEntry 2 0).inodeNlink k
        = .ok (linkCount (imgLateEntry 2 0) (BSIZE / direntSize) 5 k)) ∧
    (imgLateEntry 2 0).inodeType 2 = .ok 1 ∧
    (linkCount (imgLateEntry 2 0) (BSIZE / direntSize) 5 2 = 2 ∧
      linkCount (imgLateEntry 2 0) (64 / direntSize) 5 2 = 2) ∧
    validateRule11_12 (imgLateEntry 2 0) = pass ∧
    main (imgLateEntry 2 0) = pass := by
  refine ⟨?_, ⟨?_, ?_, ?_, ?_, ?_⟩, ?_, ?_, ⟨?_, ?_⟩, ?_, ?_⟩
  all_goals decide

/-- The behaviour of Rule 12 in `validateRule11_12` as written, with its entry loops bounded
by the root directory's entry count: on every image on which it reads only inside the
mapped buffer and indexes only inside its counter array, in which fewer than `2^32` entry
records are examined and every in-use File inode's link count matches its counter, it
reports `directory appears more than once in file system` if and only if some in-use
Directory inode is the inode number of more than one non-empty entry, not named `.` or
`..`, among the first `size of inode 1 / 16` entry records that start at each allocated
direct block and at each block listed in the indirect block of an in-use Directory inode;
otherwise it passes. -/
theorem validateRule11_12_dirTwice_iff (img : Image) (sb : Superblock) (rsize : Nat)
    (hsb : img.superblock = .ok sb) (hsz : img.inodeSize ROOTINO = .ok rsize)
    (hdef : validateRule11_12 img ≠ .undefined)
    (hcount : (walkOffsets img (rsize / direntSize) sb.ninodes 0).length < U32)
    (hfiles : ∀ k, k < sb.ninodes → img.inodeType k = .ok 2 →
      img.inodeNlink k = .ok (linkCount img (rsize / direntSize) sb.ninodes k)) :
    (validateRule11_12 img = pass ∨ validateRule11_12 img = .fail .dirTwice) ∧
    (validateRule11_12 img = .fail .dirTwice ↔
      ∃ k, k < sb.ninodes ∧ img.inodeType k = .ok 1 ∧
        1 < linkCount img (rsize / direntSize) sb.ninodes k) := by
  rcases validateRule11_12_cases hsb hsz hdef hcount with
    ⟨h, hall⟩ | ⟨_, k, hk, ht, nl, hn, hne⟩ | ⟨h, hex⟩
  · refine ⟨Or.inl h, ?_⟩
    rw [h]
    constructor
    · intro e
      simp [pass] at e
    · rintro ⟨k, hk, ht, hc⟩
      have := (hall k hk).2 ht
      omega
  · have := hfiles k hk ht
    rw [hn] at this
    simp only [Res.ok.injEq] at this
    exact absurd this hne
  · exact ⟨Or.inr h, fun _ => hex, fun _ => h⟩

/-- An instance of `validateRule11_12_dirTwice_iff`, on `imgLinks 3 1`, where the directory
at inode 3 is named by an entry of the root directory and by an entry of its own block. -/
theorem validateRule11_12_dirTwice_iff_witness :
    (validateRule11_12 (imgLinks 3 1) = pass ∨
      validateRule11_12 (imgLinks 3 1) = .fail .dirTwice) ∧
    (validateRule11_12 (imgLinks 3 1) = .fail .dirTwice ↔
      ∃ k, k < 5 ∧ (imgLinks 3 1).inodeType k = .ok 1 ∧
        1 < linkCount (imgLinks 3 1) (64 / direntSize) 5 k) :=
  validateRule11_12_dirTwice_iff (imgLinks 3 1) ⟨8, 5⟩ 64 (by decide) (by decide)
    (by decide) (by decide) (by decide)

/-! ## C21: reads outside the buffer -/

/-- C21, evaluated: no validator checks an offset against the length of the buffer.  On
`imgTruncated` the first read of `validateRule1`, of the superblock, lies outside the
buffer.  On `imgWildIndirect` (superblock field `nblocks` = 1000, file of 4096 bytes)
`validateRule1` passes and `validateRule2` accepts the indirect pointer 900 of the root
inode and reads the indirect block at byte 460800, outside the buffer.  On `imgWildRoot`
`validateRule1` and `validateRule2` pass and `validateRule3` reads the first entry of the
root directory at byte 512000000.  In each case the run has no exit status and prints
nothing: it does not stop with an error of its own. -/
theorem main_reads_outside_buffer :
    (validateRule1 imgTruncated = .undefined ∧ main imgTruncated = .undefined) ∧
    (imgWildIndirect.superblock = .ok ⟨1000, 4⟩ ∧
      imgWildIndirect.inodeAddr 1 NDIRECT = .ok 900 ∧
      imgWildIndirect.size < blockOff 900 ∧
      validateRule1 imgWildIndirect = pass ∧
      validateRule2 imgWildIndirect = .undefined ∧
      main imgWildIndirect = .undefined ∧
      exitStatus (main imgWildIndirect) = none ∧
      stderrLine (main imgWildIndirect) = none) ∧
    (imgWildRoot.superblock = .ok ⟨8, 4⟩ ∧
      imgWildRoot.inodeAddr 1 0 = .ok 1000000 ∧
      imgWildRoot.size < blockOff 1000000 ∧
      validateRule1 imgWildRoot = pass ∧
      validateRule2 imgWildRoot = pass ∧
      validateRule3 imgWildRoot = .undefined ∧
      main imgWildRoot = .undefined) := by
  refine ⟨⟨?_, ?_⟩, ⟨?_, ?_, ?_, ?_, ?_, ?_, ?_, ?_⟩, ⟨?_, ?_, ?_, ?_, ?_, ?_, ?_⟩⟩
  all_goals decide

/-! ## C23: the inode scan of Rule 2 -/

theorem validateRule2_scan_step (img : Image) (sb : Superblock) (fuel i p : Nat) :
    validateRule2.scan img sb (fuel + 1) i p =
      if sb.ninodes ≤ i then pass
      else validateRule2.body img sb i p >>= fun i1 =>
        validateRule2.scan img sb fuel (i1 + 1) (p + 1) := by
  rw [validateRule2.scan]
  by_cases hi : sb.ninodes ≤ i
  · simp only [hi, if_true]
  · simp only [hi, if_false, validateRule2.body]
    cases img.inodeType p with
    | undefined => rfl
    | fail m => rfl
    | ok t =>
      simp only [Res.ok_bind]
      by_cases h0 : t = 0
      · simp only [h0, if_true, Res.pure_eq, Res.ok_bind]
      · simp only [h0, if_false]
        by_cases ht : t = 1 ∨ t = 2 ∨ t = 3
        · simp only [ht, if_true]
          cases img.inodeSize p with
          | undefined => rfl
          | fail m => rfl
          | ok sz =>
            simp only [Res.ok_bind]
            by_cases hz : sz = 0
            · simp only [hz, if_true, Res.pure_eq, Res.ok_bind]
            · simp only [hz, if_false]
              cases validateRule2.direct img sb p NDIRECT 0 with
              | undefined => rfl
              | fail m => rfl
              | ok u =>
                simp only [Res.ok_bind]
                cases img.inodeAddr p NDIRECT with
                | undefined => rfl
                | fail m => rfl
                | ok ind =>
                  simp only [Res.ok_bind]
                  by_cases hd : ind = 0
                  · simp only [hd, if_true, Res.pure_eq, Res.ok_bind]
                  · simp only [hd, if_false]
                    by_cases hr : ind ≤ lastBitmapBlock sb.ninodes ∨ sb.nblocks ≤ ind
                    · simp only [hr, if_true, Res.fail_bind]
                    · simp only [hr, if_false]
                      cases validateRule2.indirect img sb NINDIRECT (blockOff ind) with
                      | undefined => rfl
                      | fail m => rfl
                      | ok u2 => simp only [Res.ok_bind, Res.pure_eq]
        · simp only [ht, if_false, Res.pure_eq, Res.ok_bind]

theorem validateRule1_slots_of_pass (img : Image) :
    ∀ n p, validateRule1.scan img n p = pass → validateRule1.slots img n p = List.range' p n := by
  intro n
  induction n with
  | zero => intro p _; rfl
  | succ n ih =>
    intro p h
    rw [validateRule1.scan] at h
    rw [validateRule1.slots, List.range'_succ]
    cases ht : img.inodeType p with
    | undefined => simp [ht] at h
    | fail m => simp [ht] at h
    | ok t =>
      simp only [ht, Res.ok_bind] at h ⊢
      by_cases h0 : t = 0
      · simp only [h0, if_true] at h ⊢
        rw [ih _ h]
      · simp only [h0, if_false] at h ⊢
        by_cases h1 : t = 1 ∨ t = 2 ∨ t = 3
        · simp only [h1, if_true] at h ⊢
          rw [ih _ h]
        · simp [h1] at h

/-- C23, evaluated: the inner loops of `validateRule2` leave the counter `i` of the inode
loop at 12 or 128 while the record pointer keeps its place.  On `imgPastTable 2` (16 inode
slots) `validateRule1` reads the slots 0 to 14; `validateRule2` reaches slot 14 with
`i = 15`, leaves it with `i = 13`, goes on to read the records at the indices 15 and 16 and
reports `bad direct address in inode` for the bytes at index 16, outside the table; with
the type tag 0 at that place (`imgPastTable 0`) it reads the indices 0 to 17 and passes.
On `imgFilePointer 9` (5 inode slots) `validateRule1` reads the slots 0 to 3 and
`validateRule2` only the slots 0 and 1: the scan ends early. -/
theorem validateRule2_scan_leaves_table :
    ((imgPastTable 2).superblock = .ok ⟨8, 16⟩ ∧
      validateRule1 (imgPastTable 2) = pass ∧
      validateRule1.slots (imgPastTable 2) (16 - 1) 0 = List.range 15 ∧
      validateRule2.slots (imgPastTable 2) ⟨8, 16⟩ (imgPastTable 2).size 1 0 = List.range 17 ∧
      validateRule2 (imgPastTable 2) = .fail .badDirect ∧
      validateRule2.slots (imgPastTable 0) ⟨8, 16⟩ (imgPastTable 0).size 1 0 = List.range 18 ∧
      validateRule2 (imgPastTable 0) = pass) ∧
    ((imgFilePointer 9).superblock = .ok ⟨8, 5⟩ ∧
      validateRule1 (imgFilePointer 9) = pass ∧
      validateRule1.slots (imgFilePointer 9) (5 - 1) 0 = [0, 1, 2, 3] ∧
      validateRule2.slots (imgFilePointer 9) ⟨8, 5⟩ (imgFilePointer 9).size 1 0 = [0, 1] ∧
      validateRule2 (imgFilePointer 9) = pass) := by
  refine ⟨⟨?_, ?_, ?_, ?_, ?_, ?_, ?_⟩, ⟨?_, ?_, ?_, ?_, ?_⟩⟩
  all_goals decide

/-! ## C25: the scratch index of Rules 6 to 8 -/

/-- C25, evaluated: `imgZeroSize` passes `validateRule1` to `validateRule5` (`validateRule2`
skips an in-use inode of size 0, `validateRule5` skips a pointer outside the valid range),
its in-use inode 2 has the direct pointer 1, below the first data block 4, and the index
`1 - firstDataBlock` wraps to 4294967293, outside an array of `nblocks` = 8 elements:
`validateRule6` writes and `validateRule7_8` reads outside their array. -/
theorem validateRule6_index_out_of_bounds :
    imgZeroSize.superblock = .ok ⟨8, 4⟩ ∧
    (validateRule1 imgZeroSize = pass ∧ validateRule2 imgZeroSize = pass ∧
      validateRule3 imgZeroSize = pass ∧ validateRule4 imgZeroSize = pass ∧
      validateRule5 imgZeroSize = pass) ∧
    (imgZeroSize.inUse 2 = true ∧ imgZeroSize.inodeAddr 2 0 = .ok 1 ∧
      (RefKind.direct, 1) ∈ allRefs imgZeroSize 4 ∧ firstDataBlock 4 = 4) ∧
    (dataIndex (firstDataBlock 4) 1 = 4294967293 ∧
      ¬ dataIndex (firstDataBlock 4) 1 < 8 ∧
      (Scratch.zero 8).get (dataIndex (firstDataBlock 4) 1) = .undefined) ∧
    (validateRule6 imgZeroSize = .undefined ∧ validateRule7_8 imgZeroSize = .undefined ∧
      main imgZeroSize = .undefined) := by
  refine ⟨?_, ⟨?_, ?_, ?_, ?_, ?_⟩, ⟨?_, ?_, ?_, ?_⟩, ⟨?_, ?_, ?_⟩, ⟨?_, ?_, ?_⟩⟩
  all_goals decide

/-! ## C22: the self-check of Rule 4 -/

/-- C22: in `validateRule4` the counter `i` starts at 1 with the record pointer at slot 0
and both advance by one at every iteration (the inner loops count with `j` and `k`), so in
every iteration the value `i - 1` compared with the inode number of a `.` entry is the
index `p` of the record examined: the scan is the scan in which the directory at slot `p`
is checked against the number `p`, and a `.` entry with inode number `inum` sets the
self-check flag exactly when `inum = p`. -/
theorem validateRule4_self_is_slot (img : Image) (cnt : Nat) :
    (∀ n p, validateRule4.scan img cnt n (p + 1) p = rule4SlotReference img cnt n p) ∧
    (validateRule4 img = (do
      let rsize ← img.inodeSize ROOTINO
      let sb ← img.superblock
      rule4SlotReference img (rsize / direntSize) (sb.ninodes - 1) 0)) ∧
    (∀ (p : Nat) (f : Flags) (inum : Nat) (isParent : Bool),
      (f.visit (p + 1 - 1) inum true isParent).currPToItself
        = (decide (inum = p) || f.currPToItself)) := by
  have h1 : ∀ (c n p : Nat),
      validateRule4.scan img c n (p + 1) p = rule4SlotReference img c n p := by
    intro c n
    induction n with
    | zero => intro p; rfl
    | succ n ih =>
      intro p
      rw [validateRule4.scan, rule4SlotReference]
      simp only [Nat.add_sub_cancel, ih]
  refine ⟨h1 cnt, ?_, ?_⟩
  · unfold validateRule4
    cases img.inodeSize ROOTINO with
    | undefined => rfl
    | fail m => rfl
    | ok rsize =>
      simp only [Res.ok_bind]
      cases img.superblock with
      | undefined => rfl
      | fail m => rfl
      | ok sb =>
        simp only [Res.ok_bind]
        exact h1 _ _ 0
  · intro p f inum isParent
    simp only [Nat.add_sub_cancel, Flags.visit, if_true]
    cases isParent <;> by_cases h : inum = p <;> simp [h]

/-! ## Images that differ in the size fields of other inodes -/

end Fcheck
